import Mathlib

/-!
Shallow embedding of the value-resolution and change-propagation engine of
`node-config-panel` (`src/main.ts`, `ConfigPanel` class).  JavaScript values
that can appear as raw or parsed configuration values are modelled by `JVal`;
zod type descriptors by `ZodType` (an opaque `parse` plus a `defaultValue`,
exactly the contract the spec assigns to the external validation library);
the panel's mutable fields (`rawInputMap`, `valueMap`, `isValueMapDirty`)
by an explicit `PanelState` threaded through every operation.  JavaScript
exceptions are modelled by `Except`, carrying the post-state, because a
thrown exception in JS preserves any mutation already performed.  Object
identity of the per-category value containers (which the spec's in-place
mutation guarantees are about) is modelled by tagging each container with
an allocation id (`ValueCat.oid`): an id is allocated when the container
object is created and survives in-place mutation, while a bulk recompute
allocates fresh ids (new objects).
-/

set_option autoImplicit false

namespace NodeConfigPanel

/-- A JavaScript value, as far as raw/parsed configuration values need:
`undefined`, `null`, booleans, numbers (integral) and strings. -/
inductive JVal where
  | undef
  | null
  | bool (b : Bool)
  | num (n : Int)
  | str (s : String)
deriving DecidableEq, Repr

/-- JS string coercion as used in template literals. -/
def jsToStr : JVal → String
  | .undef => "undefined"
  | .null => "null"
  | .bool true => "true"
  | .bool false => "false"
  | .num n => toString n
  | .str s => s

/-- Association-list lookup that finds the first matching key (JS property
read on objects built in insertion order). -/
def lookupA {α : Type} : List (String × α) → String → Option α
  | [], _ => none
  | (k, v) :: r, q => if k = q then some v else lookupA r q

/-- Association-list write with JS property-set semantics: an existing key
keeps its position, a new key is appended. -/
def setA {α : Type} : List (String × α) → String → α → List (String × α)
  | [], q, w => [(q, w)]
  | (k, v) :: r, q, w => if k = q then (q, w) :: r else (k, v) :: setA r q w

/-- Update the value at a key in place, when present. -/
def updA {α : Type} : List (String × α) → String → (α → α) → List (String × α)
  | [], _, _ => []
  | (k, v) :: r, q, f => if k = q then (k, f v) :: r else (k, v) :: updA r q f

/-- The opaque type descriptor contract: `parse` either yields the typed
value or a list of issue messages, and `def.defaultValue` is the zod-level
default (`undefined` when the type declares none). -/
structure ZodType where
  parse : JVal → Except (List String) JVal
  defaultValue : JVal := (.undef)

/-- One field of the schema: the descriptor plus the metadata the engine
reads (`default`, `envName`, `argName`).  UI-only metadata is omitted. -/
structure ConfigDefinition where
  type : ZodType
  default : JVal := .undef
  envName : Option String := none
  argName : Option String := none

/-- The configured default raw value: `confDef.default ?? confDef.type.def.defaultValue`
(JS `??` falls through on both `undefined` and `null`). -/
def defaultRaw (d : ConfigDefinition) : JVal :=
  match d.default with
  | .undef => d.type.defaultValue
  | .null => d.type.defaultValue
  | v => v

/-- The composed schema: category key to field key to definition. -/
abbrev Schema := List (String × List (String × ConfigDefinition))

/-- A category's raw (or parsed) field values. -/
abbrev FieldMap := List (String × JVal)

/-- The raw value store: category to fields. -/
abbrev CatMap := List (String × FieldMap)

/-- One aggregated validation issue: the offending path and its messages. -/
abbrev AggIssue := List String × List String

/-- Payload of an emitted event. -/
inductive Payload where
  | pathValue (path : List String) (value : JVal)
  | value (v : JVal)
  | valuesTree (t : CatMap)
  | errAgg (issues : List AggIssue)
  | invalidChange (path : List String) (raw : JVal) (msg : String)
deriving DecidableEq, Repr

/-- An event emitted through the `EventEmitter`. -/
structure Event where
  name : String
  payload : Payload
deriving DecidableEq, Repr

/-- A per-category value container of the value cache, tagged with the
allocation id that models JS object identity. -/
structure ValueCat where
  oid : Nat
  vals : FieldMap
deriving DecidableEq, Repr

/-- The mutable state of a `ConfigPanel` instance. -/
structure PanelState where
  configMap : Schema
  rawInputMap : CatMap
  valueMap : List (String × ValueCat)
  nextId : Nat
  isValueMapDirty : Bool
  events : List Event

/-- Append an emitted event to the log. -/
def emit (s : PanelState) (n : String) (p : Payload) : PanelState :=
  { s with events := s.events ++ [⟨n, p⟩] }

/-- Raw value at a path, with JS `rawInputMap[cat]?.[fld]` read semantics
(`undefined` when either level is missing). -/
def rawGetIn (m : CatMap) (cat fld : String) : JVal :=
  match lookupA m cat with
  | none => .undef
  | some fs => (lookupA fs fld).getD .undef

def rawGet (s : PanelState) (cat fld : String) : JVal :=
  rawGetIn s.rawInputMap cat fld

/-- Cached parsed value at a path, dereferencing the category container. -/
def valGet (s : PanelState) (cat fld : String) : JVal :=
  match lookupA s.valueMap cat with
  | none => .undef
  | some vc => ((lookupA vc.vals fld).getD .undef)

/-- Dereference a container by its allocation id: the view a previously
obtained JS reference to a category object has of the current state. -/
def derefOid (s : PanelState) (i : Nat) : Option FieldMap :=
  match s.valueMap.find? (fun cv => cv.2.oid = i) with
  | none => none
  | some cv => some cv.2.vals

/-- The `rawNode[part] = rawNode[part] || {}` step of the `setRawValue`
walk: ensure the raw category container exists. -/
def ensureRawCat (s : PanelState) (cat : String) : PanelState :=
  match lookupA s.rawInputMap cat with
  | some _ => s
  | none => { s with rawInputMap := setA s.rawInputMap cat [] }

/-- The `valueNode[part] = valueNode[part] || {}` step: ensure the value
category container exists, allocating a fresh object when absent. -/
def ensureValCat (s : PanelState) (cat : String) : PanelState :=
  match lookupA s.valueMap cat with
  | some _ => s
  | none =>
    { s with
      valueMap := setA s.valueMap cat ⟨s.nextId, []⟩
      nextId := s.nextId + 1 }

/-- The container-ensuring walk of `setRawValue` for a `[category, field]`
path: both levels of both trees. -/
def ensureCat (s : PanelState) (cat : String) : PanelState :=
  ensureValCat (ensureRawCat s cat) cat

/-- Write a raw value at an (ensured) path. -/
def writeRaw (s : PanelState) (cat fld : String) (v : JVal) : PanelState :=
  { s with rawInputMap := updA s.rawInputMap cat (fun fs => setA fs fld v) }

/-- Write a parsed value into the (ensured) category container, in place:
the container keeps its allocation id. -/
def writeVal (s : PanelState) (cat fld : String) (v : JVal) : PanelState :=
  { s with valueMap := updA s.valueMap cat (fun vc => ⟨vc.oid, setA vc.vals fld v⟩) }

/-- `setRawValue(path, rawValue, defConfig?)`: with a definition, parse
first and write both stores only on success (wrapping the zod issues into
an error message that names the joined path); without one, write the raw
store unconditionally and mark the cache dirty.  The error branch carries
the post-state because a JS throw keeps mutations already made (here: the
container-ensuring walk). -/
def setRawValue (s : PanelState) (cat fld : String) (rawValue : JVal) :
    Option ConfigDefinition → Except (String × PanelState) (JVal × PanelState)
  | some d =>
    match d.type.parse rawValue with
    | .error issues =>
      .error ("Invalid value for " ++ cat ++ "." ++ fld ++ ": "
        ++ String.intercalate "; " issues ++ " (" ++ jsToStr rawValue ++ ")", ensureCat s cat)
    | .ok p =>
      .ok (p, writeRaw (writeVal (ensureCat s cat) cat fld p) cat fld rawValue)
  | none =>
    .ok (.null, writeRaw { ensureCat s cat with isValueMapDirty := true } cat fld rawValue)

/-- The unvalidated write path (`setRawValue` with no definition), as a
total function. -/
def setRawUnval (s : PanelState) (cat fld : String) (v : JVal) : PanelState :=
  match setRawValue s cat fld v none with
  | .ok (_, s') => s'
  | .error (_, s') => s'

/-- The state a `ConfigPanel` has before the constructor loop runs:
both stores empty, cache dirty, nothing emitted. -/
def initState (schema : Schema) : PanelState :=
  { configMap := schema
    rawInputMap := []
    valueMap := []
    nextId := 0
    isValueMapDirty := true
    events := [] }

/-- The constructor: for every category and field, in schema order,
`setRawValue([catKey, confKey], confDef.default ?? confDef.type.def.defaultValue)`
through the unvalidated path. -/
def construct (schema : Schema) : PanelState :=
  schema.foldl
    (fun s cf => cf.2.foldl (fun s' fd => setRawUnval s' cf.1 fd.1 (defaultRaw fd.2)) s)
    (initState schema)

/-- ASCII lower-casing, structurally recursive on the character list so
that concrete environment keys evaluate. -/
def lowerStr (s : String) : String :=
  String.mk (s.data.map Char.toLower)

/-- The environment key a field is looked up under:
`(conf.envName || prefix + cat + '_' + fld).toLowerCase()`. -/
def envKeyOf (pfx cat fld : String) (d : ConfigDefinition) : String :=
  lowerStr
    (match d.envName with
     | some n => n
     | none => pfx ++ cat ++ "_" ++ fld)

/-- `fromEnvironment`: for every schema field whose environment key is
present in the (already lower-cased, stringified) environment map, write
the string value through the unvalidated path. -/
def fromEnvironment (s : PanelState) (env : List (String × String)) (pfx : String) :
    PanelState :=
  s.configMap.foldl
    (fun st cf =>
      cf.2.foldl
        (fun st' fd =>
          match lookupA env (envKeyOf pfx cf.1 fd.1 fd.2) with
          | some v => setRawUnval st' cf.1 fd.1 (.str v)
          | none => st')
        st)
    s

/-- JS `Object.assign(target, obj)` on the top (category) level. -/
def objAssign (m : CatMap) (obj : CatMap) : CatMap :=
  obj.foldl (fun acc kv => setA acc kv.1 kv.2) m

/-- `fromJSON`: `Object.assign(this.rawInputMap, obj)` then mark dirty;
a missing file (`none`, with the default `ignoreMissing = true`) is a
no-op.  The parsed file is a `{ category: { field: rawValue } }` object
per the persisted-state layout. -/
def fromJSON (s : PanelState) (obj : Option CatMap) : PanelState :=
  match obj with
  | none => s
  | some o =>
    { s with rawInputMap := objAssign s.rawInputMap o, isValueMapDirty := true }

/-- `toJSON`: the object written to disk, i.e. `JSON.stringify(this.rawInputMap)`
followed by the parse a later `fromJSON` performs.  Serialisation drops
`undefined`-valued fields, exactly as `JSON.stringify` does. -/
def toJSON (s : PanelState) : CatMap :=
  s.rawInputMap.map (fun cp => (cp.1, cp.2.filter (fun fv => fv.2 ≠ JVal.undef)))

/-- The setter table `fromArgs` builds: keyed by `argName` (a later field
with the same `argName` silently replaces the earlier setter, keeping the
original insertion position, as JS object assignment does). -/
def buildSetters (schema : Schema) : List (String × (String × String × ConfigDefinition)) :=
  schema.foldl
    (fun acc cf =>
      cf.2.foldl
        (fun acc' fd =>
          match fd.2.argName with
          | some a => setA acc' a (cf.1, fd.1, fd.2)
          | none => acc')
        acc)
    []

/-- Run the setters against the parsed CLI values: each supplied argument
is written through the **validated** path (`setRawValue` with the
definition), so a parse failure escapes `fromArgs` as an exception. -/
def runSetters (args : List (String × JVal)) :
    PanelState → List (String × (String × String × ConfigDefinition)) →
    Except (String × PanelState) PanelState
  | s, [] => .ok s
  | s, (a, (c, f, d)) :: r =>
    match lookupA args a with
    | none => runSetters args s r
    | some v =>
      match setRawValue s c f v (some d) with
      | .error e => .error e
      | .ok (_, s') => runSetters args s' r

/-- `fromArgs`: build the descriptor/setter tables from the schema, then
apply every setter whose `argName` the parsed CLI `values` object
supplies.  The tokenizer itself (`node:util` `parseArgs`) is external;
`args` is its `values` output. -/
def fromArgs (s : PanelState) (args : List (String × JVal)) :
    Except (String × PanelState) PanelState :=
  runSetters args s (buildSetters s.configMap)

/-- The composite `load()`: environment, then JSON file, then arguments. -/
def load (s : PanelState) (env : List (String × String)) (json : Option CatMap)
    (args : List (String × JVal)) : Except (String × PanelState) PanelState :=
  fromArgs (fromJSON (fromEnvironment s env "") json) args

/-- One category of the full-schema recompute `this.zodSchema.parse(...)`:
parse every field of the category against the corresponding raw value,
collecting the parsed entries and every issue (zod does not stop at the
first invalid field). -/
def zodParseCat (cat : String) (fields : List (String × ConfigDefinition))
    (rc : FieldMap) : FieldMap × List AggIssue :=
  fields.foldr
    (fun fd acc =>
      match fd.2.type.parse ((lookupA rc fd.1).getD .undef) with
      | .ok v => ((fd.1, v) :: acc.1, acc.2)
      | .error issues => (acc.1, ([cat, fd.1], issues) :: acc.2))
    ([], [])

/-- The recursion behind the full composed-schema parse: parsed
categories (in schema order) paired with every aggregated issue. -/
def zodParseAux : Schema → CatMap → CatMap × List AggIssue
  | [], _ => ([], [])
  | cf :: r, raw =>
    let acc := zodParseAux r raw
    if cf.2.isEmpty then acc
    else
      match lookupA raw cf.1 with
      | none => (acc.1, ([cf.1], ["Invalid input: expected object, received undefined"]) :: acc.2)
      | some rc =>
        let pc := zodParseCat cf.1 cf.2 rc
        ((cf.1, pc.1) :: acc.1, pc.2 ++ acc.2)

/-- The full composed-schema parse.  Categories with no fields are not in
the zod schema (the constructor skips them); a category whose raw
container is missing yields a single category-level issue, as zod's
object parser does; otherwise every field is validated and all issues are
aggregated. -/
def zodParse (schema : Schema) (raw : CatMap) : Except (List AggIssue) CatMap :=
  let pr := zodParseAux schema raw
  if pr.2.isEmpty then .ok pr.1 else .error pr.2

/-- `Object.assign(this.valueMap, parsed)`: every category the recompute
produced replaces the old container with a **new** object (fresh id). -/
def assignValues (s : PanelState) (parsed : CatMap) : PanelState :=
  let s' := parsed.foldl
    (fun st cp =>
      { st with
        valueMap := setA st.valueMap cp.1 ⟨st.nextId, cp.2⟩
        nextId := st.nextId + 1 })
    s
  { s' with isValueMapDirty := false }

/-- The `values` getter: when dirty, recompute the whole cache in one pass
and clear the flag only on success; a failed recompute throws before any
mutation, leaving the state as it was. -/
def getValues (s : PanelState) : Except (List AggIssue) PanelState :=
  if s.isValueMapDirty then
    match zodParse s.configMap s.rawInputMap with
    | .error issues => .error issues
    | .ok parsed => .ok (assignValues s parsed)
  else .ok s

/-- `getConfigDefinition` for a `[category, field]` path. -/
def getConfigDefinition (schema : Schema) (cat fld : String) :
    Except String ConfigDefinition :=
  match lookupA schema cat with
  | none => .error ("Invalid config path: " ++ cat ++ "." ++ fld)
  | some fs =>
    match lookupA fs fld with
    | none => .error ("Invalid config path: " ++ cat ++ "." ++ fld)
    | some d => .ok d

/-- String the category-scoped (`def` omitted) or field-scoped key is
built from: `${def}` renders `undefined` for a missing argument, and
`'change.' + cat + def` coerces it the same way. -/
def jsOptStr : Option String → String
  | none => "undefined"
  | some d => d

/-- `getChangeKey(cat, def?)`, exactly as written in the source:
`` return (`change.${cat}` + def ? `.${def}` : '') `` — JS operator
precedence makes the whole concatenation the condition of the ternary, so
the truthy (always, the string is never empty) branch `.${def}` is
returned. -/
def getChangeKey (cat : String) (deff : Option String) : String :=
  if ("change." ++ cat ++ jsOptStr deff) = "" then ""
  else "." ++ jsOptStr deff

/-- Contents view of the value cache, the payload of a `values` event. -/
def treeOf (vm : List (String × ValueCat)) : CatMap :=
  vm.map (fun cv => (cv.1, cv.2.vals))

/-- `onValueChange(path, value)`: resolve the definition, write through
the validated path, then emit the four events; a failure of the final
`this.values` recompute is caught and redirected to an `error` event. -/
def onValueChange (s : PanelState) (cat fld : String) (v : JVal) :
    Except (String × PanelState) PanelState :=
  match getConfigDefinition s.configMap cat fld with
  | .error m => .error (m, s)
  | .ok config =>
    match setRawValue s cat fld v (some config) with
    | .error e => .error e
    | .ok (pv, s1) =>
      match getValues (emit (emit (emit s1 "change" (.pathValue [cat, fld] pv))
          (getChangeKey cat none) (.pathValue [cat, fld] pv))
          (getChangeKey cat (some fld)) (.value pv)) with
      | .ok s5 => .ok (emit s5 "values" (.valuesTree (treeOf s5.valueMap)))
      | .error issues =>
        .ok (emit (emit (emit (emit s1 "change" (.pathValue [cat, fld] pv))
          (getChangeKey cat none) (.pathValue [cat, fld] pv))
          (getChangeKey cat (some fld)) (.value pv)) "error" (.errAgg issues))

/-- The host-facing `setRaw(cat, prop, value)`: resolve the definition and
write through the validated path.  Note: no events are emitted here. -/
def setRaw (s : PanelState) (cat fld : String) (value : String) :
    Except (String × PanelState) (JVal × PanelState) :=
  match getConfigDefinition s.configMap cat fld with
  | .error m => .error (m, s)
  | .ok d => setRawValue s cat fld (.str value) (some d)

/-- The host-facing `set(cat, prop, value)`: `setRaw` after JS string
coercion of the value. -/
def set (s : PanelState) (cat fld : String) (value : JVal) :
    Except (String × PanelState) (JVal × PanelState) :=
  setRaw s cat fld (jsToStr value)

/-- Whether an `Except` is a success, for closed evaluations. -/
def exceptOk {ε α : Type} : Except ε α → Bool
  | .ok _ => true
  | .error _ => false

/-- The public operations that can touch the two stores after
construction: the three loaders, the host-facing validated write, a read
of the `values` accessor, and a channel edit (the websocket `message`
handler, which catches validation failures and emits `invalid_change`). -/
inductive Op where
  | envOp (env : List (String × String)) (pfx : String)
  | jsonOp (obj : Option CatMap)
  | argsOp (args : List (String × JVal))
  | setRawOp (cat fld : String) (v : String)
  | valuesOp
  | editOp (cat fld : String) (v : JVal)

/-- One public operation as a state transformer.  Where the source throws,
the post-state (with any mutations already made) is kept, since the JS
exception propagates to the caller without rollback. -/
def step (s : PanelState) : Op → PanelState
  | .envOp env pfx => fromEnvironment s env pfx
  | .jsonOp obj => fromJSON s obj
  | .argsOp args =>
    match fromArgs s args with
    | .ok s' => s'
    | .error (_, s') => s'
  | .setRawOp cat fld v =>
    match setRaw s cat fld v with
    | .ok (_, s') => s'
    | .error (_, s') => s'
  | .valuesOp =>
    match getValues s with
    | .ok s' => s'
    | .error _ => s
  | .editOp cat fld v =>
    match onValueChange s cat fld v with
    | .ok s' => s'
    | .error (m, s') => emit s' "invalid_change" (.invalidChange [cat, fld] v m)

/-- A panel after construction and any sequence of public operations. -/
def run (schema : Schema) (ops : List Op) : PanelState :=
  ops.foldl step (construct schema)

/-- The state a successful validated write produces. -/
def okWrite (s : PanelState) (cat fld : String) (v p : JVal) : PanelState :=
  writeRaw (writeVal (ensureCat s cat) cat fld p) cat fld v

/-! ### Sequences of unvalidated writes -/

/-- Apply a list of unvalidated raw writes in order. -/
def applyWrites : PanelState → List ((String × String) × JVal) → PanelState
  | s, [] => s
  | s, (pv :: r) => applyWrites (setRawUnval s pv.1.1 pv.1.2 pv.2) r

/-- The last value a write list assigns to a path, if any. -/
def lastW : List ((String × String) × JVal) → String → String → Option JVal
  | [], _, _ => none
  | (pv :: r), c, f =>
    match lastW r c f with
    | some w => some w
    | none => if pv.1 = (c, f) then some pv.2 else none

/-! ### Write lists generated by schema traversals -/

/-- The writes one category contributes, given a per-field value choice. -/
def blockW (cat : String) (g : String × ConfigDefinition → Option JVal) :
    List (String × ConfigDefinition) → List ((String × String) × JVal)
  | [] => []
  | fd :: r =>
    match g fd with
    | some v => ((cat, fd.1), v) :: blockW cat g r
    | none => blockW cat g r

/-- The writes a whole schema traversal performs, per-category. -/
def schemaWrites (g : String → String × ConfigDefinition → Option JVal) :
    Schema → List ((String × String) × JVal)
  | [] => []
  | cf :: r => blockW cf.1 (g cf.1) cf.2 ++ schemaWrites g r

/-! ### The constructor and the environment loader as write sequences -/

/-- Per-field value choice of the constructor loop: always the configured
default. -/
def gDefault : String → String × ConfigDefinition → Option JVal :=
  fun _ fd => some (defaultRaw fd.2)

/-- Per-field value choice of `fromEnvironment`. -/
def gEnv (env : List (String × String)) (pfx : String) :
    String → String × ConfigDefinition → Option JVal :=
  fun cat fd => (lookupA env (envKeyOf pfx cat fd.1 fd.2)).map JVal.str

/-- The field a setter writes to. -/
def targetOf (e : String × (String × String × ConfigDefinition)) : String × String :=
  (e.2.1, e.2.2.1)

/-- The first setter that writes to a field, with its argument name. -/
def findTarget : List (String × (String × String × ConfigDefinition)) → String → String →
    Option (String × ConfigDefinition)
  | [], _, _ => none
  | e :: r, c, f =>
    if e.2.1 = c ∧ e.2.2.1 = f then some (e.1, e.2.2.2) else findTarget r c f

/-- The setter list one category contributes (no overwriting). -/
def plainBlock (cat : String) :
    List (String × ConfigDefinition) → List (String × (String × String × ConfigDefinition))
  | [] => []
  | fd :: r =>
    match fd.2.argName with
    | some a => (a, (cat, fd.1, fd.2)) :: plainBlock cat r
    | none => plainBlock cat r

/-- The setter list of the whole schema (no overwriting). -/
def plainSetters : Schema → List (String × (String × String × ConfigDefinition))
  | [] => []
  | cf :: r => plainBlock cf.1 cf.2 ++ plainSetters r

/-! ### The full-schema recompute -/

/-- Success projection of a parse result. -/
def okOf : Except (List String) JVal → Option JVal
  | .ok v => some v
  | .error _ => none

/-! ### Concrete type descriptors and a demo schema for witnesses -/

/-- The `z.enum` descriptor: accepts exactly the listed strings. -/
def enumType (opts : List String) (dflt : String) : ZodType where
  parse v :=
    match v with
    | .str s => if opts.contains s then .ok (.str s) else .error ["Invalid option"]
    | _ => .error ["Invalid input: expected string"]
  defaultValue := .str dflt

/-- Digit-string accumulator for the number coercion. -/
def natOfDigits : List Char → Option Nat
  | [] => some 0
  | c :: r =>
    if c.isDigit then
      (natOfDigits r).map (fun n => (c.toNat - 48) * 10 ^ r.length + n)
    else none

/-- Integral `Number(string)` coercion, structurally recursive. -/
def strToInt (s : String) : Option Int :=
  match s.data with
  | [] => none
  | c :: r =>
    if c = Char.ofNat 45 then
      if r.isEmpty then none else (natOfDigits r).map (fun n => -(n : Int))
    else (natOfDigits (c :: r)).map (fun n => (n : Int))

/-- The `z.coerce.number` descriptor: numbers pass, numeric strings are
coerced, booleans become 0/1, everything else is rejected. -/
def coerceNumber (dflt : Int) : ZodType where
  parse v :=
    match v with
    | .num n => .ok (.num n)
    | .str s =>
      match strToInt s with
      | some n => .ok (.num n)
      | none => .error ["Invalid input: expected number, received NaN"]
    | .bool b => .ok (.num (if b then 1 else 0))
    | _ => .error ["Invalid input: expected number"]
  defaultValue := .num dflt

/-- The `z.coerce.string` descriptor: stringifies anything. -/
def coerceString (dflt : String) : ZodType where
  parse v := .ok (.str (jsToStr v))
  defaultValue := .str dflt

/-- The fish enum of the repository's own example panel. -/
def fishDef : ConfigDefinition where
  type := enumType ["Salmon", "Tuna", "Trout"] "Tuna"
  envName := some "FISH_TYPE"

def demoSchema : Schema :=
  [("test_cat",
    [("text_string", { type := coerceString "test-default" }),
     ("test_number", { type := coerceNumber 50, argName := some "num" })]),
   ("cat_2", [("test_enum", fishDef)])]

/-- The demo panel, freshly constructed. -/
def demoPanel : PanelState := construct demoSchema

/-- The demo panel's state after its first successful `values` read. -/
def demoValuesState : PanelState :=
  match getValues demoPanel with
  | .ok s' => s'
  | .error _ => demoPanel

/-- The demo panel's state after a successful channel edit of the fish. -/
def demoEditState : PanelState :=
  match onValueChange demoPanel "cat_2" "test_enum" (.str "Salmon") with
  | .ok s' => s'
  | .error _ => demoPanel

/-- A schema whose explicit default is the raw string "5" for a coercing
number field — legal input, since defaults are stored as raw values. -/
def c8Schema : Schema :=
  [("srv", [("port", { type := coerceNumber 0, default := .str "5" })])]

/-- The demo panel after a valid CLI load of `--num 7`. -/
def demoArgsState : PanelState :=
  match fromArgs demoPanel [("num", .str "7")] with
  | .ok s' => s'
  | .error _ => demoPanel

/-! ### Claim C4 -/

/-- Two-field schema for the C4 counterexample. -/
def c4Schema : Schema :=
  [("a", [("x", { type := coerceString "dx" }), ("y", { type := coerceString "dy" })])]

/-- The value the environment layer leaves for a field: the (stringified)
environment value if the field's env key was supplied, else the
configured default. -/
def envLayerVal (env : List (String × String)) (c f : String)
    (d : ConfigDefinition) : JVal :=
  match lookupA env (envKeyOf "" c f d) with
  | some ev => .str ev
  | none => defaultRaw d

/-- The value the JSON layer leaves for a field: if the file supplies the
field's **category**, the category object's entry for the field
(`undefined` when the object omits it — merging is per category, not per
field); else the environment layer's value. -/
def jsonLayerVal (env : List (String × String)) (json : Option CatMap)
    (c f : String) (d : ConfigDefinition) : JVal :=
  match json with
  | some o =>
    match lookupA o c with
    | some rc => (lookupA rc f).getD .undef
    | none => envLayerVal env c f d
  | none => envLayerVal env c f d

/-- The demo panel after a composite load from all three sources. -/
def demoLoadState : PanelState :=
  match load (construct demoSchema) [("fish_type", "Trout")]
      (some [("test_cat", [("text_string", .str "json-str")])]) [("num", .str "7")] with
  | .ok s' => s'
  | .error _ => demoPanel

/-! ### Claim C10 -/

/-- Cache coherence: every cached field value is exactly the descriptor's
parse of the corresponding raw value. -/
def Coherent (s : PanelState) : Prop :=
  ∀ c fs f d, lookupA s.configMap c = some fs → lookupA fs f = some d →
    d.type.parse (rawGet s c f) = .ok (valGet s c f)

/-- The panel invariant: every schema field's category has both of its
containers, and whenever the dirty flag is clear the value cache equals
the full-schema parse of the raw store. -/
def Inv (s : PanelState) : Prop :=
  (∀ c fs f d, lookupA s.configMap c = some fs → lookupA fs f = some d →
    (lookupA s.rawInputMap c).isSome ∧ (lookupA s.valueMap c).isSome) ∧
  (s.isValueMapDirty = false → Coherent s)

/-- The state kept by the channel `message` handler: the new state on a
successful edit, the pre-failure state plus an `invalid_change` event on a
caught validation failure. -/
def stepEdit (cat fld : String) (v : JVal)
    (x : Except (String × PanelState) PanelState) : PanelState :=
  match x with
  | .ok s' => s'
  | .error (m, s') => emit s' "invalid_change" (.invalidChange [cat, fld] v m)

theorem lookupA_setA_self {α : Type} (m : List (String × α)) (k : String) (v : α) :
    lookupA (setA m k v) k = some v := by
  induction m with
  | nil => simp [setA, lookupA]
  | cons h r ih =>
    by_cases hk : h.1 = k <;> simp [setA, lookupA, hk, ih]

theorem lookupA_setA_ne {α : Type} (m : List (String × α)) (k q : String) (v : α)
    (h : k ≠ q) : lookupA (setA m k v) q = lookupA m q := by
  induction m with
  | nil => simp [setA, lookupA, h]
  | cons hd r ih =>
    by_cases hk : hd.1 = k
    · simp [setA, lookupA, hk, h]
    · simp only [setA, hk, if_false, lookupA]
      by_cases hq : hd.1 = q <;> simp [hq, ih]

theorem lookupA_updA_self {α : Type} (m : List (String × α)) (k : String) (f : α → α) :
    lookupA (updA m k f) k = (lookupA m k).map f := by
  induction m with
  | nil => simp [updA, lookupA]
  | cons h r ih =>
    by_cases hk : h.1 = k <;> simp [updA, lookupA, hk, ih]

theorem lookupA_updA_ne {α : Type} (m : List (String × α)) (k q : String) (f : α → α)
    (h : k ≠ q) : lookupA (updA m k f) q = lookupA m q := by
  induction m with
  | nil => simp [updA, lookupA]
  | cons hd r ih =>
    by_cases hk : hd.1 = k
    · subst hk
      simp [updA, lookupA, h]
    · simp only [updA, hk, if_false, lookupA]
      by_cases hq : hd.1 = q <;> simp [hq, ih]

theorem mem_keys_of_lookupA {α : Type} (m : List (String × α)) (c : String) (x : α)
    (h : lookupA m c = some x) : c ∈ m.map Prod.fst := by
  induction m with
  | nil => simp [lookupA] at h
  | cons hd r ih =>
    by_cases hc : hd.1 = c
    · simp [hc]
    · simp only [lookupA, hc, if_false] at h
      simp [ih h]

/-! ### Pointwise characterisation of the write paths -/

theorem ensureRawCat_configMap (s : PanelState) (cat : String) :
    (ensureRawCat s cat).configMap = s.configMap := by
  unfold ensureRawCat; cases h : lookupA s.rawInputMap cat <;> simp [h]

theorem ensureRawCat_valueMap (s : PanelState) (cat : String) :
    (ensureRawCat s cat).valueMap = s.valueMap := by
  unfold ensureRawCat; cases h : lookupA s.rawInputMap cat <;> simp [h]

theorem ensureRawCat_nextId (s : PanelState) (cat : String) :
    (ensureRawCat s cat).nextId = s.nextId := by
  unfold ensureRawCat; cases h : lookupA s.rawInputMap cat <;> simp [h]

theorem ensureRawCat_dirty (s : PanelState) (cat : String) :
    (ensureRawCat s cat).isValueMapDirty = s.isValueMapDirty := by
  unfold ensureRawCat; cases h : lookupA s.rawInputMap cat <;> simp [h]

theorem ensureRawCat_events (s : PanelState) (cat : String) :
    (ensureRawCat s cat).events = s.events := by
  unfold ensureRawCat; cases h : lookupA s.rawInputMap cat <;> simp [h]

theorem ensureRawCat_raw_lookup (s : PanelState) (cat c : String) :
    lookupA (ensureRawCat s cat).rawInputMap c =
      if c = cat then some ((lookupA s.rawInputMap cat).getD [])
      else lookupA s.rawInputMap c := by
  unfold ensureRawCat
  cases h : lookupA s.rawInputMap cat with
  | none =>
    by_cases hc : c = cat
    · subst hc; simp [h, lookupA_setA_self]
    · simp [h, hc, lookupA_setA_ne _ _ _ _ (fun he => hc he.symm)]
  | some fs =>
    by_cases hc : c = cat
    · subst hc; simp [h]
    · simp [h, hc]

theorem ensureValCat_configMap (s : PanelState) (cat : String) :
    (ensureValCat s cat).configMap = s.configMap := by
  unfold ensureValCat; cases h : lookupA s.valueMap cat <;> simp [h]

theorem ensureValCat_rawInputMap (s : PanelState) (cat : String) :
    (ensureValCat s cat).rawInputMap = s.rawInputMap := by
  unfold ensureValCat; cases h : lookupA s.valueMap cat <;> simp [h]

theorem ensureValCat_dirty (s : PanelState) (cat : String) :
    (ensureValCat s cat).isValueMapDirty = s.isValueMapDirty := by
  unfold ensureValCat; cases h : lookupA s.valueMap cat <;> simp [h]

theorem ensureValCat_events (s : PanelState) (cat : String) :
    (ensureValCat s cat).events = s.events := by
  unfold ensureValCat; cases h : lookupA s.valueMap cat <;> simp [h]

theorem ensureValCat_val_lookup (s : PanelState) (cat c : String) :
    lookupA (ensureValCat s cat).valueMap c =
      if c = cat then some ((lookupA s.valueMap cat).getD ⟨s.nextId, []⟩)
      else lookupA s.valueMap c := by
  unfold ensureValCat
  cases h : lookupA s.valueMap cat with
  | none =>
    by_cases hc : c = cat
    · subst hc; simp [h, lookupA_setA_self]
    · simp [h, hc, lookupA_setA_ne _ _ _ _ (fun he => hc he.symm)]
  | some vc =>
    by_cases hc : c = cat
    · subst hc; simp [h]
    · simp [h, hc]

theorem ensureCat_configMap (s : PanelState) (cat : String) :
    (ensureCat s cat).configMap = s.configMap := by
  unfold ensureCat; rw [ensureValCat_configMap, ensureRawCat_configMap]

theorem ensureCat_dirty (s : PanelState) (cat : String) :
    (ensureCat s cat).isValueMapDirty = s.isValueMapDirty := by
  unfold ensureCat; rw [ensureValCat_dirty, ensureRawCat_dirty]

theorem ensureCat_events (s : PanelState) (cat : String) :
    (ensureCat s cat).events = s.events := by
  unfold ensureCat; rw [ensureValCat_events, ensureRawCat_events]

theorem ensureCat_raw_lookup (s : PanelState) (cat c : String) :
    lookupA (ensureCat s cat).rawInputMap c =
      if c = cat then some ((lookupA s.rawInputMap cat).getD [])
      else lookupA s.rawInputMap c := by
  unfold ensureCat; rw [ensureValCat_rawInputMap, ensureRawCat_raw_lookup]

theorem ensureCat_val_lookup (s : PanelState) (cat c : String) :
    lookupA (ensureCat s cat).valueMap c =
      if c = cat then some ((lookupA s.valueMap cat).getD ⟨s.nextId, []⟩)
      else lookupA s.valueMap c := by
  unfold ensureCat
  rw [ensureValCat_val_lookup, ensureRawCat_valueMap, ensureRawCat_nextId]

theorem ensureCat_of_present (s : PanelState) (cat : String)
    (h1 : (lookupA s.rawInputMap cat).isSome)
    (h2 : (lookupA s.valueMap cat).isSome) : ensureCat s cat = s := by
  rcases Option.isSome_iff_exists.mp h1 with ⟨fs, hfs⟩
  rcases Option.isSome_iff_exists.mp h2 with ⟨vc, hvc⟩
  unfold ensureCat ensureRawCat
  rw [hfs]
  unfold ensureValCat
  rw [hvc]

theorem setRawValue_none_eq (s : PanelState) (cat fld : String) (v : JVal) :
    setRawValue s cat fld v none =
      .ok (JVal.null, writeRaw { ensureCat s cat with isValueMapDirty := true } cat fld v) :=
  rfl

theorem setRawUnval_eq (s : PanelState) (cat fld : String) (v : JVal) :
    setRawUnval s cat fld v =
      writeRaw { ensureCat s cat with isValueMapDirty := true } cat fld v :=
  rfl

theorem setRawValue_some_ok (s : PanelState) (cat fld : String) (v : JVal)
    (d : ConfigDefinition) (p : JVal) (h : d.type.parse v = .ok p) :
    setRawValue s cat fld v (some d) =
      .ok (p, writeRaw (writeVal (ensureCat s cat) cat fld p) cat fld v) := by
  simp only [setRawValue]
  rw [h]

theorem setRawValue_some_error (s : PanelState) (cat fld : String) (v : JVal)
    (d : ConfigDefinition) (issues : List String) (h : d.type.parse v = .error issues) :
    setRawValue s cat fld v (some d) =
      .error ("Invalid value for " ++ cat ++ "." ++ fld ++ ": "
        ++ String.intercalate "; " issues ++ " (" ++ jsToStr v ++ ")", ensureCat s cat) := by
  simp only [setRawValue]
  rw [h]

theorem writeRaw_raw_lookup (s : PanelState) (cat fld : String) (v : JVal) (c : String) :
    lookupA (writeRaw s cat fld v).rawInputMap c =
      if c = cat then (lookupA s.rawInputMap cat).map (fun fs => setA fs fld v)
      else lookupA s.rawInputMap c := by
  unfold writeRaw
  by_cases hc : c = cat
  · subst hc; simp [lookupA_updA_self]
  · simp [hc, lookupA_updA_ne _ _ _ _ (fun he => hc he.symm)]

theorem writeVal_val_lookup (s : PanelState) (cat fld : String) (v : JVal) (c : String) :
    lookupA (writeVal s cat fld v).valueMap c =
      if c = cat then (lookupA s.valueMap cat).map (fun vc => ⟨vc.oid, setA vc.vals fld v⟩)
      else lookupA s.valueMap c := by
  unfold writeVal
  by_cases hc : c = cat
  · subst hc; simp [lookupA_updA_self]
  · simp [hc, lookupA_updA_ne _ _ _ _ (fun he => hc he.symm)]

theorem setRawUnval_rawGet (s : PanelState) (cat fld : String) (v : JVal) (c f : String) :
    rawGet (setRawUnval s cat fld v) c f =
      if c = cat ∧ f = fld then v else rawGet s c f := by
  rw [setRawUnval_eq]
  unfold rawGet rawGetIn
  rw [writeRaw_raw_lookup]
  by_cases hc : c = cat
  · subst hc
    rw [if_pos rfl]
    have he := ensureCat_raw_lookup s c c
    simp only [if_pos rfl] at he
    rw [show ({ ensureCat s c with isValueMapDirty := true } : PanelState).rawInputMap
        = (ensureCat s c).rawInputMap from rfl, he]
    by_cases hf : f = fld
    · subst hf
      cases hr : lookupA s.rawInputMap c <;> simp [hr, lookupA_setA_self]
    · have hne : fld ≠ f := fun heq => hf heq.symm
      cases hr : lookupA s.rawInputMap c <;>
        simp [hr, hf, hne, lookupA_setA_ne _ _ _ _ hne, lookupA, setA]
  · rw [if_neg hc]
    have he := ensureCat_raw_lookup s cat c
    simp only [if_neg hc] at he
    rw [show ({ ensureCat s cat with isValueMapDirty := true } : PanelState).rawInputMap
        = (ensureCat s cat).rawInputMap from rfl, he]
    simp [hc]

theorem setRawUnval_valGet (s : PanelState) (cat fld : String) (v : JVal) (c f : String) :
    valGet (setRawUnval s cat fld v) c f = valGet s c f := by
  rw [setRawUnval_eq]
  unfold valGet writeRaw
  simp only
  rw [ensureCat_val_lookup]
  by_cases hc : c = cat
  · subst hc
    rw [if_pos rfl]
    cases hv : lookupA s.valueMap c with
    | none => simp [lookupA]
    | some vc => simp
  · rw [if_neg hc]

theorem setRawUnval_dirty (s : PanelState) (cat fld : String) (v : JVal) :
    (setRawUnval s cat fld v).isValueMapDirty = true :=
  rfl

theorem setRawUnval_configMap (s : PanelState) (cat fld : String) (v : JVal) :
    (setRawUnval s cat fld v).configMap = s.configMap := by
  rw [setRawUnval_eq]
  unfold writeRaw
  simp [ensureCat_configMap]

theorem setRawUnval_events (s : PanelState) (cat fld : String) (v : JVal) :
    (setRawUnval s cat fld v).events = s.events := by
  rw [setRawUnval_eq]
  unfold writeRaw
  simp [ensureCat_events]

theorem setRawUnval_val_lookup (s : PanelState) (cat fld : String) (v : JVal) (c : String) :
    lookupA (setRawUnval s cat fld v).valueMap c =
      if c = cat then some ((lookupA s.valueMap cat).getD ⟨s.nextId, []⟩)
      else lookupA s.valueMap c := by
  rw [setRawUnval_eq]
  unfold writeRaw
  simp only
  exact ensureCat_val_lookup s cat c

theorem okWrite_rawGet (s : PanelState) (cat fld : String) (v p : JVal) (c f : String) :
    rawGet (okWrite s cat fld v p) c f =
      if c = cat ∧ f = fld then v else rawGet s c f := by
  unfold okWrite rawGet rawGetIn
  rw [show (writeRaw (writeVal (ensureCat s cat) cat fld p) cat fld v).rawInputMap
      = (writeRaw { ensureCat s cat with
          valueMap := (writeVal (ensureCat s cat) cat fld p).valueMap } cat fld v).rawInputMap
      from rfl]
  rw [writeRaw_raw_lookup]
  by_cases hc : c = cat
  · subst hc
    rw [if_pos rfl]
    have he := ensureCat_raw_lookup s c c
    simp only [if_pos rfl] at he
    rw [show ({ ensureCat s c with
        valueMap := (writeVal (ensureCat s c) c fld p).valueMap } : PanelState).rawInputMap
        = (ensureCat s c).rawInputMap from rfl, he]
    by_cases hf : f = fld
    · subst hf
      cases hr : lookupA s.rawInputMap c <;> simp [hr, lookupA_setA_self]
    · have hne : fld ≠ f := fun heq => hf heq.symm
      cases hr : lookupA s.rawInputMap c <;>
        simp [hr, hf, hne, lookupA_setA_ne _ _ _ _ hne, lookupA, setA]
  · rw [if_neg hc]
    have he := ensureCat_raw_lookup s cat c
    simp only [if_neg hc] at he
    rw [show ({ ensureCat s cat with
        valueMap := (writeVal (ensureCat s cat) cat fld p).valueMap } : PanelState).rawInputMap
        = (ensureCat s cat).rawInputMap from rfl, he]
    simp [hc]

theorem okWrite_val_lookup (s : PanelState) (cat fld : String) (v p : JVal) (c : String) :
    lookupA (okWrite s cat fld v p).valueMap c =
      if c = cat then
        some ⟨((lookupA s.valueMap cat).getD ⟨s.nextId, []⟩).oid,
          setA ((lookupA s.valueMap cat).getD ⟨s.nextId, []⟩).vals fld p⟩
      else lookupA s.valueMap c := by
  unfold okWrite
  rw [show (writeRaw (writeVal (ensureCat s cat) cat fld p) cat fld v).valueMap
      = (writeVal (ensureCat s cat) cat fld p).valueMap from rfl]
  rw [writeVal_val_lookup]
  by_cases hc : c = cat
  · subst hc
    rw [if_pos rfl, if_pos rfl, ensureCat_val_lookup, if_pos rfl]
    simp
  · rw [if_neg hc, if_neg hc, ensureCat_val_lookup, if_neg hc]

theorem okWrite_valGet (s : PanelState) (cat fld : String) (v p : JVal) (c f : String) :
    valGet (okWrite s cat fld v p) c f =
      if c = cat ∧ f = fld then p else valGet s c f := by
  unfold valGet
  rw [okWrite_val_lookup]
  by_cases hc : c = cat
  · subst hc
    rw [if_pos rfl]
    by_cases hf : f = fld
    · subst hf
      simp [lookupA_setA_self]
    · have hne : fld ≠ f := fun heq => hf heq.symm
      cases hv : lookupA s.valueMap c <;>
        simp [hv, hf, hne, lookupA_setA_ne _ _ _ _ hne, lookupA, setA]
  · simp [hc]

theorem okWrite_dirty (s : PanelState) (cat fld : String) (v p : JVal) :
    (okWrite s cat fld v p).isValueMapDirty = s.isValueMapDirty := by
  unfold okWrite writeRaw writeVal
  simp [ensureCat_dirty]

theorem okWrite_configMap (s : PanelState) (cat fld : String) (v p : JVal) :
    (okWrite s cat fld v p).configMap = s.configMap := by
  unfold okWrite writeRaw writeVal
  simp [ensureCat_configMap]

theorem okWrite_events (s : PanelState) (cat fld : String) (v p : JVal) :
    (okWrite s cat fld v p).events = s.events := by
  unfold okWrite writeRaw writeVal
  simp [ensureCat_events]

theorem okWrite_val_lookup_of_present (s : PanelState) (cat fld : String) (v p : JVal)
    (vc : ValueCat) (h : lookupA s.valueMap cat = some vc) (c : String) :
    lookupA (okWrite s cat fld v p).valueMap c =
      if c = cat then some ⟨vc.oid, setA vc.vals fld p⟩ else lookupA s.valueMap c := by
  rw [okWrite_val_lookup, h]
  rfl

theorem applyWrites_append (s : PanelState) (a b : List ((String × String) × JVal)) :
    applyWrites s (a ++ b) = applyWrites (applyWrites s a) b := by
  induction a generalizing s with
  | nil => rfl
  | cons hd r ih => simp [applyWrites, ih]

theorem lastW_append (a b : List ((String × String) × JVal)) (c f : String) :
    lastW (a ++ b) c f =
      match lastW b c f with
      | some w => some w
      | none => lastW a c f := by
  induction a with
  | nil => cases h : lastW b c f <;> simp [lastW, h]
  | cons hd r ih =>
    simp only [List.cons_append, lastW, List.append_eq]
    rw [ih]
    cases h : lastW b c f <;> cases h2 : lastW r c f <;> simp

theorem applyWrites_rawGet (s : PanelState) (ws : List ((String × String) × JVal))
    (c f : String) :
    rawGet (applyWrites s ws) c f = (lastW ws c f).getD (rawGet s c f) := by
  induction ws generalizing s with
  | nil => simp [applyWrites, lastW]
  | cons hd r ih =>
    simp only [applyWrites, lastW, ih, setRawUnval_rawGet]
    cases h : lastW r c f with
    | some w => simp
    | none =>
      by_cases hp : hd.1 = (c, f)
      · have h1 : c = hd.1.1 := by rw [hp]
        have h2 : f = hd.1.2 := by rw [hp]
        simp [hp, h1.symm, h2.symm]
      · have : ¬(c = hd.1.1 ∧ f = hd.1.2) := by
          intro hcf
          exact hp (Prod.ext hcf.1.symm hcf.2.symm)
        simp [hp, this]

theorem applyWrites_valGet (s : PanelState) (ws : List ((String × String) × JVal))
    (c f : String) : valGet (applyWrites s ws) c f = valGet s c f := by
  induction ws generalizing s with
  | nil => rfl
  | cons hd r ih => simp [applyWrites, ih, setRawUnval_valGet]

theorem applyWrites_configMap (s : PanelState) (ws : List ((String × String) × JVal)) :
    (applyWrites s ws).configMap = s.configMap := by
  induction ws generalizing s with
  | nil => rfl
  | cons hd r ih => simp [applyWrites, ih, setRawUnval_configMap]

theorem applyWrites_events (s : PanelState) (ws : List ((String × String) × JVal)) :
    (applyWrites s ws).events = s.events := by
  induction ws generalizing s with
  | nil => rfl
  | cons hd r ih => simp [applyWrites, ih, setRawUnval_events]

theorem applyWrites_dirty_of_ne (s : PanelState) (ws : List ((String × String) × JVal))
    (h : ws ≠ []) : (applyWrites s ws).isValueMapDirty = true := by
  induction ws generalizing s with
  | nil => exact absurd rfl h
  | cons hd r ih =>
    cases r with
    | nil => simp [applyWrites, setRawUnval_dirty]
    | cons hd2 r2 => exact ih _ (by simp)

theorem applyWrites_val_lookup_isSome (s : PanelState)
    (ws : List ((String × String) × JVal)) (c : String)
    (h : (lookupA s.valueMap c).isSome) :
    (lookupA (applyWrites s ws).valueMap c).isSome := by
  induction ws generalizing s with
  | nil => exact h
  | cons hd r ih =>
    refine ih _ ?_
    rw [setRawUnval_val_lookup]
    by_cases hc : c = hd.1.1 <;> simp [hc, h]

theorem setRawUnval_raw_lookup (s : PanelState) (cat fld : String) (v : JVal)
    (c : String) :
    lookupA (setRawUnval s cat fld v).rawInputMap c =
      if c = cat then some (setA ((lookupA s.rawInputMap cat).getD []) fld v)
      else lookupA s.rawInputMap c := by
  rw [setRawUnval_eq]
  rw [show (writeRaw { ensureCat s cat with isValueMapDirty := true } cat fld v).rawInputMap
      = (writeRaw { ensureCat s cat with isValueMapDirty := true } cat fld v).rawInputMap
      from rfl]
  rw [writeRaw_raw_lookup]
  by_cases hc : c = cat
  · subst hc
    rw [if_pos rfl, if_pos rfl]
    have he := ensureCat_raw_lookup s c c
    simp only [if_pos rfl] at he
    rw [show ({ ensureCat s c with isValueMapDirty := true } : PanelState).rawInputMap
        = (ensureCat s c).rawInputMap from rfl, he]
    rfl
  · rw [if_neg hc, if_neg hc]
    have he := ensureCat_raw_lookup s cat c
    simp only [if_neg hc] at he
    exact he

theorem applyWrites_raw_lookup_isSome (s : PanelState)
    (ws : List ((String × String) × JVal)) (c : String)
    (h : (lookupA s.rawInputMap c).isSome) :
    (lookupA (applyWrites s ws).rawInputMap c).isSome := by
  induction ws generalizing s with
  | nil => exact h
  | cons hd r ih =>
    refine ih _ ?_
    rw [setRawUnval_raw_lookup]
    by_cases hc : c = hd.1.1 <;> simp [hc, h]

theorem lastW_blockW_ne (cat : String) (g : String × ConfigDefinition → Option JVal)
    (fields : List (String × ConfigDefinition)) (c f : String) (h : cat ≠ c) :
    lastW (blockW cat g fields) c f = none := by
  induction fields with
  | nil => rfl
  | cons fd r ih =>
    cases hg : g fd with
    | none =>
      simp only [blockW, hg]
      exact ih
    | some v =>
      simp only [blockW, hg, lastW]
      rw [ih]
      simp [Prod.ext_iff, h]

theorem lastW_blockW_notmem (cat : String) (g : String × ConfigDefinition → Option JVal)
    (fields : List (String × ConfigDefinition)) (c f : String)
    (h : f ∉ fields.map Prod.fst) :
    lastW (blockW cat g fields) c f = none := by
  induction fields with
  | nil => rfl
  | cons fd r ih =>
    have hf : fd.1 ≠ f := by
      intro he
      exact h (by simp [he])
    have hr : f ∉ r.map Prod.fst := by
      intro hm
      exact h (by simp [hm])
    cases hg : g fd with
    | none =>
      simp only [blockW, hg]
      exact ih hr
    | some v =>
      simp only [blockW, hg, lastW]
      rw [ih hr]
      simp [Prod.ext_iff, hf]

theorem lastW_blockW_self (cat : String) (g : String × ConfigDefinition → Option JVal)
    (fields : List (String × ConfigDefinition)) (f : String)
    (hnd : (fields.map Prod.fst).Nodup) :
    lastW (blockW cat g fields) cat f =
      (lookupA fields f).bind (fun d => g (f, d)) := by
  induction fields with
  | nil => rfl
  | cons fd r ih =>
    have hnd2 : (r.map Prod.fst).Nodup := (List.nodup_cons.mp (by simpa using hnd)).2
    have hnm : fd.1 ∉ r.map Prod.fst := (List.nodup_cons.mp (by simpa using hnd)).1
    by_cases hf : fd.1 = f
    · subst hf
      have hz : lastW (blockW cat g r) cat fd.1 = none :=
        lastW_blockW_notmem cat g r cat fd.1 hnm
      cases hg : g fd with
      | none =>
        simp only [blockW, hg]
        rw [hz]
        simp [lookupA, ← hg]
      | some v =>
        simp only [blockW, hg, lastW]
        rw [hz]
        simp [lookupA, ← hg]
    · cases hg : g fd with
      | none =>
        simp only [blockW, hg]
        rw [ih hnd2]
        simp [lookupA, hf]
      | some v =>
        simp only [blockW, hg, lastW]
        rw [ih hnd2]
        cases hl : (lookupA r f).bind (fun d => g (f, d)) with
        | some w => simp [lookupA, hf, hl]
        | none => simp [lookupA, hf, hl, Prod.ext_iff]

theorem lastW_schemaWrites_none (g : String → String × ConfigDefinition → Option JVal)
    (schema : Schema) (c f : String) (h : lookupA schema c = none) :
    lastW (schemaWrites g schema) c f = none := by
  induction schema with
  | nil => rfl
  | cons cf r ih =>
    have hc : cf.1 ≠ c := by
      intro he
      simp [lookupA, he] at h
    have hr : lookupA r c = none := by
      simpa [lookupA, hc] using h
    simp only [schemaWrites, lastW_append]
    rw [ih hr, lastW_blockW_ne _ _ _ _ _ hc]

theorem lastW_schemaWrites_self (g : String → String × ConfigDefinition → Option JVal)
    (schema : Schema) (c f : String) (fs : List (String × ConfigDefinition))
    (hnd : (schema.map Prod.fst).Nodup)
    (hfs : lookupA schema c = some fs)
    (hnf : (fs.map Prod.fst).Nodup) :
    lastW (schemaWrites g schema) c f =
      (lookupA fs f).bind (fun d => g c (f, d)) := by
  induction schema with
  | nil => simp [lookupA] at hfs
  | cons cf r ih =>
    have hnd2 : (r.map Prod.fst).Nodup := (List.nodup_cons.mp (by simpa using hnd)).2
    have hnm : cf.1 ∉ r.map Prod.fst := (List.nodup_cons.mp (by simpa using hnd)).1
    simp only [schemaWrites, lastW_append]
    by_cases hc : cf.1 = c
    · subst hc
      have hfs2 : cf.2 = fs := by
        simpa [lookupA] using hfs
      subst hfs2
      have hrn : lookupA r cf.1 = none := by
        cases hl : lookupA r cf.1 with
        | none => rfl
        | some x => exact absurd (mem_keys_of_lookupA r cf.1 x hl) hnm
      rw [lastW_schemaWrites_none g r cf.1 f hrn]
      exact lastW_blockW_self cf.1 (g cf.1) cf.2 f hnf
    · have hfs2 : lookupA r c = some fs := by
        simpa [lookupA, hc] using hfs
      rw [ih hnd2 hfs2]
      cases hl : (lookupA fs f).bind (fun d => g c (f, d)) with
      | some w => rfl
      | none => exact lastW_blockW_ne cf.1 (g cf.1) cf.2 c f hc

theorem foldFields_construct (cat : String) (fields : List (String × ConfigDefinition))
    (s : PanelState) :
    fields.foldl (fun s' fd => setRawUnval s' cat fd.1 (defaultRaw fd.2)) s =
      applyWrites s (blockW cat (gDefault cat) fields) := by
  induction fields generalizing s with
  | nil => rfl
  | cons fd r ih => simp [blockW, gDefault, applyWrites, List.foldl_cons, ih]

theorem construct_eq_applyWrites (schema : Schema) :
    construct schema = applyWrites (initState schema) (schemaWrites gDefault schema) := by
  unfold construct
  generalize initState schema = s
  induction schema generalizing s with
  | nil => rfl
  | cons cf r ih =>
    simp only [List.foldl_cons, schemaWrites, applyWrites_append]
    rw [foldFields_construct, ih]

theorem foldFields_env (env : List (String × String)) (pfx cat : String)
    (fields : List (String × ConfigDefinition)) (s : PanelState) :
    fields.foldl
      (fun st' fd =>
        match lookupA env (envKeyOf pfx cat fd.1 fd.2) with
        | some v => setRawUnval st' cat fd.1 (.str v)
        | none => st') s =
      applyWrites s (blockW cat (gEnv env pfx cat) fields) := by
  induction fields generalizing s with
  | nil => rfl
  | cons fd r ih =>
    cases hl : lookupA env (envKeyOf pfx cat fd.1 fd.2) with
    | none => simp [blockW, gEnv, applyWrites, List.foldl_cons, hl, ih]
    | some v => simp [blockW, gEnv, applyWrites, List.foldl_cons, hl, ih]

theorem fromEnvironment_eq_applyWrites (s : PanelState) (env : List (String × String))
    (pfx : String) :
    fromEnvironment s env pfx = applyWrites s (schemaWrites (gEnv env pfx) s.configMap) := by
  unfold fromEnvironment
  generalize s.configMap = L
  induction L generalizing s with
  | nil => rfl
  | cons cf r ih =>
    simp only [List.foldl_cons, schemaWrites, applyWrites_append]
    rw [foldFields_env, ih]

theorem applyWrites_dirty_of_true (s : PanelState)
    (ws : List ((String × String) × JVal)) (h : s.isValueMapDirty = true) :
    (applyWrites s ws).isValueMapDirty = true := by
  cases ws with
  | nil => exact h
  | cons hd r => exact applyWrites_dirty_of_ne s (hd :: r) (by simp)

theorem construct_configMap (schema : Schema) :
    (construct schema).configMap = schema := by
  rw [construct_eq_applyWrites, applyWrites_configMap]
  rfl

theorem construct_events (schema : Schema) : (construct schema).events = [] := by
  rw [construct_eq_applyWrites, applyWrites_events]
  rfl

theorem construct_dirty (schema : Schema) :
    (construct schema).isValueMapDirty = true := by
  rw [construct_eq_applyWrites]
  exact applyWrites_dirty_of_true _ _ rfl

theorem construct_rawGet (schema : Schema) (c f : String)
    (fs : List (String × ConfigDefinition)) (d : ConfigDefinition)
    (hnd : (schema.map Prod.fst).Nodup)
    (hfs : lookupA schema c = some fs)
    (hnf : (fs.map Prod.fst).Nodup)
    (hd : lookupA fs f = some d) :
    rawGet (construct schema) c f = defaultRaw d := by
  rw [construct_eq_applyWrites, applyWrites_rawGet,
    lastW_schemaWrites_self gDefault schema c f fs hnd hfs hnf, hd]
  rfl

theorem construct_rawGet_of_no_cat (schema : Schema) (c f : String)
    (h : lookupA schema c = none) :
    rawGet (construct schema) c f = .undef := by
  rw [construct_eq_applyWrites, applyWrites_rawGet, lastW_schemaWrites_none gDefault schema c f h]
  simp [rawGet, rawGetIn, initState, lookupA]

theorem construct_rawGet_of_no_fld (schema : Schema) (c f : String)
    (fs : List (String × ConfigDefinition))
    (hnd : (schema.map Prod.fst).Nodup)
    (hfs : lookupA schema c = some fs)
    (hnf : (fs.map Prod.fst).Nodup)
    (hd : lookupA fs f = none) :
    rawGet (construct schema) c f = .undef := by
  rw [construct_eq_applyWrites, applyWrites_rawGet,
    lastW_schemaWrites_self gDefault schema c f fs hnd hfs hnf, hd]
  simp [rawGet, rawGetIn, initState, lookupA]

theorem fromEnvironment_rawGet (s : PanelState) (env : List (String × String))
    (pfx : String) (c f : String)
    (fs : List (String × ConfigDefinition)) (d : ConfigDefinition)
    (hnd : (s.configMap.map Prod.fst).Nodup)
    (hfs : lookupA s.configMap c = some fs)
    (hnf : (fs.map Prod.fst).Nodup)
    (hd : lookupA fs f = some d) :
    rawGet (fromEnvironment s env pfx) c f =
      match lookupA env (envKeyOf pfx c f d) with
      | some v => .str v
      | none => rawGet s c f := by
  rw [fromEnvironment_eq_applyWrites, applyWrites_rawGet,
    lastW_schemaWrites_self (gEnv env pfx) s.configMap c f fs hnd hfs hnf, hd]
  cases hl : lookupA env (envKeyOf pfx c f d) <;> simp [gEnv, hl]

theorem fromEnvironment_rawGet_of_no_cat (s : PanelState) (env : List (String × String))
    (pfx : String) (c f : String) (h : lookupA s.configMap c = none) :
    rawGet (fromEnvironment s env pfx) c f = rawGet s c f := by
  rw [fromEnvironment_eq_applyWrites, applyWrites_rawGet,
    lastW_schemaWrites_none (gEnv env pfx) s.configMap c f h]
  rfl

theorem fromEnvironment_rawGet_of_no_fld (s : PanelState) (env : List (String × String))
    (pfx : String) (c f : String) (fs : List (String × ConfigDefinition))
    (hnd : (s.configMap.map Prod.fst).Nodup)
    (hfs : lookupA s.configMap c = some fs)
    (hnf : (fs.map Prod.fst).Nodup)
    (hd : lookupA fs f = none) :
    rawGet (fromEnvironment s env pfx) c f = rawGet s c f := by
  rw [fromEnvironment_eq_applyWrites, applyWrites_rawGet,
    lastW_schemaWrites_self (gEnv env pfx) s.configMap c f fs hnd hfs hnf, hd]
  rfl

theorem fromEnvironment_valGet (s : PanelState) (env : List (String × String))
    (pfx : String) (c f : String) :
    valGet (fromEnvironment s env pfx) c f = valGet s c f := by
  rw [fromEnvironment_eq_applyWrites]
  exact applyWrites_valGet _ _ _ _

theorem fromEnvironment_events (s : PanelState) (env : List (String × String))
    (pfx : String) : (fromEnvironment s env pfx).events = s.events := by
  rw [fromEnvironment_eq_applyWrites]
  exact applyWrites_events _ _

theorem fromEnvironment_configMap (s : PanelState) (env : List (String × String))
    (pfx : String) : (fromEnvironment s env pfx).configMap = s.configMap := by
  rw [fromEnvironment_eq_applyWrites]
  exact applyWrites_configMap _ _

/-- The environment loader marks the cache dirty whenever it changes the
raw store at all. -/
theorem fromEnvironment_dirty_of_raw_changed (s : PanelState)
    (env : List (String × String)) (pfx : String)
    (h : (fromEnvironment s env pfx).rawInputMap ≠ s.rawInputMap) :
    (fromEnvironment s env pfx).isValueMapDirty = true := by
  rw [fromEnvironment_eq_applyWrites] at h ⊢
  cases hw : schemaWrites (gEnv env pfx) s.configMap with
  | nil =>
    rw [hw] at h
    exact absurd rfl h
  | cons hd r =>
    exact applyWrites_dirty_of_ne s (hd :: r) (by simp)

/-! ### The JSON loader -/

theorem lookupA_objAssign (m obj : CatMap) (c : String)
    (hnd : (obj.map Prod.fst).Nodup) :
    lookupA (objAssign m obj) c =
      match lookupA obj c with
      | some fs => some fs
      | none => lookupA m c := by
  induction obj generalizing m with
  | nil => rfl
  | cons kv r ih =>
    have hnd2 : (r.map Prod.fst).Nodup := (List.nodup_cons.mp (by simpa using hnd)).2
    have hnm : kv.1 ∉ r.map Prod.fst := (List.nodup_cons.mp (by simpa using hnd)).1
    show lookupA (objAssign (setA m kv.1 kv.2) r) c = _
    rw [ih _ hnd2]
    by_cases hc : kv.1 = c
    · subst hc
      have hr : lookupA r kv.1 = none := by
        cases hl : lookupA r kv.1 with
        | none => rfl
        | some x => exact absurd (mem_keys_of_lookupA r kv.1 x hl) hnm
      rw [hr]
      simp [lookupA, lookupA_setA_self]
    · cases hl : lookupA r c with
      | some fs => simp [lookupA, hc, hl]
      | none =>
        rw [lookupA_setA_ne _ _ _ _ hc]
        simp [lookupA, hc, hl]

theorem fromJSON_rawGet (s : PanelState) (o : CatMap) (c f : String)
    (hnd : (o.map Prod.fst).Nodup) :
    rawGet (fromJSON s (some o)) c f =
      match lookupA o c with
      | some rc => (lookupA rc f).getD .undef
      | none => rawGet s c f := by
  unfold fromJSON rawGet rawGetIn
  simp only
  rw [lookupA_objAssign _ _ _ hnd]
  cases hl : lookupA o c <;> simp

theorem fromJSON_some_dirty (s : PanelState) (o : CatMap) :
    (fromJSON s (some o)).isValueMapDirty = true := rfl

theorem fromJSON_valueMap (s : PanelState) (o : Option CatMap) :
    (fromJSON s o).valueMap = s.valueMap := by
  cases o <;> rfl

theorem fromJSON_events (s : PanelState) (o : Option CatMap) :
    (fromJSON s o).events = s.events := by
  cases o <;> rfl

theorem fromJSON_configMap (s : PanelState) (o : Option CatMap) :
    (fromJSON s o).configMap = s.configMap := by
  cases o <;> rfl

theorem fromJSON_valGet (s : PanelState) (o : Option CatMap) (c f : String) :
    valGet (fromJSON s o) c f = valGet s c f := by
  unfold valGet
  rw [fromJSON_valueMap]

/-! ### The CLI arguments loader -/

theorem setA_append_of_notmem {α : Type} (m : List (String × α)) (k : String) (v : α)
    (h : k ∉ m.map Prod.fst) : setA m k v = m ++ [(k, v)] := by
  induction m with
  | nil => rfl
  | cons hd r ih =>
    have hk : hd.1 ≠ k := by
      intro he
      exact h (by simp [he])
    have hr : k ∉ r.map Prod.fst := by
      intro hm
      exact h (by simp [hm])
    simp [setA, hk, ih hr]

theorem foldFields_setters (cat : String) (fields : List (String × ConfigDefinition))
    (acc : List (String × (String × String × ConfigDefinition)))
    (h : (acc.map Prod.fst ++ (plainBlock cat fields).map Prod.fst).Nodup) :
    fields.foldl
      (fun acc' fd =>
        match fd.2.argName with
        | some a => setA acc' a (cat, fd.1, fd.2)
        | none => acc') acc = acc ++ plainBlock cat fields := by
  induction fields generalizing acc with
  | nil => simp [plainBlock]
  | cons fd r ih =>
    cases ha : fd.2.argName with
    | none =>
      simp only [List.foldl_cons, ha]
      rw [ih acc (by simpa [plainBlock, ha] using h)]
      simp [plainBlock, ha]
    | some a =>
      simp only [List.foldl_cons, ha]
      have hblock : (plainBlock cat (fd :: r)).map Prod.fst
          = a :: (plainBlock cat r).map Prod.fst := by
        simp [plainBlock, ha]
      rw [hblock] at h
      rcases List.nodup_append.mp h with ⟨h1, h2, hdisj⟩
      have hnotacc : a ∉ acc.map Prod.fst := fun hm => hdisj hm (by simp)
      have hsetA := setA_append_of_notmem acc a (cat, fd.1, fd.2) hnotacc
      rw [hsetA, ih]
      · simp [plainBlock, ha, List.append_assoc]
      · rw [List.map_append, List.append_assoc]
        simpa using h

theorem buildSetters_eq_plain_aux (schema : Schema)
    (acc : List (String × (String × String × ConfigDefinition)))
    (h : (acc.map Prod.fst ++ (plainSetters schema).map Prod.fst).Nodup) :
    schema.foldl
      (fun acc' cf =>
        cf.2.foldl
          (fun acc2 fd =>
            match fd.2.argName with
            | some a => setA acc2 a (cf.1, fd.1, fd.2)
            | none => acc2) acc') acc = acc ++ plainSetters schema := by
  induction schema generalizing acc with
  | nil => simp [plainSetters]
  | cons cf r ih =>
    simp only [List.foldl_cons]
    have hsp : (plainSetters (cf :: r)).map Prod.fst
        = (plainBlock cf.1 cf.2).map Prod.fst ++ (plainSetters r).map Prod.fst := by
      simp [plainSetters]
    rw [hsp] at h
    rw [foldFields_setters cf.1 cf.2 acc (by
      rcases List.nodup_append.mp (by rw [← List.append_assoc] at h; exact h) with ⟨h1, h2, hdisj⟩
      exact h1)]
    rw [ih]
    · simp [plainSetters, List.append_assoc]
    · rw [List.map_append, List.append_assoc]
      simpa using h

theorem buildSetters_eq_plain (schema : Schema)
    (h : ((plainSetters schema).map Prod.fst).Nodup) :
    buildSetters schema = plainSetters schema := by
  have := buildSetters_eq_plain_aux schema [] (by simpa using h)
  simpa [buildSetters] using this

theorem findTarget_plainBlock_ne (cat : String)
    (fields : List (String × ConfigDefinition)) (c f : String) (h : cat ≠ c) :
    findTarget (plainBlock cat fields) c f = none := by
  induction fields with
  | nil => rfl
  | cons fd r ih =>
    cases ha : fd.2.argName with
    | none => simpa [plainBlock, ha] using ih
    | some a => simpa [plainBlock, ha, findTarget, h] using ih

theorem findTarget_plainBlock_self (cat : String)
    (fields : List (String × ConfigDefinition)) (f : String)
    (hnf : (fields.map Prod.fst).Nodup) :
    findTarget (plainBlock cat fields) cat f =
      (lookupA fields f).bind (fun d => d.argName.map (fun a => (a, d))) := by
  induction fields with
  | nil => rfl
  | cons fd r ih =>
    have hnd2 : (r.map Prod.fst).Nodup := (List.nodup_cons.mp (by simpa using hnf)).2
    by_cases hf : fd.1 = f
    · subst hf
      cases ha : fd.2.argName with
      | none =>
        have hnm : fd.1 ∉ r.map Prod.fst := (List.nodup_cons.mp (by simpa using hnf)).1
        have hr : lookupA r fd.1 = none := by
          cases hl : lookupA r fd.1 with
          | none => rfl
          | some x => exact absurd (mem_keys_of_lookupA r fd.1 x hl) hnm
        have hblock : findTarget (plainBlock cat r) cat fd.1 = none := by
          rw [ih hnd2, hr]
          rfl
        rw [show plainBlock cat (fd :: r) = plainBlock cat r from by simp [plainBlock, ha]]
        rw [hblock]
        simp [lookupA, ha]
      | some a =>
        simp [plainBlock, ha, findTarget, lookupA]
    · cases ha : fd.2.argName with
      | none =>
        rw [show plainBlock cat (fd :: r) = plainBlock cat r by simp [plainBlock, ha]]
        rw [ih hnd2]
        simp [lookupA, hf]
      | some a =>
        rw [show plainBlock cat (fd :: r) = (a, (cat, fd.1, fd.2)) :: plainBlock cat r by
          simp [plainBlock, ha]]
        simp only [findTarget]
        rw [if_neg (by simp [hf])]
        rw [ih hnd2]
        simp [lookupA, hf]

theorem findTarget_append (a b : List (String × (String × String × ConfigDefinition)))
    (c f : String) :
    findTarget (a ++ b) c f =
      match findTarget a c f with
      | some x => some x
      | none => findTarget b c f := by
  induction a with
  | nil => simp [findTarget]
  | cons e r ih =>
    by_cases he : e.2.1 = c ∧ e.2.2.1 = f
    · simp [findTarget, he]
    · simp [findTarget, he, ih]

theorem findTarget_plainSetters_none (schema : Schema) (c f : String)
    (h : lookupA schema c = none) :
    findTarget (plainSetters schema) c f = none := by
  induction schema with
  | nil => rfl
  | cons cf r ih =>
    have hc : cf.1 ≠ c := by
      intro he
      simp [lookupA, he] at h
    have hr : lookupA r c = none := by
      simpa [lookupA, hc] using h
    show findTarget (plainBlock cf.1 cf.2 ++ plainSetters r) c f = none
    rw [findTarget_append, findTarget_plainBlock_ne cf.1 cf.2 c f hc, ih hr]

theorem findTarget_plainSetters_self (schema : Schema) (c f : String)
    (fs : List (String × ConfigDefinition))
    (hnd : (schema.map Prod.fst).Nodup)
    (hfs : lookupA schema c = some fs)
    (hnf : (fs.map Prod.fst).Nodup) :
    findTarget (plainSetters schema) c f =
      (lookupA fs f).bind (fun d => d.argName.map (fun a => (a, d))) := by
  induction schema with
  | nil => simp [lookupA] at hfs
  | cons cf r ih =>
    have hnd2 : (r.map Prod.fst).Nodup := (List.nodup_cons.mp (by simpa using hnd)).2
    show findTarget (plainBlock cf.1 cf.2 ++ plainSetters r) c f = _
    rw [findTarget_append]
    by_cases hc : cf.1 = c
    · subst hc
      have hfs2 : cf.2 = fs := by
        simpa [lookupA] using hfs
      subst hfs2
      rw [findTarget_plainBlock_self cf.1 cf.2 f hnf]
      cases hl : (lookupA cf.2 f).bind (fun d => d.argName.map (fun a => (a, d))) with
      | some x => rfl
      | none =>
        have hnm : cf.1 ∉ r.map Prod.fst := (List.nodup_cons.mp (by simpa using hnd)).1
        have hrn : lookupA r cf.1 = none := by
          cases hl2 : lookupA r cf.1 with
          | none => rfl
          | some x => exact absurd (mem_keys_of_lookupA r cf.1 x hl2) hnm
        rw [findTarget_plainSetters_none r cf.1 f hrn]
    · have hfs2 : lookupA r c = some fs := by
        simpa [lookupA, hc] using hfs
      rw [findTarget_plainBlock_ne cf.1 cf.2 c f hc, ih hnd2 hfs2]

theorem targetOf_mem_plainBlock (cat : String)
    (fields : List (String × ConfigDefinition)) (t : String × String)
    (h : t ∈ (plainBlock cat fields).map targetOf) :
    t.1 = cat ∧ t.2 ∈ fields.map Prod.fst := by
  induction fields with
  | nil => simp [plainBlock] at h
  | cons fd r ih =>
    cases ha : fd.2.argName with
    | none =>
      rw [show plainBlock cat (fd :: r) = plainBlock cat r from by simp [plainBlock, ha]] at h
      rcases ih h with ⟨h1, h2⟩
      exact ⟨h1, by simp [h2]⟩
    | some a =>
      rw [show plainBlock cat (fd :: r) = (a, (cat, fd.1, fd.2)) :: plainBlock cat r from by
        simp [plainBlock, ha]] at h
      simp only [List.map_cons, List.mem_cons] at h
      rcases h with h | h
      · rw [h]
        exact ⟨rfl, by simp [targetOf]⟩
      · rcases ih h with ⟨h1, h2⟩
        exact ⟨h1, by simp [h2]⟩

theorem targetOf_mem_plainSetters (schema : Schema) (t : String × String)
    (h : t ∈ (plainSetters schema).map targetOf) :
    t.1 ∈ schema.map Prod.fst := by
  induction schema with
  | nil => simp [plainSetters] at h
  | cons cf r ih =>
    rw [show plainSetters (cf :: r) = plainBlock cf.1 cf.2 ++ plainSetters r from rfl] at h
    rw [List.map_append, List.mem_append] at h
    rcases h with h | h
    · simp [(targetOf_mem_plainBlock cf.1 cf.2 t h).1]
    · simp [ih h]

theorem plainBlock_targets_nodup (cat : String)
    (fields : List (String × ConfigDefinition))
    (hnf : (fields.map Prod.fst).Nodup) :
    ((plainBlock cat fields).map targetOf).Nodup := by
  induction fields with
  | nil => simp [plainBlock]
  | cons fd r ih =>
    have hnd2 : (r.map Prod.fst).Nodup := (List.nodup_cons.mp (by simpa using hnf)).2
    have hnm : fd.1 ∉ r.map Prod.fst := (List.nodup_cons.mp (by simpa using hnf)).1
    cases ha : fd.2.argName with
    | none =>
      rw [show plainBlock cat (fd :: r) = plainBlock cat r from by simp [plainBlock, ha]]
      exact ih hnd2
    | some a =>
      rw [show plainBlock cat (fd :: r) = (a, (cat, fd.1, fd.2)) :: plainBlock cat r from by
        simp [plainBlock, ha]]
      rw [List.map_cons, List.nodup_cons]
      refine ⟨?_, ih hnd2⟩
      intro hm
      exact hnm (targetOf_mem_plainBlock cat r _ hm).2

theorem plainSetters_targets_nodup (schema : Schema)
    (hnd : (schema.map Prod.fst).Nodup)
    (hnf : ∀ cf ∈ schema, ((cf.2.map Prod.fst) : List String).Nodup) :
    ((plainSetters schema).map targetOf).Nodup := by
  induction schema with
  | nil => simp [plainSetters]
  | cons cf r ih =>
    have hnd2 : (r.map Prod.fst).Nodup := (List.nodup_cons.mp (by simpa using hnd)).2
    have hnm : cf.1 ∉ r.map Prod.fst := (List.nodup_cons.mp (by simpa using hnd)).1
    rw [show plainSetters (cf :: r) = plainBlock cf.1 cf.2 ++ plainSetters r from rfl]
    rw [List.map_append, List.nodup_append]
    refine ⟨plainBlock_targets_nodup cf.1 cf.2 (hnf cf (by simp)), ?_, ?_⟩
    · exact ih hnd2 (fun x hx => hnf x (by simp [hx]))
    · intro t ht hmem
      have h1 := (targetOf_mem_plainBlock cf.1 cf.2 t ht).1
      have h2 := targetOf_mem_plainSetters r t hmem
      rw [h1] at h2
      exact hnm h2

theorem setRawValue_some_ok_inv (s : PanelState) (cat fld : String) (v : JVal)
    (d : ConfigDefinition) (p : JVal) (s' : PanelState)
    (h : setRawValue s cat fld v (some d) = .ok (p, s')) :
    d.type.parse v = .ok p ∧ s' = okWrite s cat fld v p := by
  cases hp : d.type.parse v with
  | error issues =>
    rw [setRawValue_some_error s cat fld v d issues hp] at h
    cases h
  | ok p2 =>
    rw [setRawValue_some_ok s cat fld v d p2 hp] at h
    simp only [Except.ok.injEq, Prod.mk.injEq] at h
    obtain ⟨h1, h2⟩ := h
    subst h1
    exact ⟨rfl, by rw [← h2]; rfl⟩

theorem runSetters_ok_events (args : List (String × JVal))
    (L : List (String × (String × String × ConfigDefinition)))
    (s s' : PanelState) (h : runSetters args s L = .ok s') :
    s'.events = s.events := by
  induction L generalizing s with
  | nil =>
    simp only [runSetters, Except.ok.injEq] at h
    rw [← h]
  | cons e r ih =>
    obtain ⟨a, c0, f0, d0⟩ := e
    cases hl : lookupA args a with
    | none =>
      simp only [runSetters, hl] at h
      exact ih s h
    | some v =>
      simp only [runSetters, hl] at h
      cases hsv : setRawValue s c0 f0 v (some d0) with
      | error e2 => rw [hsv] at h; cases h
      | ok ps =>
        rw [hsv] at h
        obtain ⟨hp, hs1⟩ := setRawValue_some_ok_inv s c0 f0 v d0 ps.1 ps.2 (by rw [hsv])
        have := ih ps.2 h
        rw [this, hs1, okWrite_events]

theorem runSetters_ok_configMap (args : List (String × JVal))
    (L : List (String × (String × String × ConfigDefinition)))
    (s s' : PanelState) (h : runSetters args s L = .ok s') :
    s'.configMap = s.configMap := by
  induction L generalizing s with
  | nil =>
    simp only [runSetters, Except.ok.injEq] at h
    rw [← h]
  | cons e r ih =>
    obtain ⟨a, c0, f0, d0⟩ := e
    cases hl : lookupA args a with
    | none =>
      simp only [runSetters, hl] at h
      exact ih s h
    | some v =>
      simp only [runSetters, hl] at h
      cases hsv : setRawValue s c0 f0 v (some d0) with
      | error e2 => rw [hsv] at h; cases h
      | ok ps =>
        rw [hsv] at h
        obtain ⟨hp, hs1⟩ := setRawValue_some_ok_inv s c0 f0 v d0 ps.1 ps.2 (by rw [hsv])
        have := ih ps.2 h
        rw [this, hs1, okWrite_configMap]

theorem runSetters_ok_dirty (args : List (String × JVal))
    (L : List (String × (String × String × ConfigDefinition)))
    (s s' : PanelState) (h : runSetters args s L = .ok s') :
    s'.isValueMapDirty = s.isValueMapDirty := by
  induction L generalizing s with
  | nil =>
    simp only [runSetters, Except.ok.injEq] at h
    rw [← h]
  | cons e r ih =>
    obtain ⟨a, c0, f0, d0⟩ := e
    cases hl : lookupA args a with
    | none =>
      simp only [runSetters, hl] at h
      exact ih s h
    | some v =>
      simp only [runSetters, hl] at h
      cases hsv : setRawValue s c0 f0 v (some d0) with
      | error e2 => rw [hsv] at h; cases h
      | ok ps =>
        rw [hsv] at h
        obtain ⟨hp, hs1⟩ := setRawValue_some_ok_inv s c0 f0 v d0 ps.1 ps.2 (by rw [hsv])
        have := ih ps.2 h
        rw [this, hs1, okWrite_dirty]

theorem runSetters_ok_rawGet_notarget (args : List (String × JVal))
    (L : List (String × (String × String × ConfigDefinition)))
    (s s' : PanelState) (c f : String)
    (hnt : ∀ e ∈ L, targetOf e ≠ (c, f))
    (h : runSetters args s L = .ok s') :
    rawGet s' c f = rawGet s c f := by
  induction L generalizing s with
  | nil =>
    simp only [runSetters, Except.ok.injEq] at h
    rw [← h]
  | cons e r ih =>
    obtain ⟨a, c0, f0, d0⟩ := e
    have hr : ∀ e2 ∈ r, targetOf e2 ≠ (c, f) := fun e2 he2 => hnt e2 (by simp [he2])
    cases hl : lookupA args a with
    | none =>
      simp only [runSetters, hl] at h
      exact ih s hr h
    | some v =>
      simp only [runSetters, hl] at h
      cases hsv : setRawValue s c0 f0 v (some d0) with
      | error e2 => rw [hsv] at h; cases h
      | ok ps =>
        rw [hsv] at h
        obtain ⟨hp, hs1⟩ := setRawValue_some_ok_inv s c0 f0 v d0 ps.1 ps.2 (by rw [hsv])
        rw [ih ps.2 hr h, hs1, okWrite_rawGet]
        have hne : ¬(c = c0 ∧ f = f0) := by
          intro hcf
          exact hnt (a, (c0, f0, d0)) (by simp)
            (by simp [targetOf, hcf.1.symm, hcf.2.symm])
        rw [if_neg hne]

theorem runSetters_ok_rawGet (args : List (String × JVal))
    (L : List (String × (String × String × ConfigDefinition)))
    (s s' : PanelState) (c f : String)
    (hnd : (L.map targetOf).Nodup)
    (h : runSetters args s L = .ok s') :
    rawGet s' c f =
      match findTarget L c f with
      | some (a, _) =>
        match lookupA args a with
        | some v => v
        | none => rawGet s c f
      | none => rawGet s c f := by
  induction L generalizing s with
  | nil =>
    simp only [runSetters, Except.ok.injEq] at h
    rw [← h]
    rfl
  | cons e r ih =>
    obtain ⟨a, c0, f0, d0⟩ := e
    have hnd2 : ((r.map targetOf) : List (String × String)).Nodup :=
      (List.nodup_cons.mp (by simpa using hnd)).2
    have hnm : targetOf (a, (c0, f0, d0)) ∉ r.map targetOf :=
      (List.nodup_cons.mp (by simpa using hnd)).1
    by_cases he : c0 = c ∧ f0 = f
    · obtain ⟨hec, hef⟩ := he
      subst hec
      subst hef
      have hnt : ∀ e2 ∈ r, targetOf e2 ≠ (c0, f0) := by
        intro e2 he2 heq
        apply hnm
        rw [show targetOf (a, (c0, f0, d0)) = (c0, f0) from rfl, ← heq]
        exact List.mem_map_of_mem targetOf he2
      rw [show findTarget ((a, (c0, f0, d0)) :: r) c0 f0 = some (a, d0) from by
        simp [findTarget]]
      show rawGet s' c0 f0 =
        match lookupA args a with
        | some v => v
        | none => rawGet s c0 f0
      cases hl : lookupA args a with
      | none =>
        simp only [runSetters, hl] at h
        exact runSetters_ok_rawGet_notarget args r s s' c0 f0 hnt h
      | some v =>
        simp only [runSetters, hl] at h
        cases hsv : setRawValue s c0 f0 v (some d0) with
        | error e2 => rw [hsv] at h; cases h
        | ok ps =>
          rw [hsv] at h
          obtain ⟨hp, hs1⟩ := setRawValue_some_ok_inv s c0 f0 v d0 ps.1 ps.2 (by rw [hsv])
          have hpr := runSetters_ok_rawGet_notarget args r ps.2 s' c0 f0 hnt h
          rw [hpr, hs1, okWrite_rawGet, if_pos ⟨rfl, rfl⟩]
    · rw [show findTarget ((a, (c0, f0, d0)) :: r) c f = findTarget r c f from by
        simp [findTarget, he]]
      cases hl : lookupA args a with
      | none =>
        simp only [runSetters, hl] at h
        exact ih s hnd2 h
      | some v =>
        simp only [runSetters, hl] at h
        cases hsv : setRawValue s c0 f0 v (some d0) with
        | error e2 => rw [hsv] at h; cases h
        | ok ps =>
          rw [hsv] at h
          obtain ⟨hp, hs1⟩ := setRawValue_some_ok_inv s c0 f0 v d0 ps.1 ps.2 (by rw [hsv])
          have hrg : rawGet ps.2 c f = rawGet s c f := by
            rw [hs1, okWrite_rawGet]
            have hne : ¬(c = c0 ∧ f = f0) := by
              intro hcf
              exact he ⟨hcf.1.symm, hcf.2.symm⟩
            rw [if_neg hne]
          rw [ih ps.2 hnd2 h, hrg]

theorem runSetters_ok_parse (args : List (String × JVal))
    (L : List (String × (String × String × ConfigDefinition)))
    (s s' : PanelState)
    (h : runSetters args s L = .ok s')
    (a c0 f0 : String) (d0 : ConfigDefinition) (v : JVal)
    (hmem : (a, (c0, f0, d0)) ∈ L)
    (hl : lookupA args a = some v) :
    ∃ p, d0.type.parse v = .ok p := by
  induction L generalizing s with
  | nil => simp at hmem
  | cons e r ih =>
    obtain ⟨a2, c2, f2, d2⟩ := e
    rcases List.mem_cons.mp hmem with hhd | htl
    · have hcomp : a = a2 ∧ c0 = c2 ∧ f0 = f2 ∧ d0 = d2 := by
        simpa [Prod.ext_iff] using hhd
      obtain ⟨ha, hc, hf, hd⟩ := hcomp
      subst ha
      subst hc
      subst hf
      subst hd
      simp only [runSetters, hl] at h
      cases hsv : setRawValue s c0 f0 v (some d0) with
      | error e2 =>
        rw [hsv] at h
        cases h
      | ok ps =>
        obtain ⟨hp, _⟩ := setRawValue_some_ok_inv s c0 f0 v d0 ps.1 ps.2 (by rw [hsv])
        exact ⟨ps.1, hp⟩
    · cases hl2 : lookupA args a2 with
      | none =>
        simp only [runSetters, hl2] at h
        exact ih s h htl
      | some v2 =>
        simp only [runSetters, hl2] at h
        cases hsv : setRawValue s c2 f2 v2 (some d2) with
        | error e2 => rw [hsv] at h; cases h
        | ok ps =>
          rw [hsv] at h
          exact ih ps.2 h htl

theorem mem_of_lookupA {α : Type} (m : List (String × α)) (c : String) (x : α)
    (h : lookupA m c = some x) : (c, x) ∈ m := by
  induction m with
  | nil => simp [lookupA] at h
  | cons hd r ih =>
    by_cases hc : hd.1 = c
    · simp only [lookupA, hc, if_pos] at h
      subst hc
      rw [show x = hd.2 from (Option.some_inj.mp h).symm]
      exact List.mem_cons_self hd r
    · simp only [lookupA, hc, if_false] at h
      exact List.mem_cons_of_mem hd (ih h)

theorem mem_plainBlock_of_mem (cat : String) (fields : List (String × ConfigDefinition))
    (f a : String) (d : ConfigDefinition)
    (hmem : (f, d) ∈ fields) (ha : d.argName = some a) :
    (a, (cat, f, d)) ∈ plainBlock cat fields := by
  induction fields with
  | nil => simp at hmem
  | cons fd r ih =>
    rcases List.mem_cons.mp hmem with hhd | htl
    · rw [show fd = (f, d) from hhd.symm]
      simp [plainBlock, ha]
    · cases hfd : fd.2.argName with
      | none =>
        rw [show plainBlock cat (fd :: r) = plainBlock cat r from by simp [plainBlock, hfd]]
        exact ih htl
      | some a2 =>
        rw [show plainBlock cat (fd :: r) = (a2, (cat, fd.1, fd.2)) :: plainBlock cat r from by
          simp [plainBlock, hfd]]
        exact List.mem_cons_of_mem _ (ih htl)

theorem mem_plainSetters_of_mem (schema : Schema) (c : String)
    (fs : List (String × ConfigDefinition))
    (x : String × (String × String × ConfigDefinition))
    (hcs : (c, fs) ∈ schema) (hx : x ∈ plainBlock c fs) :
    x ∈ plainSetters schema := by
  induction schema with
  | nil => simp at hcs
  | cons cf r ih =>
    show x ∈ plainBlock cf.1 cf.2 ++ plainSetters r
    rcases List.mem_cons.mp hcs with hhd | htl
    · rw [← hhd]
      exact List.mem_append_left _ hx
    · exact List.mem_append_right _ (ih htl)

/-- Characterisation of a successful `fromArgs`: a field whose `argName`
the CLI values supply ends with the supplied raw value (written through
the validated path); every other field keeps its raw value. -/
theorem fromArgs_ok_rawGet (s : PanelState) (args : List (String × JVal))
    (s' : PanelState) (c f : String) (fs : List (String × ConfigDefinition))
    (d : ConfigDefinition)
    (hnd : (s.configMap.map Prod.fst).Nodup)
    (hnf : ∀ cf ∈ s.configMap, ((cf.2.map Prod.fst) : List String).Nodup)
    (hargnd : ((plainSetters s.configMap).map Prod.fst).Nodup)
    (hfs : lookupA s.configMap c = some fs)
    (hd : lookupA fs f = some d)
    (h : fromArgs s args = .ok s') :
    rawGet s' c f =
      match d.argName with
      | some a =>
        match lookupA args a with
        | some v => v
        | none => rawGet s c f
      | none => rawGet s c f := by
  unfold fromArgs at h
  rw [buildSetters_eq_plain s.configMap hargnd] at h
  have htnd := plainSetters_targets_nodup s.configMap hnd hnf
  have hr := runSetters_ok_rawGet args (plainSetters s.configMap) s s' c f htnd h
  rw [findTarget_plainSetters_self s.configMap c f fs hnd hfs
    (hnf (c, fs) (mem_of_lookupA _ _ _ hfs)), hd] at hr
  have hr2 : rawGet s' c f =
      match Option.map (fun a => (a, d)) d.argName with
      | some (a, _) =>
        match lookupA args a with
        | some v => v
        | none => rawGet s c f
      | none => rawGet s c f := hr
  cases ha : d.argName with
  | none =>
    rw [ha] at hr2
    exact hr2
  | some a =>
    rw [ha] at hr2
    exact hr2

theorem fromArgs_ok_rawGet_of_no_cat (s : PanelState) (args : List (String × JVal))
    (s' : PanelState) (c f : String)
    (hnd : (s.configMap.map Prod.fst).Nodup)
    (hnf : ∀ cf ∈ s.configMap, ((cf.2.map Prod.fst) : List String).Nodup)
    (hargnd : ((plainSetters s.configMap).map Prod.fst).Nodup)
    (hfs : lookupA s.configMap c = none)
    (h : fromArgs s args = .ok s') :
    rawGet s' c f = rawGet s c f := by
  unfold fromArgs at h
  rw [buildSetters_eq_plain s.configMap hargnd] at h
  have htnd := plainSetters_targets_nodup s.configMap hnd hnf
  have hr := runSetters_ok_rawGet args (plainSetters s.configMap) s s' c f htnd h
  rw [findTarget_plainSetters_none s.configMap c f hfs] at hr
  exact hr

theorem fromArgs_ok_rawGet_of_no_fld (s : PanelState) (args : List (String × JVal))
    (s' : PanelState) (c f : String) (fs : List (String × ConfigDefinition))
    (hnd : (s.configMap.map Prod.fst).Nodup)
    (hnf : ∀ cf ∈ s.configMap, ((cf.2.map Prod.fst) : List String).Nodup)
    (hargnd : ((plainSetters s.configMap).map Prod.fst).Nodup)
    (hfs : lookupA s.configMap c = some fs)
    (hd : lookupA fs f = none)
    (h : fromArgs s args = .ok s') :
    rawGet s' c f = rawGet s c f := by
  unfold fromArgs at h
  rw [buildSetters_eq_plain s.configMap hargnd] at h
  have htnd := plainSetters_targets_nodup s.configMap hnd hnf
  have hr := runSetters_ok_rawGet args (plainSetters s.configMap) s s' c f htnd h
  rw [findTarget_plainSetters_self s.configMap c f fs hnd hfs
    (hnf (c, fs) (mem_of_lookupA _ _ _ hfs)), hd] at hr
  exact hr

/-- A successful `fromArgs` implies every supplied value for a schema
field with an `argName` parsed successfully: the CLI loader validates at
load time. -/
theorem fromArgs_ok_parse (s : PanelState) (args : List (String × JVal))
    (s' : PanelState) (c f a : String) (fs : List (String × ConfigDefinition))
    (d : ConfigDefinition) (v : JVal)
    (hargnd : ((plainSetters s.configMap).map Prod.fst).Nodup)
    (hfs : lookupA s.configMap c = some fs)
    (hd : lookupA fs f = some d)
    (ha : d.argName = some a)
    (hv : lookupA args a = some v)
    (h : fromArgs s args = .ok s') :
    ∃ p, d.type.parse v = .ok p := by
  unfold fromArgs at h
  rw [buildSetters_eq_plain s.configMap hargnd] at h
  refine runSetters_ok_parse args (plainSetters s.configMap) s s' h a c f d v ?_ hv
  exact mem_plainSetters_of_mem s.configMap c fs _ (mem_of_lookupA _ _ _ hfs)
    (mem_plainBlock_of_mem c fs f a d (mem_of_lookupA _ _ _ hd) ha)

theorem zodParseCat_cons (cat : String) (fd : String × ConfigDefinition)
    (r : List (String × ConfigDefinition)) (rc : FieldMap) :
    zodParseCat cat (fd :: r) rc =
      match fd.2.type.parse ((lookupA rc fd.1).getD .undef) with
      | .ok v => ((fd.1, v) :: (zodParseCat cat r rc).1, (zodParseCat cat r rc).2)
      | .error issues =>
        ((zodParseCat cat r rc).1, ([cat, fd.1], issues) :: (zodParseCat cat r rc).2) :=
  rfl

theorem zodParseCat_issues_nil_iff (cat : String)
    (fields : List (String × ConfigDefinition)) (rc : FieldMap) :
    (zodParseCat cat fields rc).2 = [] ↔
      ∀ fd ∈ fields, ∃ p, fd.2.type.parse ((lookupA rc fd.1).getD .undef) = .ok p := by
  induction fields with
  | nil => simp [zodParseCat]
  | cons fd r ih =>
    rw [zodParseCat_cons]
    cases hp : fd.2.type.parse ((lookupA rc fd.1).getD .undef) with
    | ok v =>
      simp only [ih]
      constructor
      · intro hall fd2 hm
        rcases List.mem_cons.mp hm with hhd | htl
        · rw [hhd]
          exact ⟨v, hp⟩
        · exact hall fd2 htl
      · intro hall fd2 hm
        exact hall fd2 (by simp [hm])
    | error issues =>
      simp only
      constructor
      · intro hfalse
        cases hfalse
      · intro hall
        rcases hall fd (by simp) with ⟨p, hpp⟩
        rw [hp] at hpp
        cases hpp

theorem zodParseCat_ok_lookup (cat : String)
    (fields : List (String × ConfigDefinition)) (rc : FieldMap) (f : String)
    (hnil : (zodParseCat cat fields rc).2 = []) :
    lookupA (zodParseCat cat fields rc).1 f =
      match lookupA fields f with
      | some d => okOf (d.type.parse ((lookupA rc f).getD .undef))
      | none => none := by
  induction fields with
  | nil => simp [zodParseCat, lookupA]
  | cons fd r ih =>
    rw [zodParseCat_cons] at hnil ⊢
    cases hp : fd.2.type.parse ((lookupA rc fd.1).getD .undef) with
    | ok v =>
      rw [hp] at hnil
      simp only at hnil
      by_cases hf : fd.1 = f
      · subst hf
        simp [lookupA, ih hnil, hp, okOf]
      · simp only [lookupA, hf, if_false]
        rw [ih hnil]
    | error issues =>
      rw [hp] at hnil
      cases hnil

theorem zodParseCat_issue_mem (cat : String)
    (fields : List (String × ConfigDefinition)) (rc : FieldMap) (i : AggIssue)
    (h : i ∈ (zodParseCat cat fields rc).2) :
    ∃ f d msgs, (f, d) ∈ fields ∧ i = ([cat, f], msgs) ∧
      d.type.parse ((lookupA rc f).getD .undef) = .error msgs := by
  induction fields with
  | nil => simp [zodParseCat] at h
  | cons fd r ih =>
    rw [zodParseCat_cons] at h
    cases hp : fd.2.type.parse ((lookupA rc fd.1).getD .undef) with
    | ok v =>
      rw [hp] at h
      rcases ih h with ⟨f, d, msgs, hm, hi, he⟩
      exact ⟨f, d, msgs, by simp [hm], hi, he⟩
    | error issues =>
      rw [hp] at h
      rcases List.mem_cons.mp h with hhd | htl
      · exact ⟨fd.1, fd.2, issues, by simp, hhd, hp⟩
      · rcases ih htl with ⟨f, d, msgs, hm, hi, he⟩
        exact ⟨f, d, msgs, by simp [hm], hi, he⟩

theorem zodParseCat_mem_issue_of (cat : String)
    (fields : List (String × ConfigDefinition)) (rc : FieldMap)
    (f : String) (d : ConfigDefinition) (msgs : List String)
    (hm : (f, d) ∈ fields)
    (he : d.type.parse ((lookupA rc f).getD .undef) = .error msgs) :
    ([cat, f], msgs) ∈ (zodParseCat cat fields rc).2 := by
  induction fields with
  | nil => simp at hm
  | cons fd r ih =>
    rw [zodParseCat_cons]
    rcases List.mem_cons.mp hm with hhd | htl
    · have hfd : fd = (f, d) := hhd.symm
      subst hfd
      rw [he]
      simp
    · cases hp : fd.2.type.parse ((lookupA rc fd.1).getD .undef) with
      | ok v => simpa using ih htl
      | error issues => simpa using Or.inr (ih htl)

theorem zodParseAux_cons (cf : String × List (String × ConfigDefinition)) (r : Schema)
    (raw : CatMap) :
    zodParseAux (cf :: r) raw =
      if cf.2.isEmpty then zodParseAux r raw
      else
        match lookupA raw cf.1 with
        | none =>
          ((zodParseAux r raw).1,
            ([cf.1], ["Invalid input: expected object, received undefined"])
              :: (zodParseAux r raw).2)
        | some rc =>
          ((cf.1, (zodParseCat cf.1 cf.2 rc).1) :: (zodParseAux r raw).1,
            (zodParseCat cf.1 cf.2 rc).2 ++ (zodParseAux r raw).2) :=
  rfl

theorem zodParseAux_keys_sublist (schema : Schema) (raw : CatMap) :
    ((zodParseAux schema raw).1.map Prod.fst).Sublist (schema.map Prod.fst) := by
  induction schema with
  | nil => simp [zodParseAux]
  | cons cf r ih =>
    rw [zodParseAux_cons]
    by_cases hemp : cf.2.isEmpty
    · rw [if_pos hemp]
      exact ih.trans (List.sublist_cons_self _ _)
    · rw [if_neg hemp]
      cases hl : lookupA raw cf.1 with
      | none => exact ih.trans (List.sublist_cons_self _ _)
      | some rc =>
        simp only [List.map_cons]
        exact List.Sublist.cons₂ _ ih

theorem zodParseAux_ok_lookup (schema : Schema) (raw : CatMap) (c : String)
    (fs : List (String × ConfigDefinition))
    (hnil : (zodParseAux schema raw).2 = [])
    (hnd : (schema.map Prod.fst).Nodup)
    (hfs : lookupA schema c = some fs)
    (hne : fs ≠ []) :
    ∃ rc, lookupA raw c = some rc ∧
      lookupA (zodParseAux schema raw).1 c = some (zodParseCat c fs rc).1 ∧
      (zodParseCat c fs rc).2 = [] := by
  induction schema with
  | nil => simp [lookupA] at hfs
  | cons cf r ih =>
    have hnd2 : (r.map Prod.fst).Nodup := (List.nodup_cons.mp (by simpa using hnd)).2
    have hnm : cf.1 ∉ r.map Prod.fst := (List.nodup_cons.mp (by simpa using hnd)).1
    rw [zodParseAux_cons] at hnil ⊢
    by_cases hc : cf.1 = c
    · subst hc
      have hfs2 : cf.2 = fs := by
        simpa [lookupA] using hfs
      subst hfs2
      have hemp : ¬cf.2.isEmpty := by
        simpa [List.isEmpty_iff] using hne
      rw [if_neg hemp] at hnil ⊢
      cases hl : lookupA raw cf.1 with
      | none =>
        rw [hl] at hnil
        cases hnil
      | some rc =>
        rw [hl] at hnil
        refine ⟨rc, rfl, ?_, ?_⟩
        · simp [lookupA]
        · exact (List.append_eq_nil.mp hnil).1
    · have hfs2 : lookupA r c = some fs := by
        simpa [lookupA, hc] using hfs
      by_cases hemp : cf.2.isEmpty
      · rw [if_pos hemp] at hnil ⊢
        exact ih hnil hnd2 hfs2
      · rw [if_neg hemp] at hnil ⊢
        cases hl : lookupA raw cf.1 with
        | none =>
          rw [hl] at hnil
          cases hnil
        | some rc =>
          rw [hl] at hnil
          have hnil2 : (zodParseAux r raw).2 = [] := (List.append_eq_nil.mp hnil).2
          rcases ih hnil2 hnd2 hfs2 with ⟨rc2, h1, h2, h3⟩
          refine ⟨rc2, h1, ?_, h3⟩
          simpa [lookupA, hc] using h2

theorem lookupA_of_mem_nodup {α : Type} (m : List (String × α)) (k : String) (x : α)
    (hm : (k, x) ∈ m) (hnd : (m.map Prod.fst).Nodup) : lookupA m k = some x := by
  induction m with
  | nil => simp at hm
  | cons hd r ih =>
    have hnd2 : (r.map Prod.fst).Nodup := (List.nodup_cons.mp (by simpa using hnd)).2
    have hnm : hd.1 ∉ r.map Prod.fst := (List.nodup_cons.mp (by simpa using hnd)).1
    rcases List.mem_cons.mp hm with hhd | htl
    · rw [show hd = (k, x) from hhd.symm]
      simp [lookupA]
    · have hk : hd.1 ≠ k := by
        intro he
        apply hnm
        rw [he]
        exact List.mem_map_of_mem Prod.fst htl
      simp only [lookupA, hk, if_false]
      exact ih htl hnd2

theorem zodParseAux_issue_mem (schema : Schema) (raw : CatMap) (i : AggIssue)
    (h : i ∈ (zodParseAux schema raw).2) :
    ∃ cf, cf ∈ schema ∧ cf.2 ≠ [] ∧
      ((lookupA raw cf.1 = none ∧
        i = ([cf.1], ["Invalid input: expected object, received undefined"])) ∨
       (∃ rc, lookupA raw cf.1 = some rc ∧ i ∈ (zodParseCat cf.1 cf.2 rc).2)) := by
  induction schema with
  | nil => simp [zodParseAux] at h
  | cons cf r ih =>
    rw [zodParseAux_cons] at h
    by_cases hemp : cf.2.isEmpty
    · rw [if_pos hemp] at h
      rcases ih h with ⟨cf2, hm, hne, hrest⟩
      exact ⟨cf2, by simp [hm], hne, hrest⟩
    · rw [if_neg hemp] at h
      have hne : cf.2 ≠ [] := by
        simpa [List.isEmpty_iff] using hemp
      cases hl : lookupA raw cf.1 with
      | none =>
        rw [hl] at h
        rcases List.mem_cons.mp h with hhd | htl
        · exact ⟨cf, by simp, hne, Or.inl ⟨hl, hhd⟩⟩
        · rcases ih htl with ⟨cf2, hm, hne2, hrest⟩
          exact ⟨cf2, by simp [hm], hne2, hrest⟩
      | some rc =>
        rw [hl] at h
        rcases List.mem_append.mp h with hblk | htl
        · exact ⟨cf, by simp, hne, Or.inr ⟨rc, hl, hblk⟩⟩
        · rcases ih htl with ⟨cf2, hm, hne2, hrest⟩
          exact ⟨cf2, by simp [hm], hne2, hrest⟩

theorem zodParseAux_mem_issue_of (schema : Schema) (raw : CatMap)
    (cf : String × List (String × ConfigDefinition)) (rc : FieldMap) (i : AggIssue)
    (hm : cf ∈ schema) (hne : cf.2 ≠ [])
    (hl : lookupA raw cf.1 = some rc)
    (hi : i ∈ (zodParseCat cf.1 cf.2 rc).2) :
    i ∈ (zodParseAux schema raw).2 := by
  induction schema with
  | nil => simp at hm
  | cons cf2 r ih =>
    rw [zodParseAux_cons]
    rcases List.mem_cons.mp hm with hhd | htl
    · subst hhd
      rw [if_neg (by simpa [List.isEmpty_iff] using hne), hl]
      exact List.mem_append_left _ hi
    · by_cases hemp : cf2.2.isEmpty
      · rw [if_pos hemp]
        exact ih htl
      · rw [if_neg hemp]
        cases hl2 : lookupA raw cf2.1 with
        | none => exact List.mem_cons_of_mem _ (ih htl)
        | some rc2 => exact List.mem_append_right _ (ih htl)

theorem zodParse_ok_inv (schema : Schema) (raw : CatMap) (parsed : CatMap)
    (h : zodParse schema raw = .ok parsed) :
    (zodParseAux schema raw).2 = [] ∧ parsed = (zodParseAux schema raw).1 := by
  unfold zodParse at h
  by_cases he : (zodParseAux schema raw).2.isEmpty
  · rw [if_pos he] at h
    refine ⟨List.isEmpty_iff.mp he, ?_⟩
    simpa using h.symm
  · rw [if_neg he] at h
    cases h

theorem zodParse_error_inv (schema : Schema) (raw : CatMap) (issues : List AggIssue)
    (h : zodParse schema raw = .error issues) :
    issues = (zodParseAux schema raw).2 ∧ issues ≠ [] := by
  unfold zodParse at h
  by_cases he : (zodParseAux schema raw).2.isEmpty
  · rw [if_pos he] at h
    cases h
  · rw [if_neg he] at h
    have hi : issues = (zodParseAux schema raw).2 := by
      simpa using h.symm
    refine ⟨hi, ?_⟩
    rw [hi]
    simpa [List.isEmpty_iff] using he

theorem assignValues_rawInputMap (s : PanelState) (parsed : CatMap) :
    (assignValues s parsed).rawInputMap = s.rawInputMap := by
  unfold assignValues
  simp only
  generalize s = t
  induction parsed generalizing t with
  | nil => rfl
  | cons cp r ih => simpa [List.foldl_cons] using ih _

theorem assignValues_configMap (s : PanelState) (parsed : CatMap) :
    (assignValues s parsed).configMap = s.configMap := by
  unfold assignValues
  simp only
  generalize s = t
  induction parsed generalizing t with
  | nil => rfl
  | cons cp r ih => simpa [List.foldl_cons] using ih _

theorem assignValues_events (s : PanelState) (parsed : CatMap) :
    (assignValues s parsed).events = s.events := by
  unfold assignValues
  simp only
  generalize s = t
  induction parsed generalizing t with
  | nil => rfl
  | cons cp r ih => simpa [List.foldl_cons] using ih _

theorem assignValues_dirty (s : PanelState) (parsed : CatMap) :
    (assignValues s parsed).isValueMapDirty = false := rfl

theorem assignValues_val_lookup_none (s : PanelState) (parsed : CatMap) (c : String)
    (h : lookupA parsed c = none) :
    lookupA (assignValues s parsed).valueMap c = lookupA s.valueMap c := by
  unfold assignValues
  simp only
  induction parsed generalizing s with
  | nil => rfl
  | cons cp r ih =>
    have hc : cp.1 ≠ c := by
      intro he
      simp [lookupA, he] at h
    have hr : lookupA r c = none := by
      simpa [lookupA, hc] using h
    rw [List.foldl_cons]
    rw [ih _ hr]
    simp only
    exact lookupA_setA_ne _ _ _ _ hc

theorem assignValues_val_lookup_some (s : PanelState) (parsed : CatMap) (c : String)
    (pv : FieldMap)
    (hnd : (parsed.map Prod.fst).Nodup)
    (h : lookupA parsed c = some pv) :
    ∃ i, lookupA (assignValues s parsed).valueMap c = some ⟨i, pv⟩ := by
  unfold assignValues
  simp only
  induction parsed generalizing s with
  | nil => simp [lookupA] at h
  | cons cp r ih =>
    have hnd2 : (r.map Prod.fst).Nodup := (List.nodup_cons.mp (by simpa using hnd)).2
    have hnm : cp.1 ∉ r.map Prod.fst := (List.nodup_cons.mp (by simpa using hnd)).1
    by_cases hc : cp.1 = c
    · subst hc
      have hpv : cp.2 = pv := by
        simpa [lookupA] using h
      subst hpv
      have hr : lookupA r cp.1 = none := by
        cases hl : lookupA r cp.1 with
        | none => rfl
        | some x => exact absurd (mem_keys_of_lookupA r cp.1 x hl) hnm
      rw [List.foldl_cons]
      refine ⟨s.nextId, ?_⟩
      have := assignValues_val_lookup_none
        { s with valueMap := setA s.valueMap cp.1 ⟨s.nextId, cp.2⟩, nextId := s.nextId + 1 }
        r cp.1 hr
      unfold assignValues at this
      simp only at this
      rw [this]
      exact lookupA_setA_self _ _ _
    · have hr : lookupA r c = some pv := by
        simpa [lookupA, hc] using h
      rw [List.foldl_cons]
      exact ih _ hnd2 hr

theorem getValues_not_dirty (s : PanelState) (h : s.isValueMapDirty = false) :
    getValues s = .ok s := by
  unfold getValues
  rw [h]
  rfl

theorem getValues_dirty_ok_inv (s : PanelState) (s' : PanelState)
    (hd : s.isValueMapDirty = true) (h : getValues s = .ok s') :
    ∃ parsed, zodParse s.configMap s.rawInputMap = .ok parsed ∧
      s' = assignValues s parsed := by
  unfold getValues at h
  rw [hd] at h
  simp only [if_true] at h
  cases hz : zodParse s.configMap s.rawInputMap with
  | error issues =>
    rw [hz] at h
    cases h
  | ok parsed =>
    rw [hz] at h
    simp only [Except.ok.injEq] at h
    exact ⟨parsed, rfl, h.symm⟩

theorem getValues_dirty_error_inv (s : PanelState) (issues : List AggIssue)
    (hd : s.isValueMapDirty = true) (h : getValues s = .error issues) :
    zodParse s.configMap s.rawInputMap = .error issues := by
  unfold getValues at h
  rw [hd] at h
  simp only [if_true] at h
  cases hz : zodParse s.configMap s.rawInputMap with
  | error issues2 =>
    rw [hz] at h
    simp only [Except.error.injEq] at h
    rw [h]
  | ok parsed =>
    rw [hz] at h
    cases h

theorem emit_rawInputMap (s : PanelState) (n : String) (p : Payload) :
    (emit s n p).rawInputMap = s.rawInputMap := rfl

theorem emit_valueMap (s : PanelState) (n : String) (p : Payload) :
    (emit s n p).valueMap = s.valueMap := rfl

theorem emit_dirty (s : PanelState) (n : String) (p : Payload) :
    (emit s n p).isValueMapDirty = s.isValueMapDirty := rfl

theorem emit_configMap (s : PanelState) (n : String) (p : Payload) :
    (emit s n p).configMap = s.configMap := rfl

theorem emit_events (s : PanelState) (n : String) (p : Payload) :
    (emit s n p).events = s.events ++ [⟨n, p⟩] := rfl

/-- A successful recompute leaves the raw store alone, clears the dirty
flag and makes every cached field value the parse of its raw value. -/
theorem getValues_ok_coherent (s s' : PanelState)
    (hd : s.isValueMapDirty = true)
    (hnd : (s.configMap.map Prod.fst).Nodup)
    (h : getValues s = .ok s') :
    s'.rawInputMap = s.rawInputMap ∧ s'.configMap = s.configMap ∧
    s'.events = s.events ∧ s'.isValueMapDirty = false ∧
    ∀ c fs f d, lookupA s.configMap c = some fs → lookupA fs f = some d →
      d.type.parse (rawGet s c f) = .ok (valGet s' c f) := by
  rcases getValues_dirty_ok_inv s s' hd h with ⟨parsed, hz, hs'⟩
  rcases zodParse_ok_inv _ _ _ hz with ⟨hnil, hparsed⟩
  subst hs'
  refine ⟨assignValues_rawInputMap s parsed, assignValues_configMap s parsed,
    assignValues_events s parsed, assignValues_dirty s parsed, ?_⟩
  intro c fs f d hfs hdl
  have hfsne : fs ≠ [] := by
    intro hh
    rw [hh] at hdl
    simp [lookupA] at hdl
  rcases zodParseAux_ok_lookup s.configMap s.rawInputMap c fs hnil hnd hfs hfsne
    with ⟨rc, hrc, hpl, hbnil⟩
  have hpnd : (parsed.map Prod.fst).Nodup := by
    rw [hparsed]
    exact (zodParseAux_keys_sublist s.configMap s.rawInputMap).nodup hnd
  have hpl2 : lookupA parsed c = some (zodParseCat c fs rc).1 := by
    rw [hparsed]
    exact hpl
  rcases assignValues_val_lookup_some s parsed c _ hpnd hpl2 with ⟨i, hvl⟩
  have hvg : valGet (assignValues s parsed) c f =
      (lookupA (zodParseCat c fs rc).1 f).getD .undef := by
    unfold valGet
    rw [hvl]
  rw [hvg, zodParseCat_ok_lookup c fs rc f hbnil, hdl]
  have hraw : rawGet s c f = (lookupA rc f).getD .undef := by
    unfold rawGet rawGetIn
    rw [hrc]
  rw [hraw]
  rcases (zodParseCat_issues_nil_iff c fs rc).mp hbnil (f, d)
    (mem_of_lookupA fs f d hdl) with ⟨p, hp⟩
  have hp2 : d.type.parse ((lookupA rc f).getD .undef) = .ok p := hp
  rw [hp2]
  simp [okOf, hp2]

/-! ### Claim C1 -/

/-- C1: a validated write (`setRawValue` with a definition, as used by
`setRaw`, `set` and channel edits) whose raw value the field's type
descriptor rejects leaves the panel state — raw store, value cache and
dirty flag — entirely unchanged, and fails with a `ValidationError`
whose message names the joined `category.field` path.  The hypotheses
`hraw`/`hval` say the category's containers exist, which holds for every
path present in the schema from construction on. -/
theorem spec_c1_validated_write_failure (s : PanelState) (cat fld : String)
    (rawValue : JVal) (d : ConfigDefinition) (issues : List String)
    (hp : d.type.parse rawValue = .error issues)
    (hraw : (lookupA s.rawInputMap cat).isSome)
    (hval : (lookupA s.valueMap cat).isSome) :
    setRawValue s cat fld rawValue (some d) =
      .error ("Invalid value for " ++ cat ++ "." ++ fld ++ ": "
        ++ String.intercalate "; " issues ++ " (" ++ jsToStr rawValue ++ ")", s) ∧
    ∃ pre post,
      ("Invalid value for " ++ cat ++ "." ++ fld ++ ": "
        ++ String.intercalate "; " issues ++ " (" ++ jsToStr rawValue ++ ")")
        = pre ++ (cat ++ "." ++ fld) ++ post := by
  constructor
  · rw [setRawValue_some_error s cat fld rawValue d issues hp,
      ensureCat_of_present s cat hraw hval]
  · refine ⟨"Invalid value for ",
      ": " ++ String.intercalate "; " issues ++ " (" ++ jsToStr rawValue ++ ")", ?_⟩
    simp [String.append_assoc]

/-- Witness for C1 at the demo panel: rejecting the fish `"Herring"`. -/
theorem spec_c1_witness :
    setRawValue demoPanel "cat_2" "test_enum" (.str "Herring") (some fishDef) =
      .error ("Invalid value for " ++ "cat_2" ++ "." ++ "test_enum" ++ ": "
        ++ String.intercalate "; " ["Invalid option"] ++ " (" ++ jsToStr (.str "Herring") ++ ")",
        demoPanel) ∧
    ∃ pre post,
      ("Invalid value for " ++ "cat_2" ++ "." ++ "test_enum" ++ ": "
        ++ String.intercalate "; " ["Invalid option"] ++ " (" ++ jsToStr (.str "Herring") ++ ")")
        = pre ++ ("cat_2" ++ "." ++ "test_enum") ++ post :=
  spec_c1_validated_write_failure demoPanel "cat_2" "test_enum" (.str "Herring")
    fishDef ["Invalid option"] (by rfl) (by rfl) (by rfl)

/-! ### Claim C2 -/

/-- C2: a validated write whose raw value the descriptor accepts stores
the raw value in the raw store and the parsed value in the value cache,
returns the parsed value, and mutates the existing category container in
place — the container keeps its allocation id (`vc.oid`), so any
previously obtained reference to that category object observes the
update — and a subsequent `values` read returns without any recompute
(the getter is the identity on a clean state) and reflects the new
value.  `hclean` is the steady state in which no bulk load is pending;
the dirty flag is unchanged by the write either way. -/
theorem spec_c2_validated_write_success (s : PanelState) (cat fld : String)
    (v p : JVal) (d : ConfigDefinition) (vc : ValueCat)
    (hp : d.type.parse v = .ok p)
    (hvc : lookupA s.valueMap cat = some vc)
    (hclean : s.isValueMapDirty = false) :
    setRawValue s cat fld v (some d) = .ok (p, okWrite s cat fld v p) ∧
    (∀ c f, rawGet (okWrite s cat fld v p) c f =
      if c = cat ∧ f = fld then v else rawGet s c f) ∧
    (∀ c f, valGet (okWrite s cat fld v p) c f =
      if c = cat ∧ f = fld then p else valGet s c f) ∧
    lookupA (okWrite s cat fld v p).valueMap cat = some ⟨vc.oid, setA vc.vals fld p⟩ ∧
    (∀ c, c ≠ cat → lookupA (okWrite s cat fld v p).valueMap c = lookupA s.valueMap c) ∧
    (okWrite s cat fld v p).isValueMapDirty = false ∧
    getValues (okWrite s cat fld v p) = .ok (okWrite s cat fld v p) ∧
    valGet (okWrite s cat fld v p) cat fld = p := by
  have hdirty : (okWrite s cat fld v p).isValueMapDirty = false := by
    rw [okWrite_dirty, hclean]
  refine ⟨?_, ?_, ?_, ?_, ?_, hdirty, getValues_not_dirty _ hdirty, ?_⟩
  · exact setRawValue_some_ok s cat fld v d p hp
  · intro c f
    exact okWrite_rawGet s cat fld v p c f
  · intro c f
    exact okWrite_valGet s cat fld v p c f
  · rw [okWrite_val_lookup_of_present s cat fld v p vc hvc cat, if_pos rfl]
  · intro c hc
    rw [okWrite_val_lookup_of_present s cat fld v p vc hvc c, if_neg hc]
  · rw [okWrite_valGet, if_pos ⟨rfl, rfl⟩]

/-- Witness for C2 at the demo panel after one clean `values` read:
accepting the fish `"Salmon"`.  The category container is the one the
first recompute allocated (id 4) and it is mutated in place. -/
theorem spec_c2_witness :
    ∃ s vc,
      getValues demoPanel = .ok s ∧
      lookupA s.valueMap "cat_2" = some vc ∧
      (setRawValue s "cat_2" "test_enum" (.str "Salmon") (some fishDef) =
          .ok (.str "Salmon", okWrite s "cat_2" "test_enum" (.str "Salmon") (.str "Salmon")) ∧
        (∀ c f, rawGet (okWrite s "cat_2" "test_enum" (.str "Salmon") (.str "Salmon")) c f =
          if c = "cat_2" ∧ f = "test_enum" then .str "Salmon" else rawGet s c f) ∧
        (∀ c f, valGet (okWrite s "cat_2" "test_enum" (.str "Salmon") (.str "Salmon")) c f =
          if c = "cat_2" ∧ f = "test_enum" then .str "Salmon" else valGet s c f) ∧
        lookupA (okWrite s "cat_2" "test_enum" (.str "Salmon") (.str "Salmon")).valueMap "cat_2"
          = some ⟨vc.oid, setA vc.vals "test_enum" (.str "Salmon")⟩ ∧
        (∀ c, c ≠ "cat_2" →
          lookupA (okWrite s "cat_2" "test_enum" (.str "Salmon") (.str "Salmon")).valueMap c
            = lookupA s.valueMap c) ∧
        (okWrite s "cat_2" "test_enum" (.str "Salmon") (.str "Salmon")).isValueMapDirty = false ∧
        getValues (okWrite s "cat_2" "test_enum" (.str "Salmon") (.str "Salmon")) =
          .ok (okWrite s "cat_2" "test_enum" (.str "Salmon") (.str "Salmon")) ∧
        valGet (okWrite s "cat_2" "test_enum" (.str "Salmon") (.str "Salmon")) "cat_2" "test_enum"
          = .str "Salmon") := by
  refine ⟨_, _, rfl, rfl, ?_⟩
  exact spec_c2_validated_write_success _ "cat_2" "test_enum" (.str "Salmon") (.str "Salmon")
    fishDef _ (by rfl) (by rfl) (by rfl)

/-! ### Claim C3 -/

/-- C3: when the dirty flag is set, a `values` read recomputes the whole
cache in one pass: on success the dirty flag is cleared, the raw store is
untouched, and every cached field equals the parse of its raw value; on
failure the state is left exactly as it was (cache and dirty flag
unchanged) and the aggregated error names precisely the invalid fields —
`([c, f], msgs)` is among the issues if and only if field `[c, f]`'s
descriptor rejects its raw value with `msgs`.  When the flag is clear the
read returns the cache untouched.  `hpres` says every non-empty schema
category has its raw container, which holds from construction on. -/
theorem spec_c3_values_recompute (s : PanelState)
    (hnd : (s.configMap.map Prod.fst).Nodup)
    (hnf : ∀ cf ∈ s.configMap, ((cf.2.map Prod.fst) : List String).Nodup)
    (hpres : ∀ c fs, lookupA s.configMap c = some fs → fs ≠ [] →
      ∃ rc, lookupA s.rawInputMap c = some rc) :
    (s.isValueMapDirty = false → getValues s = .ok s) ∧
    (s.isValueMapDirty = true →
      (∀ s', getValues s = .ok s' →
        s'.isValueMapDirty = false ∧
        s'.rawInputMap = s.rawInputMap ∧
        ∀ c fs f d, lookupA s.configMap c = some fs → lookupA fs f = some d →
          d.type.parse (rawGet s c f) = .ok (valGet s' c f)) ∧
      (∀ issues, getValues s = .error issues →
        step s .valuesOp = s ∧
        issues ≠ [] ∧
        ∀ c fs f d msgs, lookupA s.configMap c = some fs → lookupA fs f = some d →
          (([c, f], msgs) ∈ issues ↔
            d.type.parse (rawGet s c f) = .error msgs))) := by
  refine ⟨getValues_not_dirty s, fun hd => ⟨?_, ?_⟩⟩
  · intro s' h
    rcases getValues_ok_coherent s s' hd hnd h with ⟨h1, h2, h3, h4, h5⟩
    exact ⟨h4, h1, h5⟩
  · intro issues h
    refine ⟨?_, ?_, ?_⟩
    · show (match getValues s with
        | .ok s' => s'
        | .error _ => s) = s
      rw [h]
    · exact (zodParse_error_inv _ _ _ (getValues_dirty_error_inv s issues hd h)).2
    · intro c fs f d msgs hfs hdl
      have hiss : issues = (zodParseAux s.configMap s.rawInputMap).2 :=
        (zodParse_error_inv _ _ _ (getValues_dirty_error_inv s issues hd h)).1
      have hfsne : fs ≠ [] := by
        intro hh
        rw [hh] at hdl
        simp [lookupA] at hdl
      rcases hpres c fs hfs hfsne with ⟨rc, hrc⟩
      have hraw : rawGet s c f = (lookupA rc f).getD .undef := by
        unfold rawGet rawGetIn
        rw [hrc]
      constructor
      · intro hmem
        rw [hiss] at hmem
        rcases zodParseAux_issue_mem s.configMap s.rawInputMap _ hmem
          with ⟨cf, hcf, hcfne, hcase⟩
        rcases hcase with ⟨_, hshape⟩ | ⟨rc2, hrc2, hblk⟩
        · exfalso
          simp at hshape
        · rcases zodParseCat_issue_mem cf.1 cf.2 rc2 _ hblk
            with ⟨f2, d2, msgs2, hm2, hi2, he2⟩
          have hc2 : c = cf.1 ∧ f = f2 ∧ msgs = msgs2 := by
            have hlocal := hi2
            simp only [Prod.mk.injEq, List.cons.injEq] at hlocal
            exact ⟨hlocal.1.1, hlocal.1.2.1, hlocal.2⟩
          obtain ⟨hcc, hff, hmm⟩ := hc2
          subst hcc
          subst hff
          subst hmm
          have hcfs : cf.2 = fs := by
            have hlook : lookupA s.configMap cf.1 = some cf.2 :=
              lookupA_of_mem_nodup s.configMap cf.1 cf.2 hcf hnd
            rw [hlook] at hfs
            exact Option.some_inj.mp hfs
          have hd2 : d2 = d := by
            have hl2 : lookupA cf.2 f = some d2 :=
              lookupA_of_mem_nodup cf.2 f d2 hm2 (hnf cf hcf)
            rw [hcfs] at hl2
            rw [hl2] at hdl
            exact Option.some_inj.mp hdl
          subst hd2
          have hrc3 : rc2 = rc := by
            rw [hrc2] at hrc
            exact Option.some_inj.mp hrc
          subst hrc3
          rw [hraw]
          exact he2
      · intro herr
        rw [hiss]
        refine zodParseAux_mem_issue_of s.configMap s.rawInputMap (c, fs) rc
          ([c, f], msgs) (mem_of_lookupA _ _ _ hfs) hfsne hrc ?_
        refine zodParseCat_mem_issue_of c fs rc f d msgs (mem_of_lookupA _ _ _ hdl) ?_
        rw [← hraw]
        exact herr

/-- Witness for C3 at the demo panel: the constructed panel is dirty, the
first read recomputes and succeeds, clears the flag, leaves the raw store
alone, and caches the parse of the fish default. -/
theorem spec_c3_witness :
    demoPanel.isValueMapDirty = true ∧
    getValues demoPanel = .ok demoValuesState ∧
    demoValuesState.isValueMapDirty = false ∧
    demoValuesState.rawInputMap = demoPanel.rawInputMap ∧
    fishDef.type.parse (rawGet demoPanel "cat_2" "test_enum")
      = .ok (valGet demoValuesState "cat_2" "test_enum") := by
  have hpres : ∀ c fs, lookupA demoPanel.configMap c = some fs → fs ≠ [] →
      ∃ rc, lookupA demoPanel.rawInputMap c = some rc := by
    intro c fs h hne
    by_cases h1 : "test_cat" = c
    · subst h1
      exact ⟨_, rfl⟩
    · by_cases h2 : "cat_2" = c
      · subst h2
        exact ⟨_, rfl⟩
      · rw [show demoPanel.configMap = demoSchema from rfl] at h
        simp [demoSchema, lookupA, h1, h2] at h
  have H := spec_c3_values_recompute demoPanel (by decide) (by decide) hpres
  have hok : getValues demoPanel = .ok demoValuesState := by rfl
  have h2 := (H.2 (by rfl)).1 demoValuesState hok
  exact ⟨rfl, hok, h2.1, h2.2.1,
    h2.2.2 "cat_2" _ "test_enum" fishDef rfl rfl⟩

/-! ### Claim C5 -/

/-- C5 (code bug): `getChangeKey` is written
`` return (`change.${cat}` + def ? `.${def}` : '') `` — operator
precedence makes the whole concatenation the ternary's condition, which
is always a non-empty (truthy) string, so the helper returns
`.undefined` for every category-scoped key and `.FIELD` for every
field-scoped key instead of the documented `change.CATEGORY` /
`change.CATEGORY.KEY` (see the `on` overloads of the `ConfigPanel`
interface).  All category-scoped events therefore collide on the single
key `.undefined`, and a successful channel edit emits
`change`, `.undefined`, `.FIELD`, `values` instead of the documented
sequence.  This theorem evaluates the code at the failing inputs. -/
theorem spec_c5_change_key_bug :
    getChangeKey "cat_2" none = ".undefined" ∧
    getChangeKey "test_cat" none = ".undefined" ∧
    getChangeKey "cat_2" (some "test_enum") = ".test_enum" ∧
    getChangeKey "cat_2" none ≠ "change.cat_2" ∧
    getChangeKey "cat_2" none ≠ "cat_2" ∧
    getChangeKey "cat_2" (some "test_enum") ≠ "change.cat_2.test_enum" ∧
    getChangeKey "cat_2" (some "test_enum") ≠ "cat_2.test_enum" ∧
    getChangeKey "cat_2" none = getChangeKey "test_cat" none ∧
    (match onValueChange demoPanel "cat_2" "test_enum" (.str "Salmon") with
     | .ok s' => some (s'.events.map Event.name)
     | .error _ => none) = some ["change", ".undefined", ".test_enum", "values"] := by
  refine ⟨by decide, by decide, by decide, by decide, by decide, by decide, by decide,
    by decide, ?_⟩
  rfl

theorem getConfigDefinition_ok_inv (schema : Schema) (cat fld : String)
    (d : ConfigDefinition) (h : getConfigDefinition schema cat fld = .ok d) :
    ∃ fs, lookupA schema cat = some fs ∧ lookupA fs fld = some d := by
  unfold getConfigDefinition at h
  split at h
  next hc => cases h
  next fs hc =>
    split at h
    next hf => cases h
    next d2 hf =>
      simp only [Except.ok.injEq] at h
      exact ⟨fs, hc, by rw [hf, h]⟩

/-- A successful `values` read never touches the raw store, the schema or
the event log. -/
theorem getValues_ok_state_facts (s s' : PanelState) (h : getValues s = .ok s') :
    s'.rawInputMap = s.rawInputMap ∧ s'.configMap = s.configMap ∧
    s'.events = s.events ∧ s'.isValueMapDirty = false ∨ s' = s := by
  cases hd : s.isValueMapDirty with
  | false =>
    right
    rw [getValues_not_dirty s hd] at h
    exact (Option.some_inj.mp (congrArg Except.toOption h)).symm
  | true =>
    left
    rcases getValues_dirty_ok_inv s s' hd h with ⟨parsed, hz, hs'⟩
    subst hs'
    exact ⟨assignValues_rawInputMap s parsed, assignValues_configMap s parsed,
      assignValues_events s parsed, assignValues_dirty s parsed⟩

/-! ### Claim C7 -/

/-- C7 counterexample: the host-facing `setRaw` performs a validated edit
but emits nothing — after a successful `setRaw` on the fresh demo panel
the event log is still empty, while the claim requires the four change
events. -/
theorem spec_c7_counterexample :
    demoPanel.events = [] ∧
    (match setRaw demoPanel "cat_2" "test_enum" "Salmon" with
     | .ok (_, s') => some s'.events.length
     | .error _ => none) = some 0 :=
  ⟨rfl, rfl⟩

/-- C7 (amended): a validated edit arriving through the UI channel
(`onValueChange`) updates the raw store and the value cache and then
emits, in order, the generic `change` event, the category-scoped and
field-scoped events (under the keys `getChangeKey` actually computes)
and either the aggregate `values` event or, if the full recompute fails,
an `error` event; the host-facing `setRaw`/`set` path updates both
stores but emits no events at all. -/
theorem spec_c7_amended_edit_events :
    (∀ (s : PanelState) (cat fld : String) (v : JVal) (s' : PanelState),
      (s.configMap.map Prod.fst).Nodup →
      onValueChange s cat fld v = .ok s' →
      ∃ d p, getConfigDefinition s.configMap cat fld = .ok d ∧
        d.type.parse v = .ok p ∧
        rawGet s' cat fld = v ∧
        valGet s' cat fld = p ∧
        ∃ last : Event, (last.name = "values" ∨ last.name = "error") ∧
          s'.events = s.events ++
            [⟨"change", .pathValue [cat, fld] p⟩,
             ⟨getChangeKey cat none, .pathValue [cat, fld] p⟩,
             ⟨getChangeKey cat (some fld), .value p⟩, last]) ∧
    (∀ (s : PanelState) (cat fld value : String) (r : JVal) (s' : PanelState),
      setRaw s cat fld value = .ok (r, s') →
      s'.events = s.events ∧
      rawGet s' cat fld = .str value ∧
      valGet s' cat fld = r) := by
  constructor
  · intro s cat fld v s' hnd h
    unfold onValueChange at h
    split at h
    next m hgc => cases h
    next config hgc =>
      split at h
      next e hsv => cases h
      next pv s1 hsv =>
        obtain ⟨hp, hs1⟩ := setRawValue_some_ok_inv s cat fld v config pv s1 hsv
        subst hs1
        refine ⟨config, pv, hgc, hp, ?_⟩
        rcases getConfigDefinition_ok_inv s.configMap cat fld config hgc
          with ⟨fs, hfs, hdl⟩
        split at h
        next s5 hgv =>
          simp only [Except.ok.injEq] at h
          subst h
          have hraw5 : s5.rawInputMap = (okWrite s cat fld v pv).rawInputMap := by
            rcases getValues_ok_state_facts _ s5 hgv with ⟨h1, _, _, _⟩ | heq
            · exact h1
            · rw [heq]
              rfl
          have hev5 : s5.events =
              (emit (emit (emit (okWrite s cat fld v pv) "change" (.pathValue [cat, fld] pv))
                (getChangeKey cat none) (.pathValue [cat, fld] pv))
                (getChangeKey cat (some fld)) (.value pv)).events := by
            rcases getValues_ok_state_facts _ s5 hgv with ⟨_, _, h3, _⟩ | heq
            · exact h3
            · rw [heq]
          refine ⟨?_, ?_, ⟨"values", .valuesTree (treeOf s5.valueMap)⟩,
            Or.inl rfl, ?_⟩
          · show rawGetIn s5.rawInputMap cat fld = v
            rw [hraw5]
            have := okWrite_rawGet s cat fld v pv cat fld
            rw [if_pos ⟨rfl, rfl⟩] at this
            exact this
          · show valGet s5 cat fld = pv
            cases hd4 : (emit (emit (emit (okWrite s cat fld v pv) "change"
                (.pathValue [cat, fld] pv)) (getChangeKey cat none)
                (.pathValue [cat, fld] pv)) (getChangeKey cat (some fld))
                (.value pv)).isValueMapDirty with
            | false =>
              rw [getValues_not_dirty _ hd4] at hgv
              simp only [Except.ok.injEq] at hgv
              rw [← hgv]
              have := okWrite_valGet s cat fld v pv cat fld
              rw [if_pos ⟨rfl, rfl⟩] at this
              exact this
            | true =>
              rcases getValues_ok_coherent _ s5 hd4 (by
                  show ((okWrite s cat fld v pv).configMap.map Prod.fst).Nodup
                  rw [okWrite_configMap]
                  exact hnd) hgv with ⟨_, _, _, _, hcoh⟩
              have hc2 := hcoh cat fs fld config
                (by
                  show lookupA (okWrite s cat fld v pv).configMap cat = some fs
                  rw [okWrite_configMap]
                  exact hfs)
                hdl
              have hr4 : rawGet (emit (emit (emit (okWrite s cat fld v pv) "change"
                  (.pathValue [cat, fld] pv)) (getChangeKey cat none)
                  (.pathValue [cat, fld] pv)) (getChangeKey cat (some fld))
                  (.value pv)) cat fld = v := by
                show rawGetIn (okWrite s cat fld v pv).rawInputMap cat fld = v
                have := okWrite_rawGet s cat fld v pv cat fld
                rw [if_pos ⟨rfl, rfl⟩] at this
                exact this
              rw [hr4, hp] at hc2
              simp only [Except.ok.injEq] at hc2
              rw [← hc2]
          · rw [show (emit s5 "values" (.valuesTree (treeOf s5.valueMap))).events
                = s5.events ++ [⟨"values", .valuesTree (treeOf s5.valueMap)⟩] from rfl,
              hev5]
            show ((((okWrite s cat fld v pv).events ++ _) ++ _) ++ _) ++ _ = _
            rw [okWrite_events]
            simp
        next issues hgv =>
          simp only [Except.ok.injEq] at h
          subst h
          refine ⟨?_, ?_, ⟨"error", .errAgg issues⟩, Or.inr rfl, ?_⟩
          · show rawGetIn (okWrite s cat fld v pv).rawInputMap cat fld = v
            have := okWrite_rawGet s cat fld v pv cat fld
            rw [if_pos ⟨rfl, rfl⟩] at this
            exact this
          · show valGet (okWrite s cat fld v pv) cat fld = pv
            have := okWrite_valGet s cat fld v pv cat fld
            rw [if_pos ⟨rfl, rfl⟩] at this
            exact this
          · show (((((okWrite s cat fld v pv).events ++ _) ++ _) ++ _) ++ _) = _
            rw [okWrite_events]
            simp
  · intro s cat fld value r s' h
    unfold setRaw at h
    split at h
    next m hgc => cases h
    next d hgc =>
      obtain ⟨hp, hs'⟩ := setRawValue_some_ok_inv s cat fld (.str value) d r s' h
      subst hs'
      refine ⟨okWrite_events s cat fld (.str value) r, ?_, ?_⟩
      · have := okWrite_rawGet s cat fld (.str value) r cat fld
        rw [if_pos ⟨rfl, rfl⟩] at this
        exact this
      · have := okWrite_valGet s cat fld (.str value) r cat fld
        rw [if_pos ⟨rfl, rfl⟩] at this
        exact this

/-- Witness for C7 at the demo panel: the channel edit writes both stores
and emits exactly four events. -/
theorem spec_c7_witness :
    onValueChange demoPanel "cat_2" "test_enum" (.str "Salmon") = .ok demoEditState ∧
    rawGet demoEditState "cat_2" "test_enum" = .str "Salmon" ∧
    valGet demoEditState "cat_2" "test_enum" = .str "Salmon" ∧
    demoEditState.events.length = 4 := by
  have H := (spec_c7_amended_edit_events).1 demoPanel "cat_2" "test_enum"
    (.str "Salmon") demoEditState (by decide) (by rfl)
  rcases H with ⟨d, p, hgc, hp, hraw, hval, last, hname, hev⟩
  have hd : d = fishDef := by
    have hcomp : getConfigDefinition demoPanel.configMap "cat_2" "test_enum"
        = .ok fishDef := by rfl
    rw [hcomp] at hgc
    exact (Option.some_inj.mp (congrArg Except.toOption hgc)).symm
  subst hd
  have hps : p = .str "Salmon" := by
    have hcomp : fishDef.type.parse (.str "Salmon") = .ok (.str "Salmon") := by rfl
    rw [hcomp] at hp
    exact (Option.some_inj.mp (congrArg Except.toOption hp)).symm
  subst hps
  refine ⟨by rfl, hraw, hval, ?_⟩
  rw [hev]
  rfl

/-! ### Claim C8 -/

theorem applyWrites_raw_isSome_of_mem (s : PanelState)
    (ws : List ((String × String) × JVal)) (c : String)
    (h : c ∈ ws.map (fun w => w.1.1)) :
    (lookupA (applyWrites s ws).rawInputMap c).isSome := by
  induction ws generalizing s with
  | nil => simp at h
  | cons hd r ih =>
    rw [List.map_cons] at h
    rcases List.mem_cons.mp h with hhd | htl
    · refine applyWrites_raw_lookup_isSome _ r c ?_
      rw [setRawUnval_raw_lookup]
      rw [if_pos hhd]
      rfl
    · exact ih _ htl

theorem applyWrites_val_isSome_of_mem (s : PanelState)
    (ws : List ((String × String) × JVal)) (c : String)
    (h : c ∈ ws.map (fun w => w.1.1)) :
    (lookupA (applyWrites s ws).valueMap c).isSome := by
  induction ws generalizing s with
  | nil => simp at h
  | cons hd r ih =>
    rw [List.map_cons] at h
    rcases List.mem_cons.mp h with hhd | htl
    · refine applyWrites_val_lookup_isSome _ r c ?_
      rw [setRawUnval_val_lookup]
      rw [if_pos hhd]
      rfl
    · exact ih _ htl

theorem mem_schemaWrites_gDefault (schema : Schema) (c : String)
    (fs : List (String × ConfigDefinition))
    (hm : (c, fs) ∈ schema) (hne : fs ≠ []) :
    c ∈ (schemaWrites gDefault schema).map (fun w => w.1.1) := by
  induction schema with
  | nil => simp at hm
  | cons cf r ih =>
    show c ∈ (blockW cf.1 (gDefault cf.1) cf.2 ++ schemaWrites gDefault r).map
      (fun w => w.1.1)
    rw [List.map_append]
    rcases List.mem_cons.mp hm with hhd | htl
    · apply List.mem_append_left
      have hcf : cf = (c, fs) := hhd.symm
      subst hcf
      cases fs with
      | nil => exact absurd rfl hne
      | cons fd r2 => simp [blockW, gDefault]
    · exact List.mem_append_right _ (ih htl)

/-- After construction every schema category with at least one field has
both of its containers. -/
theorem construct_containers (schema : Schema) (c : String)
    (fs : List (String × ConfigDefinition))
    (hfs : lookupA schema c = some fs) (hne : fs ≠ []) :
    (lookupA (construct schema).rawInputMap c).isSome ∧
    (lookupA (construct schema).valueMap c).isSome := by
  have hm := mem_schemaWrites_gDefault schema c fs (mem_of_lookupA _ _ _ hfs) hne
  rw [construct_eq_applyWrites]
  exact ⟨applyWrites_raw_isSome_of_mem _ _ c hm, applyWrites_val_isSome_of_mem _ _ c hm⟩

theorem zodParseAux_issues_nil_of (schema : Schema) (raw : CatMap)
    (h : ∀ cf ∈ schema, cf.2 ≠ [] → ∃ rc, lookupA raw cf.1 = some rc ∧
      ∀ fd ∈ cf.2, ∃ p, fd.2.type.parse ((lookupA rc fd.1).getD .undef) = .ok p) :
    (zodParseAux schema raw).2 = [] := by
  induction schema with
  | nil => rfl
  | cons cf r ih =>
    rw [zodParseAux_cons]
    by_cases hemp : cf.2.isEmpty
    · rw [if_pos hemp]
      exact ih (fun x hx => h x (by simp [hx]))
    · rw [if_neg hemp]
      have hne : cf.2 ≠ [] := by
        simpa [List.isEmpty_iff] using hemp
      rcases h cf (by simp) hne with ⟨rc, hrc, hall⟩
      rw [hrc]
      show (zodParseCat cf.1 cf.2 rc).2 ++ (zodParseAux r raw).2 = []
      rw [(zodParseCat_issues_nil_iff cf.1 cf.2 rc).mpr hall,
        ih (fun x hx => h x (by simp [hx]))]
      rfl

/-- C8 counterexample: the configured default is the raw string `"5"`,
but the first `values` read parses the raw store, so the field comes back
as the number `5`, not "exactly the configured default". -/
theorem spec_c8_counterexample :
    defaultRaw { type := coerceNumber 0, default := .str "5" } = .str "5" ∧
    rawGet (construct c8Schema) "srv" "port" = .str "5" ∧
    (match getValues (construct c8Schema) with
     | .ok s' => some (valGet s' "srv" "port")
     | .error _ => none) = some (.num 5) ∧
    (JVal.num 5 ≠ .str "5") :=
  ⟨rfl, rfl, rfl, by decide⟩

/-- When no issues were collected the composed parse succeeds with the
collected categories. -/
theorem zodParse_of_nil (schema : Schema) (raw : CatMap)
    (h : (zodParseAux schema raw).2 = []) :
    zodParse schema raw = .ok (zodParseAux schema raw).1 := by
  show (if (zodParseAux schema raw).2.isEmpty = true then
      Except.ok (zodParseAux schema raw).1
    else Except.error (zodParseAux schema raw).2) = Except.ok (zodParseAux schema raw).1
  rw [h]
  rfl

/-- C8 (amended): after construction and before any load, every field's
**raw** value is exactly its configured default (the explicit `default`
if present, else the descriptor's default); the panel starts dirty, so
the first `values` read re-parses the raw store: it succeeds precisely
when every default parses, and then each field's value is the **parse**
of its configured default (which coincides with the default whenever the
descriptor parses its own default to itself). -/
theorem spec_c8_amended_defaults (schema : Schema)
    (hnd : (schema.map Prod.fst).Nodup)
    (hnf : ∀ cf ∈ schema, ((cf.2.map Prod.fst) : List String).Nodup) :
    (construct schema).isValueMapDirty = true ∧
    (∀ c fs f d, lookupA schema c = some fs → lookupA fs f = some d →
      rawGet (construct schema) c f = defaultRaw d) ∧
    ((∀ cf ∈ schema, ∀ fd ∈ cf.2, ∃ p,
        (fd.2 : ConfigDefinition).type.parse (defaultRaw fd.2) = .ok p) →
      ∃ s', getValues (construct schema) = .ok s') ∧
    (∀ s', getValues (construct schema) = .ok s' →
      ∀ c fs f d, lookupA schema c = some fs → lookupA fs f = some d →
        d.type.parse (defaultRaw d) = .ok (valGet s' c f)) := by
  have hraw : ∀ c fs f d, lookupA schema c = some fs → lookupA fs f = some d →
      rawGet (construct schema) c f = defaultRaw d := by
    intro c fs f d hfs hdl
    exact construct_rawGet schema c f fs d hnd hfs
      (hnf (c, fs) (mem_of_lookupA _ _ _ hfs)) hdl
  refine ⟨construct_dirty schema, hraw, ?_, ?_⟩
  · intro hdefs
    have hnil : (zodParseAux (construct schema).configMap
        (construct schema).rawInputMap).2 = [] := by
      rw [construct_configMap]
      refine zodParseAux_issues_nil_of schema (construct schema).rawInputMap ?_
      intro cf hcf hne
      have hlook : lookupA schema cf.1 = some cf.2 :=
        lookupA_of_mem_nodup schema cf.1 cf.2 hcf hnd
      rcases construct_containers schema cf.1 cf.2 hlook hne with ⟨hrawS, _⟩
      rcases Option.isSome_iff_exists.mp hrawS with ⟨rc, hrc⟩
      refine ⟨rc, hrc, ?_⟩
      intro fd hfd
      rcases hdefs cf hcf fd hfd with ⟨p, hp⟩
      refine ⟨p, ?_⟩
      have hfdl : lookupA cf.2 fd.1 = some fd.2 :=
        lookupA_of_mem_nodup cf.2 fd.1 fd.2 hfd (hnf cf hcf)
      have hrg := hraw cf.1 cf.2 fd.1 fd.2 hlook hfdl
      have hrg2 : rawGet (construct schema) cf.1 fd.1 = (lookupA rc fd.1).getD .undef := by
        unfold rawGet rawGetIn
        rw [hrc]
      rw [← hrg2, hrg]
      exact hp
    refine ⟨assignValues (construct schema)
      (zodParseAux (construct schema).configMap (construct schema).rawInputMap).1, ?_⟩
    unfold getValues
    rw [construct_dirty schema]
    simp only [if_true]
    rw [zodParse_of_nil _ _ hnil]
  · intro s' h c fs f d hfs hdl
    have hcoh := (getValues_ok_coherent (construct schema) s'
      (construct_dirty schema) (by rw [construct_configMap]; exact hnd) h).2.2.2.2
    have := hcoh c fs f d (by rw [construct_configMap]; exact hfs) hdl
    rw [hraw c fs f d hfs hdl] at this
    exact this

/-- Witness for C8 at the demo schema: the raw default of the fish field
is "Tuna" and the first read caches its parse, again "Tuna". -/
theorem spec_c8_witness :
    demoPanel.isValueMapDirty = true ∧
    rawGet demoPanel "cat_2" "test_enum" = .str "Tuna" ∧
    getValues demoPanel = .ok demoValuesState ∧
    fishDef.type.parse (defaultRaw fishDef) = .ok (valGet demoValuesState "cat_2" "test_enum") := by
  have H := spec_c8_amended_defaults demoSchema (by decide) (by decide)
  refine ⟨H.1, ?_, by rfl, ?_⟩
  · have hr := H.2.1 "cat_2" _ "test_enum" fishDef rfl rfl
    rw [show defaultRaw fishDef = .str "Tuna" from rfl] at hr
    exact hr
  · exact H.2.2.2 demoValuesState (by rfl) "cat_2" _ "test_enum" fishDef rfl rfl

/-! ### Claim C6 -/

/-- C6 counterexample: the CLI loader does validate at load time — an
invalid supplied value makes `fromArgs` raise a `ValidationError` naming
the path, so "a loader never raises a ValidationError" is false. -/
theorem spec_c6_counterexample :
    exceptOk (fromArgs demoPanel [("num", .str "abc")]) = false ∧
    (match fromArgs demoPanel [("num", .str "abc")] with
     | .error (m, _) => some m
     | .ok _ => none) =
      some ("Invalid value for test_cat.test_number: "
        ++ "Invalid input: expected number, received NaN (abc)") :=
  ⟨rfl, rfl⟩

/-- C6 (amended): the environment and JSON loaders never parse a value —
they leave the value cache untouched, raise nothing (they are total),
and mark the cache dirty (the environment loader whenever it wrote
anything, the JSON loader always); only validation at the first `values`
read sees those values.  The CLI-argument loader, by contrast, writes
through the validated path: it can only succeed if every supplied value
for a field with an `argName` parses, so it validates at load time. -/
theorem spec_c6_amended_loader_validation :
    (∀ (s : PanelState) (env : List (String × String)) (pfx : String),
      (∀ c f, valGet (fromEnvironment s env pfx) c f = valGet s c f) ∧
      (fromEnvironment s env pfx).events = s.events ∧
      ((fromEnvironment s env pfx).rawInputMap ≠ s.rawInputMap →
        (fromEnvironment s env pfx).isValueMapDirty = true)) ∧
    (∀ (s : PanelState) (o : CatMap),
      (fromJSON s (some o)).valueMap = s.valueMap ∧
      (fromJSON s (some o)).events = s.events ∧
      (fromJSON s (some o)).isValueMapDirty = true) ∧
    (∀ (s : PanelState) (args : List (String × JVal)) (s' : PanelState)
        (c f a : String) (fs : List (String × ConfigDefinition))
        (d : ConfigDefinition) (v : JVal),
      ((plainSetters s.configMap).map Prod.fst).Nodup →
      lookupA s.configMap c = some fs → lookupA fs f = some d →
      d.argName = some a → lookupA args a = some v →
      fromArgs s args = .ok s' →
      ∃ p, d.type.parse v = .ok p) := by
  refine ⟨?_, ?_, ?_⟩
  · intro s env pfx
    exact ⟨fromEnvironment_valGet s env pfx, fromEnvironment_events s env pfx,
      fromEnvironment_dirty_of_raw_changed s env pfx⟩
  · intro s o
    exact ⟨fromJSON_valueMap s (some o), fromJSON_events s (some o), rfl⟩
  · intro s args s' c f a fs d v hargnd hfs hdl ha hv h
    exact fromArgs_ok_parse s args s' c f a fs d v hargnd hfs hdl ha hv h

/-- Witness for C6 at the demo panel. -/
theorem spec_c6_witness :
    fromArgs demoPanel [("num", .str "7")] = .ok demoArgsState ∧
    (fromJSON demoPanel (some [("cat_2", [("test_enum", .str "Salmon")])])).isValueMapDirty
      = true ∧
    (coerceNumber 50).parse (.str "7") = .ok (.num 7) := by
  refine ⟨by rfl, ?_, ?_⟩
  · exact (spec_c6_amended_loader_validation.2.1 demoPanel
      [("cat_2", [("test_enum", .str "Salmon")])]).2.2
  · obtain ⟨p, hp⟩ := spec_c6_amended_loader_validation.2.2 demoPanel
      [("num", .str "7")] demoArgsState "test_cat" "test_number" "num" _
      { type := coerceNumber 50, argName := some "num" } (.str "7")
      (by decide) rfl rfl rfl rfl (by rfl)
    rw [show ((coerceNumber 50).parse (.str "7") : Except (List String) JVal)
      = .ok (.num 7) from rfl]

/-- C4 counterexample: `fromJSON` merges with a top-level `Object.assign`,
replacing whole category objects.  Loading a JSON file that supplies only
`a.x` wipes `a.y` — a field no source supplied — leaving its raw value
`undefined` instead of its configured default `"dy"`. -/
theorem spec_c4_counterexample :
    (match load (construct c4Schema) [] (some [("a", [("x", .str "jx")])]) [] with
     | .ok s' => some (rawGet s' "a" "y", rawGet s' "a" "x")
     | .error _ => none) = some (.undef, .str "jx") ∧
    JVal.undef ≠ .str "dy" :=
  ⟨rfl, by decide⟩

/-- C4 (amended): after a composite `load()` that succeeds, each schema
field's raw value is: the CLI value if the parsed arguments supplied the
field's `argName` (validated at write time); otherwise the JSON file's
category object's entry for the field whenever the file contains the
category at all — the JSON layer replaces whole category objects, so a
field whose category the file supplies but omits ends up `undefined`
rather than keeping an earlier layer's value; otherwise the environment
value if the field's env key was supplied; otherwise the configured
default. -/
theorem spec_c4_amended_load_precedence (schema : Schema)
    (env : List (String × String)) (json : Option CatMap)
    (args : List (String × JVal)) (s' : PanelState)
    (c f : String) (fs : List (String × ConfigDefinition)) (d : ConfigDefinition)
    (hnd : (schema.map Prod.fst).Nodup)
    (hnf : ∀ cf ∈ schema, ((cf.2.map Prod.fst) : List String).Nodup)
    (hargnd : ((plainSetters schema).map Prod.fst).Nodup)
    (hjnd : ∀ o, json = some o → ((o.map Prod.fst) : List String).Nodup)
    (hfs : lookupA schema c = some fs)
    (hdl : lookupA fs f = some d)
    (h : load (construct schema) env json args = .ok s') :
    rawGet s' c f =
      match d.argName with
      | some a =>
        match lookupA args a with
        | some v => v
        | none => jsonLayerVal env json c f d
      | none => jsonLayerVal env json c f d := by
  unfold load at h
  have hcm0 : (construct schema).configMap = schema := construct_configMap schema
  have hcm1 : (fromEnvironment (construct schema) env "").configMap = schema := by
    rw [fromEnvironment_configMap, hcm0]
  have hcm2 : (fromJSON (fromEnvironment (construct schema) env "") json).configMap
      = schema := by
    rw [fromJSON_configMap, hcm1]
  have hbase : rawGet (fromJSON (fromEnvironment (construct schema) env "") json) c f
      = jsonLayerVal env json c f d := by
    have henv : rawGet (fromEnvironment (construct schema) env "") c f
        = envLayerVal env c f d := by
      have := fromEnvironment_rawGet (construct schema) env "" c f fs d
        (by rw [hcm0]; exact hnd) (by rw [hcm0]; exact hfs)
        (hnf (c, fs) (mem_of_lookupA _ _ _ hfs)) hdl
      rw [this]
      unfold envLayerVal
      cases hl : lookupA env (envKeyOf "" c f d) with
      | some ev => rfl
      | none =>
        exact construct_rawGet schema c f fs d hnd hfs
          (hnf (c, fs) (mem_of_lookupA _ _ _ hfs)) hdl
    cases json with
    | none =>
      show rawGet (fromEnvironment (construct schema) env "") c f = _
      rw [henv]
      rfl
    | some o =>
      rw [fromJSON_rawGet _ o c f (hjnd o rfl)]
      show (match lookupA o c with
        | some rc => (lookupA rc f).getD .undef
        | none => rawGet (fromEnvironment (construct schema) env "") c f) =
        match lookupA o c with
        | some rc => (lookupA rc f).getD .undef
        | none => envLayerVal env c f d
      cases hl : lookupA o c with
      | some rc => rfl
      | none => exact henv
  have hfin := fromArgs_ok_rawGet
    (fromJSON (fromEnvironment (construct schema) env "") json) args s' c f fs d
    (by rw [hcm2]; exact hnd)
    (by rw [hcm2]; exact hnf)
    (by rw [hcm2]; exact hargnd)
    (by rw [hcm2]; exact hfs) hdl h
  rw [hfin, hbase]

/-- Witness for C4 (amended) at the demo schema: arguments beat JSON,
JSON beats environment, environment beats defaults. -/
theorem spec_c4_witness :
    load (construct demoSchema) [("fish_type", "Trout")]
      (some [("test_cat", [("text_string", .str "json-str")])]) [("num", .str "7")]
      = .ok demoLoadState ∧
    rawGet demoLoadState "test_cat" "test_number" = .str "7" ∧
    rawGet demoLoadState "cat_2" "test_enum" = .str "Trout" ∧
    rawGet demoLoadState "test_cat" "text_string" = .str "json-str" := by
  have H1 := spec_c4_amended_load_precedence demoSchema [("fish_type", "Trout")]
    (some [("test_cat", [("text_string", .str "json-str")])]) [("num", .str "7")]
    demoLoadState "test_cat" "test_number" _
    { type := coerceNumber 50, argName := some "num" }
    (by decide) (by decide) (by decide) (by intro o ho; cases ho; decide)
    rfl rfl (by rfl)
  have H2 := spec_c4_amended_load_precedence demoSchema [("fish_type", "Trout")]
    (some [("test_cat", [("text_string", .str "json-str")])]) [("num", .str "7")]
    demoLoadState "cat_2" "test_enum" _ fishDef
    (by decide) (by decide) (by decide) (by intro o ho; cases ho; decide)
    rfl rfl (by rfl)
  have H3 := spec_c4_amended_load_precedence demoSchema [("fish_type", "Trout")]
    (some [("test_cat", [("text_string", .str "json-str")])]) [("num", .str "7")]
    demoLoadState "test_cat" "text_string" _ { type := coerceString "test-default" }
    (by decide) (by decide) (by decide) (by intro o ho; cases ho; decide)
    rfl rfl (by rfl)
  exact ⟨by rfl, H1.trans (by rfl), H2.trans (by rfl), H3.trans (by rfl)⟩

/-! ### Claim C9 -/

theorem lookupA_map_values {α β : Type} (m : List (String × α)) (g : α → β) (c : String) :
    lookupA (m.map (fun cp => (cp.1, g cp.2))) c = (lookupA m c).map g := by
  induction m with
  | nil => rfl
  | cons hd r ih =>
    by_cases hc : hd.1 = c <;> simp [lookupA, hc, ih]

theorem lookupA_none_of_not_mem_keys {α : Type} (m : List (String × α)) (c : String)
    (h : c ∉ m.map Prod.fst) : lookupA m c = none := by
  cases hl : lookupA m c with
  | none => rfl
  | some x => exact absurd (mem_keys_of_lookupA m c x hl) h

theorem lookupA_filter_undef (rc : FieldMap) (f : String)
    (hnd : (rc.map Prod.fst).Nodup) :
    (lookupA (rc.filter (fun fv => fv.2 ≠ JVal.undef)) f).getD .undef
      = (lookupA rc f).getD .undef := by
  induction rc with
  | nil => rfl
  | cons fv r ih =>
    have hnd2 : (r.map Prod.fst).Nodup := (List.nodup_cons.mp (by simpa using hnd)).2
    have hnm : fv.1 ∉ r.map Prod.fst := (List.nodup_cons.mp (by simpa using hnd)).1
    by_cases hu : fv.2 = JVal.undef
    · rw [show (fv :: r).filter (fun fv => fv.2 ≠ JVal.undef) =
        r.filter (fun fv => fv.2 ≠ JVal.undef) from by
          simp [List.filter_cons, hu]]
      by_cases hf : fv.1 = f
      · rw [← hf]
        have hfn : fv.1 ∉ (r.filter (fun fv => fv.2 ≠ JVal.undef)).map Prod.fst := by
          intro hm
          apply hnm
          rcases List.mem_map.mp hm with ⟨x, hx, hx1⟩
          exact List.mem_map.mpr ⟨x, List.mem_of_mem_filter hx, hx1⟩
        rw [lookupA_none_of_not_mem_keys _ _ hfn]
        simp [lookupA, hu]
      · rw [ih hnd2]
        simp [lookupA, hf]
    · rw [show (fv :: r).filter (fun fv => fv.2 ≠ JVal.undef) =
        fv :: r.filter (fun fv => fv.2 ≠ JVal.undef) from by
          simp [List.filter_cons, hu]]
      by_cases hf : fv.1 = f
      · simp [lookupA, hf]
      · simp only [lookupA, hf, if_false]
        exact ih hnd2

/-- C9: writing the raw tree with `toJSON` and loading the file into a
freshly constructed panel over the same schema restores a raw store that
agrees with the original on every category and field (`JSON.stringify`
drops `undefined`-valued entries, but a dropped entry and an
`undefined`-valued one read identically).  The hypotheses say the
panel's key lists are duplicate-free and every non-empty schema category
has a raw container — both hold for every reachable panel state. -/
theorem spec_c9_roundtrip (s : PanelState)
    (hnd : (s.configMap.map Prod.fst).Nodup)
    (hnf : ∀ cf ∈ s.configMap, ((cf.2.map Prod.fst) : List String).Nodup)
    (hmnd : (s.rawInputMap.map Prod.fst).Nodup)
    (hmf : ∀ c rc, lookupA s.rawInputMap c = some rc → ((rc.map Prod.fst) : List String).Nodup)
    (hcov : ∀ c fs, lookupA s.configMap c = some fs → fs ≠ [] →
      (lookupA s.rawInputMap c).isSome) :
    ∀ c f, rawGet (fromJSON (construct s.configMap) (some (toJSON s))) c f
      = rawGet s c f := by
  intro c f
  have hkeys : ((toJSON s).map Prod.fst : List String) = s.rawInputMap.map Prod.fst := by
    unfold toJSON
    rw [List.map_map]
    rfl
  rw [fromJSON_rawGet _ (toJSON s) c f (by rw [hkeys]; exact hmnd)]
  have hfile : lookupA (toJSON s) c =
      (lookupA s.rawInputMap c).map (fun rc => rc.filter (fun fv => fv.2 ≠ JVal.undef)) := by
    unfold toJSON
    exact lookupA_map_values s.rawInputMap _ c
  rw [hfile]
  cases hm : lookupA s.rawInputMap c with
  | some rc =>
    show (lookupA (rc.filter (fun fv => fv.2 ≠ JVal.undef)) f).getD .undef = rawGet s c f
    rw [lookupA_filter_undef rc f (hmf c rc hm)]
    unfold rawGet rawGetIn
    rw [hm]
  | none =>
    show rawGet (construct s.configMap) c f = rawGet s c f
    have hright : rawGet s c f = .undef := by
      unfold rawGet rawGetIn
      rw [hm]
    rw [hright]
    cases hfs : lookupA s.configMap c with
    | none => exact construct_rawGet_of_no_cat s.configMap c f hfs
    | some fs =>
      cases hfse : fs with
      | nil =>
        refine construct_rawGet_of_no_fld s.configMap c f fs hnd hfs
          (hnf (c, fs) (mem_of_lookupA _ _ _ hfs)) ?_
        rw [hfse]
        rfl
      | cons fd r =>
        exfalso
        have := hcov c fs hfs (by rw [hfse]; simp)
        rw [hm] at this
        cases this

/-- Witness for C9 at the demo panel: serialising and re-loading the raw
tree into a fresh panel restores every field's raw value. -/
theorem spec_c9_witness :
    rawGet (fromJSON (construct demoPanel.configMap) (some (toJSON demoPanel)))
        "cat_2" "test_enum" = rawGet demoPanel "cat_2" "test_enum" ∧
    rawGet (fromJSON (construct demoPanel.configMap) (some (toJSON demoPanel)))
        "test_cat" "test_number" = rawGet demoPanel "test_cat" "test_number" := by
  have hraweq : demoPanel.rawInputMap =
      [("test_cat", [("text_string", JVal.str "test-default"), ("test_number", JVal.num 50)]),
       ("cat_2", [("test_enum", JVal.str "Tuna")])] := rfl
  have hmf : ∀ c rc, lookupA demoPanel.rawInputMap c = some rc →
      ((rc.map Prod.fst) : List String).Nodup := by
    intro c rc h
    by_cases h1 : "test_cat" = c
    · rw [← h1] at h
      rw [show lookupA demoPanel.rawInputMap "test_cat"
        = some [("text_string", JVal.str "test-default"), ("test_number", JVal.num 50)]
        from rfl] at h
      cases h
      decide
    · by_cases h2 : "cat_2" = c
      · rw [← h2] at h
        rw [show lookupA demoPanel.rawInputMap "cat_2"
          = some [("test_enum", JVal.str "Tuna")] from rfl] at h
        cases h
        decide
      · rw [hraweq] at h
        simp [lookupA, h1, h2] at h
  have hcov : ∀ c fs, lookupA demoPanel.configMap c = some fs → fs ≠ [] →
      (lookupA demoPanel.rawInputMap c).isSome := by
    intro c fs h hne
    by_cases h1 : "test_cat" = c
    · rw [← h1]
      rfl
    · by_cases h2 : "cat_2" = c
      · rw [← h2]
        rfl
      · rw [show demoPanel.configMap = demoSchema from rfl] at h
        simp [demoSchema, lookupA, h1, h2] at h
  have H := spec_c9_roundtrip demoPanel (by decide) (by decide) (by decide) hmf hcov
  exact ⟨H "cat_2" "test_enum", H "test_cat" "test_number"⟩

theorem ensureCat_rawGet (s : PanelState) (cat c f : String) :
    rawGet (ensureCat s cat) c f = rawGet s c f := by
  unfold rawGet rawGetIn
  rw [ensureCat_raw_lookup]
  by_cases hc : c = cat
  · subst hc
    cases hl : lookupA s.rawInputMap c with
    | none => simp [lookupA]
    | some fs => simp
  · rw [if_neg hc]

theorem ensureCat_valGet (s : PanelState) (cat c f : String) :
    valGet (ensureCat s cat) c f = valGet s c f := by
  unfold valGet
  rw [ensureCat_val_lookup]
  by_cases hc : c = cat
  · subst hc
    cases hl : lookupA s.valueMap c with
    | none => simp [lookupA]
    | some vc => simp
  · rw [if_neg hc]

theorem Inv_ensureCat (s : PanelState) (cat : String) (h : Inv s) :
    Inv (ensureCat s cat) := by
  obtain ⟨hstr, hcoh⟩ := h
  constructor
  · intro c fs f d hfs hdl
    rw [ensureCat_configMap] at hfs
    obtain ⟨h1, h2⟩ := hstr c fs f d hfs hdl
    constructor
    · rw [ensureCat_raw_lookup]
      by_cases hc : c = cat <;> simp [hc, h1]
    · rw [ensureCat_val_lookup]
      by_cases hc : c = cat <;> simp [hc, h2]
  · intro hdirty
    rw [ensureCat_dirty] at hdirty
    intro c fs f d hfs hdl
    rw [ensureCat_configMap] at hfs
    rw [ensureCat_rawGet, ensureCat_valGet]
    exact hcoh hdirty c fs f d hfs hdl

theorem Inv_setRawUnval (s : PanelState) (cat fld : String) (v : JVal) (h : Inv s) :
    Inv (setRawUnval s cat fld v) := by
  obtain ⟨hstr, _⟩ := h
  constructor
  · intro c fs f d hfs hdl
    rw [setRawUnval_configMap] at hfs
    obtain ⟨h1, h2⟩ := hstr c fs f d hfs hdl
    constructor
    · rw [setRawUnval_raw_lookup]
      by_cases hc : c = cat <;> simp [hc, h1]
    · rw [setRawUnval_val_lookup]
      by_cases hc : c = cat <;> simp [hc, h2]
  · intro hdirty
    rw [setRawUnval_dirty] at hdirty
    cases hdirty

theorem Inv_applyWrites (ws : List ((String × String) × JVal)) (s : PanelState)
    (h : Inv s) : Inv (applyWrites s ws) := by
  induction ws generalizing s with
  | nil => exact h
  | cons hd r ih => exact ih _ (Inv_setRawUnval s hd.1.1 hd.1.2 hd.2 h)

theorem okWrite_raw_lookup (s : PanelState) (cat fld : String) (v p : JVal)
    (c : String) :
    lookupA (okWrite s cat fld v p).rawInputMap c =
      if c = cat then some (setA ((lookupA s.rawInputMap cat).getD []) fld v)
      else lookupA s.rawInputMap c := by
  unfold okWrite
  rw [show (writeRaw (writeVal (ensureCat s cat) cat fld p) cat fld v).rawInputMap
      = (writeRaw { ensureCat s cat with
          valueMap := (writeVal (ensureCat s cat) cat fld p).valueMap } cat fld v).rawInputMap
      from rfl]
  rw [writeRaw_raw_lookup]
  by_cases hc : c = cat
  · subst hc
    rw [if_pos rfl, if_pos rfl]
    have he := ensureCat_raw_lookup s c c
    simp only [if_pos rfl] at he
    rw [show ({ ensureCat s c with
        valueMap := (writeVal (ensureCat s c) c fld p).valueMap } : PanelState).rawInputMap
        = (ensureCat s c).rawInputMap from rfl, he]
    rfl
  · rw [if_neg hc, if_neg hc]
    have he := ensureCat_raw_lookup s cat c
    simp only [if_neg hc] at he
    exact he

theorem Inv_okWrite (s : PanelState) (cat fld : String) (v p : JVal) (h : Inv s)
    (hcond : ∀ fs d, lookupA s.configMap cat = some fs → lookupA fs fld = some d →
      d.type.parse v = .ok p) :
    Inv (okWrite s cat fld v p) := by
  obtain ⟨hstr, hcoh⟩ := h
  constructor
  · intro c fs f d hfs hdl
    rw [okWrite_configMap] at hfs
    obtain ⟨h1, h2⟩ := hstr c fs f d hfs hdl
    constructor
    · rw [okWrite_raw_lookup]
      by_cases hc : c = cat <;> simp [hc, h1]
    · rw [okWrite_val_lookup]
      by_cases hc : c = cat <;> simp [hc, h2]
  · intro hdirty
    rw [okWrite_dirty] at hdirty
    intro c fs f d hfs hdl
    rw [okWrite_configMap] at hfs
    rw [okWrite_rawGet, okWrite_valGet]
    by_cases hc : c = cat ∧ f = fld
    · rw [if_pos hc, if_pos hc]
      obtain ⟨hc1, hc2⟩ := hc
      subst hc1
      subst hc2
      exact hcond fs d hfs hdl
    · rw [if_neg hc, if_neg hc]
      exact hcoh hdirty c fs f d hfs hdl

theorem Inv_getValues_ok (s s' : PanelState)
    (hnd : (s.configMap.map Prod.fst).Nodup)
    (h : getValues s = .ok s') (hInv : Inv s) : Inv s' := by
  cases hd : s.isValueMapDirty with
  | false =>
    rw [getValues_not_dirty s hd] at h
    rw [← (Option.some_inj.mp (congrArg Except.toOption h))]
    exact hInv
  | true =>
    obtain ⟨hstr, _⟩ := hInv
    rcases getValues_dirty_ok_inv s s' hd h with ⟨parsed, hz, hs'⟩
    rcases zodParse_ok_inv _ _ _ hz with ⟨hnil, hparsed⟩
    rcases getValues_ok_coherent s s' hd hnd h with ⟨h1, h2, _, h4, hcoh⟩
    constructor
    · intro c fs f d hfs hdl
      rw [h2] at hfs
      obtain ⟨hr, _⟩ := hstr c fs f d hfs hdl
      constructor
      · rw [h1]
        exact hr
      · have hfsne : fs ≠ [] := by
          intro hh
          rw [hh] at hdl
          simp [lookupA] at hdl
        rcases zodParseAux_ok_lookup s.configMap s.rawInputMap c fs hnil hnd hfs hfsne
          with ⟨rc, hrc, hpl, hbnil⟩
        have hpnd : (parsed.map Prod.fst).Nodup := by
          rw [hparsed]
          exact (zodParseAux_keys_sublist s.configMap s.rawInputMap).nodup hnd
        have hpl2 : lookupA parsed c = some (zodParseCat c fs rc).1 := by
          rw [hparsed]
          exact hpl
        rcases assignValues_val_lookup_some s parsed c _ hpnd hpl2 with ⟨i, hvl⟩
        rw [hs']
        rw [hvl]
        rfl
    · intro _
      intro c fs f d hfs hdl
      rw [h2] at hfs
      have := hcoh c fs f d hfs hdl
      have hrg : rawGet s' c f = rawGet s c f := by
        unfold rawGet
        rw [h1]
      rw [hrg]
      exact this

theorem mem_setA {α : Type} (m : List (String × α)) (k : String) (v : α)
    (x : String × α) (h : x ∈ setA m k v) : x ∈ m ∨ x = (k, v) := by
  induction m with
  | nil =>
    simp [setA] at h
    exact Or.inr h
  | cons hd r ih =>
    by_cases hk : hd.1 = k
    · rw [show setA (hd :: r) k v = (k, v) :: r from by simp [setA, hk]] at h
      rcases List.mem_cons.mp h with hhd | htl
      · exact Or.inr hhd
      · exact Or.inl (by simp [htl])
    · rw [show setA (hd :: r) k v = hd :: setA r k v from by simp [setA, hk]] at h
      rcases List.mem_cons.mp h with hhd | htl
      · exact Or.inl (by simp [hhd])
      · rcases ih htl with hm | he
        · exact Or.inl (by simp [hm])
        · exact Or.inr he

theorem foldl_fields_mem (cat : String) (fields : List (String × ConfigDefinition))
    (acc : List (String × (String × String × ConfigDefinition)))
    (P : String × (String × String × ConfigDefinition) → Prop)
    (hacc : ∀ e ∈ acc, P e)
    (hnew : ∀ fd ∈ fields, ∀ a, (fd.2 : ConfigDefinition).argName = some a →
      P (a, (cat, fd.1, fd.2))) :
    ∀ e ∈ fields.foldl
      (fun acc' fd =>
        match fd.2.argName with
        | some a => setA acc' a (cat, fd.1, fd.2)
        | none => acc') acc, P e := by
  induction fields generalizing acc with
  | nil => exact hacc
  | cons fd r ih =>
    intro e he
    rw [List.foldl_cons] at he
    cases ha : fd.2.argName with
    | none =>
      rw [ha] at he
      exact ih acc hacc (fun fd2 h2 => hnew fd2 (by simp [h2])) e he
    | some a =>
      rw [ha] at he
      refine ih _ ?_ (fun fd2 h2 => hnew fd2 (by simp [h2])) e he
      intro e2 he2
      rcases mem_setA acc a (cat, fd.1, fd.2) e2 he2 with hm | heq
      · exact hacc e2 hm
      · rw [heq]
        exact hnew fd (by simp) a ha

theorem foldl_schema_mem (schema : Schema)
    (acc : List (String × (String × String × ConfigDefinition)))
    (P : String × (String × String × ConfigDefinition) → Prop)
    (hacc : ∀ e ∈ acc, P e)
    (hnew : ∀ cf ∈ schema, ∀ fd ∈ cf.2, ∀ a,
      (fd.2 : ConfigDefinition).argName = some a → P (a, (cf.1, fd.1, fd.2))) :
    ∀ e ∈ schema.foldl
      (fun acc' cf =>
        cf.2.foldl
          (fun acc2 fd =>
            match fd.2.argName with
            | some a => setA acc2 a (cf.1, fd.1, fd.2)
            | none => acc2) acc') acc, P e := by
  induction schema generalizing acc with
  | nil => exact hacc
  | cons cf r ih =>
    intro e he
    rw [List.foldl_cons] at he
    refine ih _ ?_ (fun cf2 h2 => hnew cf2 (by simp [h2])) e he
    exact foldl_fields_mem cf.1 cf.2 acc P hacc
      (fun fd hfd a ha => hnew cf (by simp) fd hfd a ha)

theorem buildSetters_mem (schema : Schema)
    (e : String × (String × String × ConfigDefinition))
    (he : e ∈ buildSetters schema) :
    ∃ fs0, (e.2.1, fs0) ∈ schema ∧ (e.2.2.1, e.2.2.2) ∈ fs0 := by
  refine foldl_schema_mem schema []
    (fun e2 => ∃ fs0, (e2.2.1, fs0) ∈ schema ∧ (e2.2.2.1, e2.2.2.2) ∈ fs0)
    (by intro e2 he2; simp at he2) ?_ e he
  intro cf hcf fd hfd a ha
  exact ⟨cf.2, hcf, hfd⟩

theorem Inv_runSetters (args : List (String × JVal)) (cm : Schema)
    (L : List (String × (String × String × ConfigDefinition))) :
    ∀ s : PanelState, s.configMap = cm → Inv s →
    (∀ e ∈ L, ∀ fs dd, lookupA cm e.2.1 = some fs → lookupA fs e.2.2.1 = some dd →
      dd = e.2.2.2) →
    (match runSetters args s L with
     | .ok s' => Inv s' ∧ s'.configMap = cm
     | .error es => Inv es.2 ∧ es.2.configMap = cm) := by
  induction L with
  | nil =>
    intro s hcm hInv _
    exact ⟨hInv, hcm⟩
  | cons e r ih =>
    intro s hcm hInv hagree
    obtain ⟨a, c0, f0, d0⟩ := e
    show (match (match lookupA args a with
      | none => runSetters args s r
      | some v =>
        match setRawValue s c0 f0 v (some d0) with
        | .error e2 => .error e2
        | .ok (_, s2) => runSetters args s2 r) with
      | .ok s' => Inv s' ∧ s'.configMap = cm
      | .error es => Inv es.2 ∧ es.2.configMap = cm)
    cases hl : lookupA args a with
    | none =>
      exact ih s hcm hInv (fun e2 he2 => hagree e2 (by simp [he2]))
    | some v =>
      show (match (match setRawValue s c0 f0 v (some d0) with
        | .error e2 => (.error e2 : Except (String × PanelState) PanelState)
        | .ok (_, s2) => runSetters args s2 r) with
        | .ok s' => Inv s' ∧ s'.configMap = cm
        | .error es => Inv es.2 ∧ es.2.configMap = cm)
      cases hsv : setRawValue s c0 f0 v (some d0) with
      | error e2 =>
        show Inv e2.2 ∧ e2.2.configMap = cm
        cases hp : d0.type.parse v with
        | ok p =>
          rw [setRawValue_some_ok s c0 f0 v d0 p hp] at hsv
          cases hsv
        | error issues =>
          rw [setRawValue_some_error s c0 f0 v d0 issues hp] at hsv
          injection hsv with h
          rw [← h]
          exact ⟨Inv_ensureCat s c0 hInv, by rw [ensureCat_configMap]; exact hcm⟩
      | ok ps =>
        obtain ⟨hp, hs2⟩ := setRawValue_some_ok_inv s c0 f0 v d0 ps.1 ps.2 (by rw [hsv])
        show (match runSetters args ps.2 r with
          | .ok s' => Inv s' ∧ s'.configMap = cm
          | .error es => Inv es.2 ∧ es.2.configMap = cm)
        refine ih ps.2 ?_ ?_ (fun e2 he2 => hagree e2 (by simp [he2]))
        · rw [hs2, okWrite_configMap]
          exact hcm
        · rw [hs2]
          refine Inv_okWrite s c0 f0 v ps.1 hInv ?_
          intro fs dd hfs hdl
          have hdd : dd = d0 := hagree (a, (c0, f0, d0)) (by simp) fs dd
            (by rw [← hcm]; exact hfs) hdl
          rw [hdd]
          exact hp

theorem objAssign_isSome (m obj : CatMap) (c : String)
    (h : (lookupA m c).isSome) : (lookupA (objAssign m obj) c).isSome := by
  induction obj generalizing m with
  | nil => exact h
  | cons kv r ih =>
    show (lookupA (objAssign (setA m kv.1 kv.2) r) c).isSome
    refine ih _ ?_
    by_cases hc : kv.1 = c
    · rw [← hc, lookupA_setA_self]
      rfl
    · rw [lookupA_setA_ne _ _ _ _ hc]
      exact h

theorem Inv_emit (s : PanelState) (n : String) (p : Payload) (h : Inv s) :
    Inv (emit s n p) := h

theorem Inv_fromJSON (s : PanelState) (o : Option CatMap) (h : Inv s) :
    Inv (fromJSON s o) := by
  cases o with
  | none => exact h
  | some obj =>
    obtain ⟨hstr, _⟩ := h
    constructor
    · intro c fs f d hfs hdl
      obtain ⟨h1, h2⟩ := hstr c fs f d hfs hdl
      exact ⟨objAssign_isSome _ _ _ h1, h2⟩
    · intro hdirty
      exact absurd hdirty (by simp [fromJSON])

theorem Inv_construct (schema : Schema) : Inv (construct schema) := by
  constructor
  · intro c fs f d hfs hdl
    have hne : fs ≠ [] := by
      intro hh
      rw [hh] at hdl
      simp [lookupA] at hdl
    rw [construct_configMap] at hfs
    exact construct_containers schema c fs hfs hne
  · intro hd
    rw [construct_dirty] at hd
    cases hd

theorem buildSetters_agree (cm : Schema)
    (hnd : (cm.map Prod.fst).Nodup)
    (hnf : ∀ cf ∈ cm, (cf.2.map Prod.fst).Nodup) :
    ∀ e ∈ buildSetters cm, ∀ fs dd, lookupA cm e.2.1 = some fs →
      lookupA fs e.2.2.1 = some dd → dd = e.2.2.2 := by
  intro e he fs dd hfs hdl
  obtain ⟨fs0, hmem, hfd⟩ := buildSetters_mem cm e he
  have hl0 : lookupA cm e.2.1 = some fs0 := lookupA_of_mem_nodup cm e.2.1 fs0 hmem hnd
  rw [hfs] at hl0
  have hfs0 : fs = fs0 := Option.some_inj.mp hl0
  subst hfs0
  have hl1 : lookupA fs e.2.2.1 = some e.2.2.2 :=
    lookupA_of_mem_nodup fs e.2.2.1 e.2.2.2 hfd (hnf (e.2.1, fs) hmem)
  rw [hdl] at hl1
  exact Option.some_inj.mp hl1

theorem setRaw_gcd_error (s : PanelState) (cat fld : String) (v m : String)
    (h : getConfigDefinition s.configMap cat fld = .error m) :
    setRaw s cat fld v = .error (m, s) := by
  unfold setRaw
  rw [h]

theorem setRaw_gcd_ok (s : PanelState) (cat fld : String) (v : String)
    (d : ConfigDefinition) (h : getConfigDefinition s.configMap cat fld = .ok d) :
    setRaw s cat fld v = setRawValue s cat fld (.str v) (some d) := by
  unfold setRaw
  rw [h]

theorem onValueChange_gcd_error (s : PanelState) (cat fld : String) (v : JVal)
    (m : String) (h : getConfigDefinition s.configMap cat fld = .error m) :
    onValueChange s cat fld v = .error (m, s) := by
  unfold onValueChange
  rw [h]

theorem onValueChange_eq_of (s : PanelState) (cat fld : String) (v : JVal)
    (config : ConfigDefinition)
    (hg : getConfigDefinition s.configMap cat fld = .ok config) :
    onValueChange s cat fld v =
      match setRawValue s cat fld v (some config) with
      | .error e => .error e
      | .ok (pv, s1) =>
        match getValues (emit (emit (emit s1 "change" (.pathValue [cat, fld] pv))
            (getChangeKey cat none) (.pathValue [cat, fld] pv))
            (getChangeKey cat (some fld)) (.value pv)) with
        | .ok s5 => .ok (emit s5 "values" (.valuesTree (treeOf s5.valueMap)))
        | .error issues =>
          .ok (emit (emit (emit (emit s1 "change" (.pathValue [cat, fld] pv))
            (getChangeKey cat none) (.pathValue [cat, fld] pv))
            (getChangeKey cat (some fld)) (.value pv)) "error" (.errAgg issues)) := by
  unfold onValueChange
  rw [hg]

theorem onValueChange_srv_error (s : PanelState) (cat fld : String) (v : JVal)
    (config : ConfigDefinition) (issues : List String)
    (hg : getConfigDefinition s.configMap cat fld = .ok config)
    (hp : config.type.parse v = .error issues) :
    onValueChange s cat fld v =
      .error ("Invalid value for " ++ cat ++ "." ++ fld ++ ": "
        ++ String.intercalate "; " issues ++ " (" ++ jsToStr v ++ ")", ensureCat s cat) := by
  rw [onValueChange_eq_of s cat fld v config hg,
    setRawValue_some_error s cat fld v config issues hp]

theorem onValueChange_values_ok (s : PanelState) (cat fld : String) (v : JVal)
    (config : ConfigDefinition) (p : JVal) (s5 : PanelState)
    (hg : getConfigDefinition s.configMap cat fld = .ok config)
    (hp : config.type.parse v = .ok p)
    (hgv : getValues (emit (emit (emit (okWrite s cat fld v p) "change"
        (.pathValue [cat, fld] p)) (getChangeKey cat none) (.pathValue [cat, fld] p))
        (getChangeKey cat (some fld)) (.value p)) = .ok s5) :
    onValueChange s cat fld v =
      .ok (emit s5 "values" (.valuesTree (treeOf s5.valueMap))) := by
  rw [onValueChange_eq_of s cat fld v config hg]
  rw [show setRawValue s cat fld v (some config) = .ok (p, okWrite s cat fld v p) from
    setRawValue_some_ok s cat fld v config p hp]
  show (match getValues (emit (emit (emit (okWrite s cat fld v p) "change"
      (.pathValue [cat, fld] p)) (getChangeKey cat none) (.pathValue [cat, fld] p))
      (getChangeKey cat (some fld)) (.value p)) with
    | .ok s5 => (.ok (emit s5 "values" (.valuesTree (treeOf s5.valueMap))) :
        Except (String × PanelState) PanelState)
    | .error issues =>
      .ok (emit (emit (emit (emit (okWrite s cat fld v p) "change"
        (.pathValue [cat, fld] p)) (getChangeKey cat none) (.pathValue [cat, fld] p))
        (getChangeKey cat (some fld)) (.value p)) "error" (.errAgg issues))) = _
  rw [hgv]

theorem onValueChange_values_error (s : PanelState) (cat fld : String) (v : JVal)
    (config : ConfigDefinition) (p : JVal) (issues : List AggIssue)
    (hg : getConfigDefinition s.configMap cat fld = .ok config)
    (hp : config.type.parse v = .ok p)
    (hgv : getValues (emit (emit (emit (okWrite s cat fld v p) "change"
        (.pathValue [cat, fld] p)) (getChangeKey cat none) (.pathValue [cat, fld] p))
        (getChangeKey cat (some fld)) (.value p)) = .error issues) :
    onValueChange s cat fld v =
      .ok (emit (emit (emit (emit (okWrite s cat fld v p) "change"
        (.pathValue [cat, fld] p)) (getChangeKey cat none) (.pathValue [cat, fld] p))
        (getChangeKey cat (some fld)) (.value p)) "error" (.errAgg issues)) := by
  rw [onValueChange_eq_of s cat fld v config hg]
  rw [show setRawValue s cat fld v (some config) = .ok (p, okWrite s cat fld v p) from
    setRawValue_some_ok s cat fld v config p hp]
  show (match getValues (emit (emit (emit (okWrite s cat fld v p) "change"
      (.pathValue [cat, fld] p)) (getChangeKey cat none) (.pathValue [cat, fld] p))
      (getChangeKey cat (some fld)) (.value p)) with
    | .ok s5 => (.ok (emit s5 "values" (.valuesTree (treeOf s5.valueMap))) :
        Except (String × PanelState) PanelState)
    | .error issues =>
      .ok (emit (emit (emit (emit (okWrite s cat fld v p) "change"
        (.pathValue [cat, fld] p)) (getChangeKey cat none) (.pathValue [cat, fld] p))
        (getChangeKey cat (some fld)) (.value p)) "error" (.errAgg issues))) = _
  rw [hgv]

theorem edit_okp_inv (cm : Schema) (hnd : (cm.map Prod.fst).Nodup)
    (s : PanelState) (cat fld : String) (v : JVal)
    (config : ConfigDefinition) (p : JVal)
    (hcm : s.configMap = cm) (hInv : Inv s)
    (hg : getConfigDefinition s.configMap cat fld = .ok config)
    (hp : config.type.parse v = .ok p) :
    ∀ s', onValueChange s cat fld v = .ok s' → Inv s' ∧ s'.configMap = cm := by
  have hcond : ∀ fs dd, lookupA s.configMap cat = some fs → lookupA fs fld = some dd →
      dd.type.parse v = .ok p := by
    obtain ⟨fs0, hfs0, hdl0⟩ := getConfigDefinition_ok_inv s.configMap cat fld config hg
    intro fs dd hfs hdl
    rw [hfs0] at hfs
    have h1 : fs0 = fs := Option.some_inj.mp hfs
    subst h1
    rw [hdl0] at hdl
    have h2 : config = dd := Option.some_inj.mp hdl
    rw [← h2]
    exact hp
  have hInvW : Inv (okWrite s cat fld v p) := Inv_okWrite s cat fld v p hInv hcond
  have hcW : (okWrite s cat fld v p).configMap = cm := by
    rw [okWrite_configMap]
    exact hcm
  intro s' h
  cases hgv : getValues (emit (emit (emit (okWrite s cat fld v p) "change"
      (.pathValue [cat, fld] p)) (getChangeKey cat none) (.pathValue [cat, fld] p))
      (getChangeKey cat (some fld)) (.value p)) with
  | ok s5 =>
    rw [onValueChange_values_ok s cat fld v config p s5 hg hp hgv] at h
    have hs' : emit s5 "values" (.valuesTree (treeOf s5.valueMap)) = s' :=
      Option.some_inj.mp (congrArg Except.toOption h)
    rw [← hs']
    have hcEM : (emit (emit (emit (okWrite s cat fld v p) "change"
        (.pathValue [cat, fld] p)) (getChangeKey cat none) (.pathValue [cat, fld] p))
        (getChangeKey cat (some fld)) (.value p)).configMap = cm := by
      rw [emit_configMap, emit_configMap, emit_configMap]
      exact hcW
    have hInv5 : Inv s5 :=
      Inv_getValues_ok _ s5 (by rw [hcEM]; exact hnd) hgv hInvW
    have hc5 : s5.configMap = cm := by
      rcases getValues_ok_state_facts _ s5 hgv with ⟨_, hc, _, _⟩ | he
      · rw [hc]
        exact hcEM
      · rw [he]
        exact hcEM
    exact ⟨hInv5, by rw [emit_configMap]; exact hc5⟩
  | error issues =>
    rw [onValueChange_values_error s cat fld v config p issues hg hp hgv] at h
    have hs' : emit (emit (emit (emit (okWrite s cat fld v p) "change"
        (.pathValue [cat, fld] p)) (getChangeKey cat none) (.pathValue [cat, fld] p))
        (getChangeKey cat (some fld)) (.value p)) "error" (.errAgg issues) = s' :=
      Option.some_inj.mp (congrArg Except.toOption h)
    rw [← hs']
    refine ⟨hInvW, ?_⟩
    rw [emit_configMap, emit_configMap, emit_configMap, emit_configMap]
    exact hcW

theorem editMatch_inv (cat fld : String) (v : JVal) (cm : Schema)
    (x : Except (String × PanelState) PanelState)
    (hok : ∀ s', x = .ok s' → Inv s' ∧ s'.configMap = cm)
    (herr : ∀ m s', x = .error (m, s') → Inv s' ∧ s'.configMap = cm) :
    Inv (stepEdit cat fld v x) ∧ (stepEdit cat fld v x).configMap = cm := by
  cases x with
  | ok s' => exact hok s' rfl
  | error e =>
    obtain ⟨m, s'⟩ := e
    obtain ⟨h1, h2⟩ := herr m s' rfl
    refine ⟨h1, ?_⟩
    show (emit s' "invalid_change" (.invalidChange [cat, fld] v m)).configMap = cm
    rw [emit_configMap]
    exact h2

theorem Inv_step (cm : Schema)
    (hnd : (cm.map Prod.fst).Nodup)
    (hnf : ∀ cf ∈ cm, (cf.2.map Prod.fst).Nodup)
    (op : Op) (s : PanelState) (hcm : s.configMap = cm) (hInv : Inv s) :
    Inv (step s op) ∧ (step s op).configMap = cm := by
  cases op with
  | envOp env pfx =>
    show Inv (fromEnvironment s env pfx) ∧ (fromEnvironment s env pfx).configMap = cm
    rw [fromEnvironment_eq_applyWrites]
    exact ⟨Inv_applyWrites _ s hInv, by rw [applyWrites_configMap]; exact hcm⟩
  | jsonOp obj =>
    show Inv (fromJSON s obj) ∧ (fromJSON s obj).configMap = cm
    refine ⟨Inv_fromJSON s obj hInv, ?_⟩
    rw [fromJSON_configMap]
    exact hcm
  | argsOp args =>
    have H := Inv_runSetters args cm (buildSetters cm) s hcm hInv
      (buildSetters_agree cm hnd hnf)
    show Inv (match runSetters args s (buildSetters s.configMap) with
      | .ok s' => s'
      | .error (_, s') => s') ∧
      PanelState.configMap (match runSetters args s (buildSetters s.configMap) with
      | .ok s' => s'
      | .error (_, s') => s') = cm
    rw [hcm]
    cases hr : runSetters args s (buildSetters cm) with
    | ok s' =>
      rw [hr] at H
      exact H
    | error es =>
      rw [hr] at H
      obtain ⟨m, s'⟩ := es
      exact H
  | setRawOp cat fld v =>
    show Inv (match setRaw s cat fld v with
      | .ok (_, s') => s'
      | .error (_, s') => s') ∧
      PanelState.configMap (match setRaw s cat fld v with
      | .ok (_, s') => s'
      | .error (_, s') => s') = cm
    cases hg : getConfigDefinition s.configMap cat fld with
    | error m =>
      rw [setRaw_gcd_error s cat fld v m hg]
      exact ⟨hInv, hcm⟩
    | ok d =>
      rw [setRaw_gcd_ok s cat fld v d hg]
      cases hp : d.type.parse (.str v) with
      | error issues =>
        rw [setRawValue_some_error s cat fld (.str v) d issues hp]
        exact ⟨Inv_ensureCat s cat hInv, by
          show (ensureCat s cat).configMap = cm
          rw [ensureCat_configMap]
          exact hcm⟩
      | ok p =>
        rw [show setRawValue s cat fld (.str v) (some d) = .ok (p, okWrite s cat fld (.str v) p)
          from setRawValue_some_ok s cat fld (.str v) d p hp]
        have hcond : ∀ fs dd, lookupA s.configMap cat = some fs →
            lookupA fs fld = some dd → dd.type.parse (.str v) = .ok p := by
          obtain ⟨fs0, hfs0, hdl0⟩ := getConfigDefinition_ok_inv s.configMap cat fld d hg
          intro fs dd hfs hdl
          rw [hfs0] at hfs
          have h1 : fs0 = fs := Option.some_inj.mp hfs
          subst h1
          rw [hdl0] at hdl
          have h2 : d = dd := Option.some_inj.mp hdl
          rw [← h2]
          exact hp
        exact ⟨Inv_okWrite s cat fld (.str v) p hInv hcond, by
          show (okWrite s cat fld (.str v) p).configMap = cm
          rw [okWrite_configMap]
          exact hcm⟩
  | valuesOp =>
    show Inv (match getValues s with
      | .ok s' => s'
      | .error _ => s) ∧
      PanelState.configMap (match getValues s with
      | .ok s' => s'
      | .error _ => s) = cm
    cases hgv : getValues s with
    | error issues => exact ⟨hInv, hcm⟩
    | ok s' =>
      have hc5 : s'.configMap = cm := by
        rcases getValues_ok_state_facts s s' hgv with ⟨_, hc, _, _⟩ | he
        · rw [hc]
          exact hcm
        · rw [he]
          exact hcm
      exact ⟨Inv_getValues_ok s s' (by rw [hcm]; exact hnd) hgv hInv, hc5⟩
  | editOp cat fld v =>
    show Inv (stepEdit cat fld v (onValueChange s cat fld v)) ∧
      (stepEdit cat fld v (onValueChange s cat fld v)).configMap = cm
    refine editMatch_inv cat fld v cm (onValueChange s cat fld v) ?_ ?_
    · intro s' h
      cases hg : getConfigDefinition s.configMap cat fld with
      | error m =>
        rw [onValueChange_gcd_error s cat fld v m hg] at h
        exact Except.noConfusion h
      | ok config =>
        cases hp : config.type.parse v with
        | error issues =>
          rw [onValueChange_srv_error s cat fld v config issues hg hp] at h
          exact Except.noConfusion h
        | ok p =>
          exact edit_okp_inv cm hnd s cat fld v config p hcm hInv hg hp s' h
    · intro m s' h
      cases hg : getConfigDefinition s.configMap cat fld with
      | error m2 =>
        rw [onValueChange_gcd_error s cat fld v m2 hg] at h
        injection h with h3
        have hs' : s = s' := congrArg Prod.snd h3
        rw [← hs']
        exact ⟨hInv, hcm⟩
      | ok config =>
        cases hp : config.type.parse v with
        | error issues =>
          rw [onValueChange_srv_error s cat fld v config issues hg hp] at h
          injection h with h3
          have hs' : ensureCat s cat = s' := congrArg Prod.snd h3
          rw [← hs']
          exact ⟨Inv_ensureCat s cat hInv, by rw [ensureCat_configMap]; exact hcm⟩
        | ok p =>
          cases hgv : getValues (emit (emit (emit (okWrite s cat fld v p) "change"
              (.pathValue [cat, fld] p)) (getChangeKey cat none) (.pathValue [cat, fld] p))
              (getChangeKey cat (some fld)) (.value p)) with
          | ok s5 =>
            rw [onValueChange_values_ok s cat fld v config p s5 hg hp hgv] at h
            exact Except.noConfusion h
          | error issues =>
            rw [onValueChange_values_error s cat fld v config p issues hg hp hgv] at h
            exact Except.noConfusion h

theorem Inv_run (schema : Schema)
    (hnd : (schema.map Prod.fst).Nodup)
    (hnf : ∀ cf ∈ schema, (cf.2.map Prod.fst).Nodup)
    (ops : List Op) :
    Inv (run schema ops) ∧ (run schema ops).configMap = schema := by
  have key : ∀ (l : List Op) (s : PanelState), s.configMap = schema → Inv s →
      Inv (l.foldl step s) ∧ (l.foldl step s).configMap = schema := by
    intro l
    induction l with
    | nil =>
      intro s h1 h2
      exact ⟨h2, h1⟩
    | cons op r ih =>
      intro s h1 h2
      obtain ⟨hi, hc⟩ := Inv_step schema hnd hnf op s h1 h2
      exact ih (step s op) hc hi
  exact key ops (construct schema) (construct_configMap schema) (Inv_construct schema)

/-- C10: cache coherence.  On any schema whose category keys are distinct
and whose field keys are distinct within each category: (1) after
construction and any sequence of public operations (the three loaders,
host-facing validated writes, `values` reads and channel edits), whenever
the dirty flag is false every cached field value is exactly the field
descriptor's parse of the corresponding raw value — the value cache
agrees pointwise with the full-schema parse of the raw store; and the
operations that write raw values without parsing mark the cache dirty:
(2) the environment loader whenever it changed the raw store, (3) the
JSON loader whenever a file object was present, and (4) the constructor,
which seeds the raw store with the unparsed defaults. -/
theorem spec_c10_cache_coherence (schema : Schema)
    (hnd : (schema.map Prod.fst).Nodup)
    (hnf : ∀ cf ∈ schema, (cf.2.map Prod.fst).Nodup) :
    (∀ ops : List Op, (run schema ops).isValueMapDirty = false →
      ∀ c fs f d, lookupA schema c = some fs → lookupA fs f = some d →
        d.type.parse (rawGet (run schema ops) c f)
          = .ok (valGet (run schema ops) c f)) ∧
    (∀ (s : PanelState) (env : List (String × String)) (pfx : String),
      (fromEnvironment s env pfx).rawInputMap ≠ s.rawInputMap →
      (fromEnvironment s env pfx).isValueMapDirty = true) ∧
    (∀ (s : PanelState) (o : CatMap), (fromJSON s (some o)).isValueMapDirty = true) ∧
    (∀ schema2 : Schema, (construct schema2).isValueMapDirty = true) := by
  refine ⟨?_, fromEnvironment_dirty_of_raw_changed, fromJSON_some_dirty, construct_dirty⟩
  intro ops hdirty c fs f d hfs hdl
  obtain ⟨⟨_, hcoh⟩, hcm⟩ := Inv_run schema hnd hnf ops
  exact hcoh hdirty c fs f d (by rw [hcm]; exact hfs) hdl

theorem spec_c10_witness :
    (demoSchema.map Prod.fst).Nodup ∧
    (run demoSchema [Op.editOp "cat_2" "test_enum" (JVal.str "Salmon")]).isValueMapDirty
      = false ∧
    fishDef.type.parse
        (rawGet (run demoSchema [Op.editOp "cat_2" "test_enum" (JVal.str "Salmon")])
          "cat_2" "test_enum")
      = .ok (valGet (run demoSchema [Op.editOp "cat_2" "test_enum" (JVal.str "Salmon")])
          "cat_2" "test_enum") := by
  refine ⟨by decide, by rfl, ?_⟩
  exact (spec_c10_cache_coherence demoSchema (by decide) (by decide)).1
    [Op.editOp "cat_2" "test_enum" (JVal.str "Salmon")] (by rfl)
    "cat_2" [("test_enum", fishDef)] "test_enum" fishDef (by rfl) (by rfl)

end NodeConfigPanel
